import Mathlib

/-!
Verification of the ship-proxy system: a ship-side HTTP proxy agent
(src/client/ship-proxy.js with src/client/framing.js) and an offshore relay
(the unnamed offshore proxy source file), which exchange length-prefixed
typed frames over a single managed TCP/TLS connection.

The development contains:
1. a byte-level embedding of the framing codec (sendMessage and the
   while-loops of setupMessageReader on the ship side and of the
   handleClient data handler on the offshore side);
2. an executable base64 codec modelling the Buffer base64 conversions;
3. a small-step operational model of the ship-side sequential dispatcher
   (enqueueRequest, processingLoop, connection handlers) in which each
   pending invocation of the async processingLoop is a task with a program
   counter, so that the concurrency of the Node event loop is captured;
4. a small-step operational model of the offshore relay dispatcher
   (handleRequestQueue, cleanupRequest, handleClient).

Bytes are modelled as Nat (values below 256 where it matters), JSON
serialization of envelopes is modelled as the identity on structured
records, and socket writes are modelled as labels in an event log.
-/

/-! ## Framing codec (src/client/framing.js, offshore data handler) -/

/-- Byte image of sendMessage: a 4-byte big-endian length prefix, one type
byte (Buffer.from truncates the value modulo 256) and the payload bytes. -/
def sendMessageFrame (msgType : Nat) (payload : List Nat) : List Nat :=
  [payload.length / 16777216 % 256, payload.length / 65536 % 256,
   payload.length / 256 % 256, payload.length % 256, msgType % 256] ++ payload

/-- Concatenation of the frames of a list of (type, payload) pairs. -/
def encodeFrames : List (Nat × List Nat) → List Nat
  | [] => []
  | (t, p) :: fs => sendMessageFrame t p ++ encodeFrames fs

/-- Well-formedness of a (type, payload) pair: the type fits in the single
type byte and the payload length fits in the 32-bit length prefix. -/
def WFFrame (f : Nat × List Nat) : Prop := f.1 < 256 ∧ f.2.length < 4294967296

instance (f : Nat × List Nat) : Decidable (WFFrame f) := by
  unfold WFFrame; infer_instance

/-- The while-loop of setupMessageReader: as long as at least 5 bytes are
buffered and the buffered data covers the announced payload length, emit one
(type, payload) pair and drop the consumed bytes; otherwise stop and keep
the buffer. Returns the emitted messages and the remaining buffer. -/
def messageReaderLoop (buf : List Nat) : List (Nat × List Nat) × List Nat :=
  match buf with
  | b0 :: b1 :: b2 :: b3 :: t :: rest =>
    if h : b0 * 16777216 + b1 * 65536 + b2 * 256 + b3 ≤ rest.length then
      let more :=
        messageReaderLoop (rest.drop (b0 * 16777216 + b1 * 65536 + b2 * 256 + b3))
      ((t, rest.take (b0 * 16777216 + b1 * 65536 + b2 * 256 + b3)) :: more.1,
       more.2)
    else
      ([], buf)
  | _ => ([], buf)
termination_by buf.length
decreasing_by simp [List.length_drop]; omega

/-- The while-loop of the offshore handleClient data handler: same framing
discipline, but a frame whose type byte is not 0 is skipped (its payload is
dropped using the announced length) and only type-0 payloads are emitted. -/
def offshoreReaderLoop (buf : List Nat) : List (List Nat) × List Nat :=
  match buf with
  | b0 :: b1 :: b2 :: b3 :: t :: rest =>
    if h : b0 * 16777216 + b1 * 65536 + b2 * 256 + b3 ≤ rest.length then
      let more :=
        offshoreReaderLoop (rest.drop (b0 * 16777216 + b1 * 65536 + b2 * 256 + b3))
      if t = 0 then
        ((rest.take (b0 * 16777216 + b1 * 65536 + b2 * 256 + b3)) :: more.1,
         more.2)
      else more
    else
      ([], buf)
  | _ => ([], buf)
termination_by buf.length
decreasing_by simp [List.length_drop]; omega

/-- Incremental delivery: feed the chunks one at a time, each time running
the reader loop on the carried-over buffer extended by the chunk, collecting
all emitted messages. -/
def feedChunks : List Nat → List (List Nat) → List (Nat × List Nat) × List Nat
  | buf, [] => ([], buf)
  | buf, c :: cs =>
    let r1 := messageReaderLoop (buf ++ c)
    let r2 := feedChunks r1.2 cs
    (r1.1 ++ r2.1, r2.2)

/-! ## Base64 codec (Buffer toString base64 and Buffer.from base64) -/

/-- Standard base64 alphabet used by Buffer. -/
def b64Alphabet : List Char :=
  "ABCDEFGHIJKLMNOPQRSTUVWXYZabcdefghijklmnopqrstuvwxyz0123456789+/".toList

/-- Encoding character for a 6-bit value. -/
def b64Char (n : Nat) : Char := b64Alphabet.getD n (Char.ofNat 65)

/-- 6-bit value of an alphabet character (alphabet position). -/
def b64Val (c : Char) : Nat := b64Alphabet.indexOf c

/-- Byte list to base64 characters, three input bytes per four output
characters, with trailing padding, as Buffer toString base64 produces. -/
def b64EncodeBytes : List Nat → List Char
  | [] => []
  | [a] => [b64Char (a / 4), b64Char (a % 4 * 16), '=', '=']
  | [a, b] =>
      [b64Char (a / 4), b64Char (a % 4 * 16 + b / 16), b64Char (b % 16 * 4), '=']
  | a :: b :: d :: rest =>
      b64Char (a / 4) :: b64Char (a % 4 * 16 + b / 16) ::
        b64Char (b % 16 * 4 + d / 64) :: b64Char (d % 64) :: b64EncodeBytes rest

/-- Base64 characters back to bytes, as Buffer.from with base64 encoding
consumes well-formed padded input. -/
def b64DecodeBytes : List Char → List Nat
  | c1 :: c2 :: c3 :: c4 :: rest =>
      if c3 = '=' then [b64Val c1 * 4 + b64Val c2 / 16]
      else if c4 = '=' then
        [b64Val c1 * 4 + b64Val c2 / 16, b64Val c2 % 16 * 16 + b64Val c3 / 4]
      else
        (b64Val c1 * 4 + b64Val c2 / 16) ::
          (b64Val c2 % 16 * 16 + b64Val c3 / 4) ::
          (b64Val c3 % 4 * 64 + b64Val c4) :: b64DecodeBytes rest
  | _ => []

/-- String form of the base64 encoding of a byte list. -/
def b64EncodeStr (bs : List Nat) : String := String.mk (b64EncodeBytes bs)

/-- Byte list decoded from a base64 string. -/
def b64DecodeStr (s : String) : List Nat := b64DecodeBytes s.toList

/-! ## Envelopes and request data (JSON records modelled structurally) -/

/-- Request envelope carried as the payload of a type-0 frame (the JSON
record built at processingLoop lines 118 to 124; the constant type field is
not modelled). -/
structure ReqEnvelope where
  method : String
  url : String
  headers : List (String × String)
  body : String
deriving DecidableEq

/-- Response envelope carried as the payload of a type-1 frame. -/
structure RespEnvelope where
  statusCode : Nat
  headers : List (String × String)
  body : String
deriving DecidableEq

/-- Data of one incoming proxy request on the ship side: the tunnel flag,
the request line fields and the request body bytes the client will send. -/
structure EntryData where
  isConnect : Bool
  method : String
  url : String
  headers : List (String × String)
  bodyBytes : List Nat
deriving DecidableEq

/-- Bytes of a string, modelling Buffer.from on textual content. -/
def strBytes (s : String) : List Nat := s.toList.map Char.toNat

/-- Decimal integer prefix parse modelling parseInt with radix 10 on the
port strings that occur in CONNECT targets: leading whitespace is skipped,
then the longest digit prefix is read; none models NaN. Sign prefixes are
not modelled, they do not occur in proxy targets. -/
def jsParseInt (s : String) : Option Nat :=
  let ds := (s.toList.dropWhile Char.isWhitespace).takeWhile Char.isDigit
  if ds.isEmpty then none
  else some (ds.foldl (fun a c => a * 10 + (c.toNat - 48)) 0)

/-- The pattern parseInt(p, 10) with 443 as fallback used by the ship
CONNECT branch: NaN and 0 are both falsy, so both fall back to 443. -/
def jsParseIntOr443 (s : String) : Nat :=
  match jsParseInt s with
  | none => 443
  | some 0 => 443
  | some n => n

def colonSep : String := ":"

/-- Host and port extraction of the ship CONNECT branch (processingLoop
lines 156 to 164): if the CONNECT target contains a colon it is split at
colons, the first part is the host and the second is parsed as the port
with fallback 443; otherwise the host header is the host and the port is
443. -/
def parseConnectTarget (target : String) (hostHeader : String) : String × Nat :=
  if target.contains ':' then
    match target.splitOn colonSep with
    | host :: portStr :: _ => (host, jsParseIntOr443 portStr)
    | _ => (target, 443)
  else (hostHeader, 443)

def hostKey : String := "host"

/-- Value of the host header of a request, empty when absent. -/
def hostHeaderOf (hs : List (String × String)) : String :=
  match hs.lookup hostKey with
  | some v => v
  | none => ""

/-- Request envelope built by processingLoop for a non-CONNECT entry: the
method, url and headers of the incoming request, and the body bytes encoded
as base64 text. -/
def mkReqEnvelope (d : EntryData) : ReqEnvelope :=
  { method := d.method, url := d.url, headers := d.headers,
    body := b64EncodeStr d.bodyBytes }

/-! ## Ship-side sequential dispatcher model (src/client/ship-proxy.js)

Each pending invocation of the async processingLoop is a task identified by
its position in the task list and carrying a program counter. Observable
socket writes are labels appended to the event log. The managed connection
to the offshore relay is a flag plus, for composition with an in-order
relay, a queue of delivered type-0 payloads. -/

/-- Program counter of one suspended processingLoop invocation. -/
inductive TaskPc where
  | waitRetry (eid : Nat)
  | awaitEnd (eid : Nat)
  | stuckEnd (eid : Nat)
  | awaitResp (eid : Nat)
deriving DecidableEq

/-- Observable actions of the ship proxy. -/
inductive ShipLabel where
  | sendFrame (eid : Nat) (env : ReqEnvelope)
  | clientAnswer (eid : Nat) (status : Nat) (headers : List (String × String))
      (body : List Nat)
  | clientAnswerDup (eid : Nat)
  | directConnect (eid : Nat) (host : String) (port : Nat)
  | rawWrite (eid : Nat) (line : String)
  | teardown (eid : Nat)
deriving DecidableEq

/-- State of one direct CONNECT tunnel opened by the ship proxy. -/
structure Tunnel where
  eid : Nat
  established : Bool
  errFired : Bool
  clientClosed : Bool
  remoteClosed : Bool
deriving DecidableEq

/-- Global mutable state of the ship proxy process: the request queue and
processing flag, the connection flag, the suspended processingLoop tasks,
per-request stream state (data listeners attached, end event fired), the
single-resolution response promises, the set of clients already answered,
the open tunnels, the frames delivered to the relay and the event log. -/
structure ShipState where
  entries : List EntryData
  queue : List Nat
  processing : Bool
  connected : Bool
  tasks : List TaskPc
  endFired : List Nat
  flowing : List Nat
  resolvedVal : List (Nat × RespEnvelope)
  answered : List Nat
  tunnels : List Tunnel
  relayQ : List ReqEnvelope
  log : List ShipLabel
deriving DecidableEq

def initShip : ShipState :=
  { entries := [], queue := [], processing := false, connected := false,
    tasks := [], endFired := [], flowing := [], resolvedVal := [],
    answered := [], tunnels := [], relayQ := [], log := [] }

/-- First resolution value of the response promise of an entry. -/
def rvLookup (l : List (Nat × RespEnvelope)) (e : Nat) : Option RespEnvelope :=
  (l.find? (fun p => p.1 == e)).map (fun p => p.2)

def badGatewayUnavailableMsg : String := "Bad Gateway: offshore unavailable"

def gatewayTimeoutMsg : String := "Gateway Timeout"

def connEstablishedLine : String := "HTTP/1.1 200 Connection Established\r\n\r\n"

def badGatewayLine : String := "HTTP/1.1 502 Bad Gateway\r\n\r\n"

/-- Attaching the data listener of processingLoop line 113 starts the
request stream flowing (an http request stream is paused until then). -/
def markFlowing (s : ShipState) (eid : Nat) : ShipState :=
  if eid ∈ s.endFired then s
  else if eid ∈ s.flowing then s
  else { s with flowing := s.flowing ++ [eid] }

/-- Program counter after attaching the end listener of line 115: when the
end event already fired, the freshly registered listener never fires and the
invocation is parked forever; otherwise the invocation waits for end. -/
def registerPc (s : ShipState) (eid : Nat) : TaskPc :=
  if eid ∈ s.endFired then TaskPc.stuckEnd eid else TaskPc.awaitEnd eid

/-- Synchronous prefix of a processingLoop invocation: return at once if the
processing flag is set or the queue is empty (line 92); otherwise set the
flag and peek at the head entry without removing it. A CONNECT entry starts
the direct tunnel (lines 154 to 200) and the invocation returns. A plain
entry with the offshore socket down starts a reconnect and suspends in the
200 ms wait (lines 99 to 101); with a live socket it attaches the body
listeners and suspends awaiting the end event (lines 113 to 115). -/
def processingLoopInvoke (s : ShipState) : ShipState :=
  if s.processing then s
  else
    match s.queue.head? with
    | none => s
    | some eid =>
      match s.entries[eid]? with
      | none => s
      | some d =>
        if d.isConnect then
          let tgt := parseConnectTarget d.url (hostHeaderOf d.headers)
          { s with processing := true,
                   tunnels := s.tunnels ++
                     [{ eid := eid, established := false, errFired := false,
                        clientClosed := false, remoteClosed := false }],
                   log := s.log ++ [ShipLabel.directConnect eid tgt.1 tgt.2] }
        else if s.connected = false then
          { s with processing := true,
                   tasks := s.tasks ++ [TaskPc.waitRetry eid] }
        else
          let s2 := markFlowing s eid
          { s2 with processing := true,
                    tasks := s2.tasks ++ [registerPc s eid] }

/-- Terminal part of a processingLoop iteration (answer writing and lines
208 to 210): write status, headers and body to the client of the entry, or
fail as a duplicate write when that client was already answered; then remove
the current queue head, clear the processing flag and re-invoke the loop at
once. -/
def completeIteration (s : ShipState) (eid : Nat) (status : Nat)
    (headers : List (String × String)) (body : List Nat) : ShipState :=
  let s1 :=
    if eid ∈ s.answered then
      { s with log := s.log ++ [ShipLabel.clientAnswerDup eid] }
    else
      { s with answered := s.answered ++ [eid],
               log := s.log ++ [ShipLabel.clientAnswer eid status headers body] }
  processingLoopInvoke { s1 with queue := s1.queue.tail, processing := false }

/-- The message callback of connectToOffshore lines 60 to 68 on a type-1
frame: when the queue is non-empty, resolve the response promise of the head
entry (a promise resolves at most once). -/
def deliverResponse (s : ShipState) (env : RespEnvelope) : ShipState :=
  match s.queue.head? with
  | none => s
  | some h =>
    match rvLookup s.resolvedVal h with
    | some _ => s
    | none => { s with resolvedVal := s.resolvedVal ++ [(h, env)] }

def removeTask (s : ShipState) (i : Nat) : ShipState :=
  { s with tasks := s.tasks.eraseIdx i }

/-- Number of invocations suspended on the end event of an entry. -/
def resumeCount (tasks : List TaskPc) (eid : Nat) : Nat :=
  tasks.countP (fun pc => decide (pc = TaskPc.awaitEnd eid))

def findTunnel (s : ShipState) (eid : Nat) : Option Tunnel :=
  s.tunnels.find? (fun t => t.eid == eid)

def setTunnel (s : ShipState) (t : Tunnel) : ShipState :=
  { s with tunnels := s.tunnels.map (fun u => if u.eid == t.eid then t else u) }

/-- Events driving the ship proxy: arrivals from local clients, connection
lifecycle, request stream end, timer expiry, inbound frames and tunnel
socket callbacks. -/
inductive ShipEvent where
  | enqueue (d : EntryData)
  | connectDone
  | connClose
  | fireEnd (eid : Nat)
  | retryDone (i : Nat)
  | respond (env : RespEnvelope)
  | relayRespond
  | resumeResp (i : Nat)
  | timeoutFire (i : Nat)
  | tunnelEstablished (eid : Nat)
  | tunnelError (eid : Nat)
  | tunnelClientClose (eid : Nat)
  | tunnelRemoteClose (eid : Nat)
deriving DecidableEq

/-- One small step of the ship proxy. The parameter gives the response the
relay produces for a delivered request payload, used by the relayRespond
event which models the relay answering the oldest delivered frame (in
arrival order). The raw respond event models an arbitrary inbound type-1
frame. Returns none when the event is not enabled in the state. -/
def shipStep (f : ReqEnvelope → RespEnvelope) (s : ShipState) (ev : ShipEvent) :
    Option ShipState :=
  match ev with
  | ShipEvent.enqueue d =>
      some (processingLoopInvoke
        { s with entries := s.entries ++ [d],
                 queue := s.queue ++ [s.entries.length] })
  | ShipEvent.connectDone =>
      if s.connected then none
      else some (processingLoopInvoke { s with connected := true })
  | ShipEvent.connClose =>
      if s.connected then
        some { s with connected := false, processing := false }
      else none
  | ShipEvent.fireEnd eid =>
      if eid ∈ s.flowing ∧ eid ∉ s.endFired then
        match s.entries[eid]? with
        | none => none
        | some d =>
          let n := resumeCount s.tasks eid
          let env := mkReqEnvelope d
          some { s with
            endFired := s.endFired ++ [eid],
            tasks := s.tasks.map (fun pc =>
              if pc = TaskPc.awaitEnd eid then TaskPc.awaitResp eid else pc),
            log := s.log ++
              (if s.connected then
                 List.replicate n (ShipLabel.sendFrame eid env)
               else []),
            relayQ := s.relayQ ++
              (if s.connected then List.replicate n env else []) }
      else none
  | ShipEvent.retryDone i =>
      match s.tasks[i]? with
      | some (TaskPc.waitRetry eid) =>
          if s.connected then
            some { (markFlowing s eid) with
                     tasks := s.tasks.set i (registerPc s eid) }
          else
            some (completeIteration (removeTask s i) eid 502 []
              (strBytes badGatewayUnavailableMsg))
      | _ => none
  | ShipEvent.respond env =>
      if s.connected then some (deliverResponse s env) else none
  | ShipEvent.relayRespond =>
      if s.connected then
        match s.relayQ with
        | [] => none
        | env :: rest =>
            some (deliverResponse { s with relayQ := rest } (f env))
      else none
  | ShipEvent.resumeResp i =>
      match s.tasks[i]? with
      | some (TaskPc.awaitResp eid) =>
          match rvLookup s.resolvedVal eid with
          | some env =>
              some (completeIteration (removeTask s i) eid
                (if env.statusCode = 0 then 200 else env.statusCode)
                env.headers (b64DecodeStr env.body))
          | none => none
      | _ => none
  | ShipEvent.timeoutFire i =>
      match s.tasks[i]? with
      | some (TaskPc.awaitResp eid) =>
          match rvLookup s.resolvedVal eid with
          | none =>
              some (completeIteration (removeTask s i) eid 504 []
                (strBytes gatewayTimeoutMsg))
          | some _ => none
      | _ => none
  | ShipEvent.tunnelEstablished eid =>
      match findTunnel s eid with
      | some t =>
          if t.established = false ∧ t.errFired = false ∧
             t.clientClosed = false ∧ t.remoteClosed = false then
            some (setTunnel
              { s with log := s.log ++ [ShipLabel.rawWrite eid connEstablishedLine] }
              { t with established := true })
          else none
      | none => none
  | ShipEvent.tunnelError eid =>
      match findTunnel s eid with
      | some t =>
          if t.errFired = false ∧ t.remoteClosed = false then
            some (setTunnel
              { s with log := s.log ++ [ShipLabel.rawWrite eid badGatewayLine] }
              { t with errFired := true })
          else none
      | none => none
  | ShipEvent.tunnelClientClose eid =>
      match findTunnel s eid with
      | some t =>
          if t.clientClosed = false then
            some (processingLoopInvoke
              { (setTunnel s { t with clientClosed := true }) with
                  processing := false, queue := s.queue.tail,
                  log := s.log ++ [ShipLabel.teardown eid] })
          else none
      | none => none
  | ShipEvent.tunnelRemoteClose eid =>
      match findTunnel s eid with
      | some t =>
          if t.remoteClosed = false then
            some (processingLoopInvoke
              { (setTunnel s { t with remoteClosed := true }) with
                  processing := false, queue := s.queue.tail,
                  log := s.log ++ [ShipLabel.teardown eid] })
          else none
      | none => none

/-- Run of the ship proxy over a list of events; none when some event in the
list is not enabled when its turn comes. -/
def shipRun (f : ReqEnvelope → RespEnvelope) (s : ShipState) :
    List ShipEvent → Option ShipState
  | [] => some s
  | ev :: evs =>
      match shipStep f s ev with
      | some s2 => shipRun f s2 evs
      | none => none


/-- Run started from an already-established managed connection. -/
def initShipConnected : ShipState := { initShip with connected := true }

def clearIfMatch (st : Option Nat) (e : Nat) : Option Nat :=
  if st = some e then none else st

/-- Scan of the ship log checking the single-in-flight discipline: a
sendFrame label is legal only while no earlier sendFrame is unanswered, and
an answer label (normal or duplicate, both of which end the iteration of the
entry and dequeue it) clears the in-flight slot. Returns the final in-flight
slot, or none when a second frame was sent while one was outstanding. -/
def scanInflight : Option Nat → List ShipLabel → Option (Option Nat)
  | st, [] => some st
  | st, ShipLabel.sendFrame e _ :: ls =>
      (match st with
       | none => scanInflight (some e) ls
       | some _ => none)
  | st, ShipLabel.clientAnswer e _ _ _ :: ls => scanInflight (clearIfMatch st e) ls
  | st, ShipLabel.clientAnswerDup e :: ls => scanInflight (clearIfMatch st e) ls
  | st, _ :: ls => scanInflight st ls

/-- Checker for the single-in-flight discipline over a ship run (vacuously
true for event lists that are not enabled). -/
def singleInflightOk (f : ReqEnvelope → RespEnvelope) (s0 : ShipState)
    (evs : List ShipEvent) : Bool :=
  match shipRun f s0 evs with
  | some s => (scanInflight none s.log).isSome
  | none => true

/-- Projection of the ship log to client answers: entry id, status, headers
and body of each successful write-back. -/
def answerLabels :
    List ShipLabel → List (Nat × Nat × List (String × String) × List Nat)
  | [] => []
  | ShipLabel.clientAnswer e st hs b :: ls => (e, st, hs, b) :: answerLabels ls
  | _ :: ls => answerLabels ls

/-- Projection of the ship log to the request payloads of sent type-0
frames, with the entry each was sent for. -/
def sendLabels : List ShipLabel → List (Nat × ReqEnvelope)
  | [] => []
  | ShipLabel.sendFrame e env :: ls => (e, env) :: sendLabels ls
  | _ :: ls => sendLabels ls

instance : Inhabited EntryData :=
  ⟨{ isConnect := false, method := "", url := "", headers := [], bodyBytes := [] }⟩

/-- Expected answer of the k-th enqueued request when the relay answers in
arrival order with responses given by f: the client of entry k receives the
status (0 is falsy and becomes 200), headers and base64-decoded body of the
relay response for its own request payload. -/
def expectedAnswer (f : ReqEnvelope → RespEnvelope) (entries : List EntryData)
    (k : Nat) : Nat × Nat × List (String × String) × List Nat :=
  let r := f (mkReqEnvelope (entries.getD k default))
  (k, (if r.statusCode = 0 then 200 else r.statusCode), r.headers,
    b64DecodeStr r.body)

/-- Checker for FIFO correlation over a ship run: the client answers are, in
order, the expected answers of entries 0, 1, 2 and so on (vacuously true for
event lists that are not enabled). -/
def fifoCorrelationOk (f : ReqEnvelope → RespEnvelope) (s0 : ShipState)
    (evs : List ShipEvent) : Bool :=
  match shipRun f s0 evs with
  | some s =>
      decide (answerLabels s.log =
        (List.range (answerLabels s.log).length).map (expectedAnswer f s.entries))
  | none => true

def isConnCloseEv : ShipEvent → Bool
  | ShipEvent.connClose => true
  | _ => false

def isConnectEnqueueEv : ShipEvent → Bool
  | ShipEvent.enqueue d => d.isConnect
  | _ => false

def isRawRespondEv : ShipEvent → Bool
  | ShipEvent.respond _ => true
  | _ => false

def isTimeoutEv : ShipEvent → Bool
  | ShipEvent.timeoutFire _ => true
  | _ => false

/-- Sample request entries and relay behavior used by the concrete
counterexample traces. -/
def sampleEntry : EntryData :=
  { isConnect := false, method := "GET", url := "http://a.example/",
    headers := [], bodyBytes := [] }

def sampleEntryB : EntryData :=
  { isConnect := false, method := "GET", url := "http://b.example/",
    headers := [], bodyBytes := [] }

/-- Relay behavior answering 201 to the first sample request and 202 to
every other request. -/
def sampleRelay (env : ReqEnvelope) : RespEnvelope :=
  { statusCode := if env.url = sampleEntry.url then 201 else 202,
    headers := [], body := "" }

/-- Trace exhibiting two concurrent processingLoop invocations for the same
head entry: the connection closes while the first invocation awaits the
request body, the reconnect handler starts a second invocation, and the end
event then resumes both, producing two type-0 frames with no response in
between. -/
def c1CexTrace : List ShipEvent :=
  [ShipEvent.enqueue sampleEntry, ShipEvent.connectDone, ShipEvent.retryDone 0,
   ShipEvent.connClose, ShipEvent.connectDone, ShipEvent.fireEnd 0]

/-- Trace extending the duplicate-invocation race to two queued requests:
the duplicated frame of entry 0 draws a second in-order relay response that
resolves the promise of entry 1, whose client then receives the response to
the request of entry 0. -/
def c2CexTrace : List ShipEvent :=
  [ShipEvent.enqueue sampleEntry, ShipEvent.connClose, ShipEvent.connectDone,
   ShipEvent.enqueue sampleEntryB, ShipEvent.fireEnd 0, ShipEvent.relayRespond,
   ShipEvent.resumeResp 0, ShipEvent.relayRespond, ShipEvent.resumeResp 0,
   ShipEvent.fireEnd 1, ShipEvent.resumeResp 0]



/-! ## Offshore relay dispatcher model (the unnamed offshore source file)

The relay keeps one accepted client socket, a queue of received type-0
payloads and a processing flag. Outbound calls and CONNECT remote sockets in
flight are pending records that survive a client disconnect, because their
callbacks close over the global state. An unparseable payload is modelled as
a none payload. -/

/-- An outbound operation started by handleRequestQueue and not yet
finished: a forwarded HTTP call or a CONNECT remote socket with its
acknowledgment flags. -/
structure RelayPending where
  rid : Nat
  isTunnel : Bool
  okSent : Bool
  failSent : Bool
deriving DecidableEq

/-- Observable actions of the relay. -/
inductive RelayLabel where
  | beginProcess (rid : Nat)
  | beginTunnel (rid : Nat) (host : String) (port : Nat)
  | discard (rid : Nat)
  | sendResp (rid : Nat) (env : RespEnvelope)
  | sendRaw (rid : Nat) (content : String)
  | rejectExtra
deriving DecidableEq

/-- Global mutable state of the relay process. Request ids number received
frames in arrival order; they are a specification device identifying queue
entries, not program data. -/
structure RelayState where
  sock : Bool
  rq : List (Nat × Option ReqEnvelope)
  processing : Bool
  pending : List RelayPending
  nextRid : Nat
  log : List RelayLabel
deriving DecidableEq

def initRelay : RelayState :=
  { sock := false, rq := [], processing := false, pending := [], nextRid := 0,
    log := [] }

def connectMethod : String := "CONNECT"

/-- ASCII uppercase of a character, modelling toUpperCase on the method
strings that occur in envelopes. -/
def asciiUpperChar (c : Char) : Char :=
  if 97 ≤ c.toNat ∧ c.toNat ≤ 122 then Char.ofNat (c.toNat - 32) else c

/-- ASCII uppercase of a string. -/
def asciiUpper (s : String) : String := String.mk (s.toList.map asciiUpperChar)

/-- The test reqObj.method and toUpperCase equal to CONNECT and reqObj.url
(both truthiness tests are emptiness tests on strings here). -/
def isConnectEnvelope (env : ReqEnvelope) : Bool :=
  (env.method != "") && (asciiUpper env.method == connectMethod) && (env.url != "")

/-- Host and port extraction of the relay CONNECT branch: the url is split
at colons, the first part is the host, the second is parsed as the port with
fallback 443 (a missing second part behaves like NaN). -/
def relayConnectTarget (u : String) : String × Nat :=
  match u.splitOn colonSep with
  | host :: portStr :: _ => (host, jsParseIntOr443 portStr)
  | host :: _ => (host, 443)
  | _ => (u, 443)

/-- The guard and loop of handleRequestQueue: while not already processing,
the queue non-empty and the client socket live, peek at the head payload
without removing it. An unparseable payload is logged and discarded (the
catch block runs cleanupRequest) and the loop continues with the next entry.
A CONNECT envelope starts the direct connect and holds the processing flag
for the lifetime of the remote socket. A plain envelope issues the real
outbound call and awaits its completion. The fuel argument bounds the
number of loop iterations for structural recursion. -/
def handleRequestQueueFuel : Nat → RelayState → RelayState
  | 0, s => s
  | fuel + 1, s =>
    if s.processing ∨ s.rq = [] ∨ s.sock = false then s
    else
      match s.rq.head? with
      | none => s
      | some (rid, none) =>
          handleRequestQueueFuel fuel
            { s with rq := s.rq.tail, log := s.log ++ [RelayLabel.discard rid] }
      | some (rid, some env) =>
          if isConnectEnvelope env then
            let tgt := relayConnectTarget env.url
            { s with processing := true,
                     pending := s.pending ++
                       [{ rid := rid, isTunnel := true, okSent := false,
                          failSent := false }],
                     log := s.log ++ [RelayLabel.beginTunnel rid tgt.1 tgt.2] }
          else
            { s with processing := true,
                     pending := s.pending ++
                       [{ rid := rid, isTunnel := false, okSent := false,
                          failSent := false }],
                     log := s.log ++ [RelayLabel.beginProcess rid] }

/-- Entry point of the loop: the fuel bound equals the queue length, which
the discard branch strictly decreases, so the fuel is never exhausted. -/
def handleRequestQueue (s : RelayState) : RelayState :=
  handleRequestQueueFuel s.rq.length s

/-- cleanupRequest: clear the processing flag, drop the current queue head
and re-enter handleRequestQueue at once. -/
def cleanupRequest (s : RelayState) : RelayState :=
  handleRequestQueue { s with processing := false, rq := s.rq.tail }

def findPending (s : RelayState) (rid : Nat) : Option RelayPending :=
  s.pending.find? (fun p => p.rid == rid)

def erasePending (s : RelayState) (rid : Nat) : RelayState :=
  { s with pending := s.pending.filter (fun p => p.rid != rid) }

def setPending (s : RelayState) (p : RelayPending) : RelayState :=
  { s with pending := s.pending.map (fun q => if q.rid == p.rid then p else q) }

/-- sendFramedMessage reads the global clientSocket at call time: the frame
reaches a wire only while some accepted connection is present. -/
def relaySend (s : RelayState) (l : RelayLabel) : RelayState :=
  if s.sock then { s with log := s.log ++ [l] } else s

def okMsg : String := "OK"

def failMsg : String := "FAIL"

/-- Events driving the relay: an inbound connection attempt, a decoded
type-0 frame, completion or failure of a forwarded call, the CONNECT remote
socket callbacks and loss of the client connection. -/
inductive RelayEvent where
  | acceptConn
  | recvFrame (p : Option ReqEnvelope)
  | httpDone (rid : Nat) (status : Nat) (headers : List (String × String))
      (bodyBytes : List Nat)
  | httpFail (rid : Nat) (errMsg : String)
  | tunnelOk (rid : Nat)
  | tunnelErr (rid : Nat)
  | tunnelClosed (rid : Nat)
  | connClose
deriving DecidableEq

/-- One small step of the relay. Returns none when the event is not enabled
in the state. -/
def relayStep (s : RelayState) (ev : RelayEvent) : Option RelayState :=
  match ev with
  | RelayEvent.acceptConn =>
      if s.sock then some { s with log := s.log ++ [RelayLabel.rejectExtra] }
      else some { s with sock := true }
  | RelayEvent.recvFrame p =>
      if s.sock then
        some (handleRequestQueue
          { s with rq := s.rq ++ [(s.nextRid, p)], nextRid := s.nextRid + 1 })
      else none
  | RelayEvent.httpDone rid st hs body =>
      match findPending s rid with
      | some p =>
          if p.isTunnel = false then
            some (cleanupRequest (relaySend (erasePending s rid)
              (RelayLabel.sendResp rid
                { statusCode := st, headers := hs, body := b64EncodeStr body })))
          else none
      | none => none
  | RelayEvent.httpFail rid msg =>
      match findPending s rid with
      | some p =>
          if p.isTunnel = false then
            some (cleanupRequest (relaySend (erasePending s rid)
              (RelayLabel.sendResp rid
                { statusCode := 502, headers := [],
                  body := b64EncodeStr (strBytes msg) })))
          else none
      | none => none
  | RelayEvent.tunnelOk rid =>
      match findPending s rid with
      | some p =>
          if p.isTunnel ∧ p.okSent = false ∧ p.failSent = false then
            some (relaySend (setPending s { p with okSent := true })
              (RelayLabel.sendRaw rid okMsg))
          else none
      | none => none
  | RelayEvent.tunnelErr rid =>
      match findPending s rid with
      | some p =>
          if p.isTunnel ∧ p.failSent = false then
            some (cleanupRequest (relaySend (setPending s { p with failSent := true })
              (RelayLabel.sendRaw rid failMsg)))
          else none
      | none => none
  | RelayEvent.tunnelClosed rid =>
      match findPending s rid with
      | some p =>
          if p.isTunnel then some (cleanupRequest (erasePending s rid))
          else none
      | none => none
  | RelayEvent.connClose =>
      if s.sock then
        some { s with sock := false, processing := false, rq := [] }
      else none

/-- Run of the relay over a list of events. -/
def relayRun (s : RelayState) : List RelayEvent → Option RelayState
  | [] => some s
  | ev :: evs =>
      match relayStep s ev with
      | some s2 => relayRun s2 evs
      | none => none

/-- Scan of the relay log checking strict FIFO one-at-a-time processing:
plain requests begin processing in arrival order 0, 1, 2 and so on, and the
response for request k is emitted after its begin and before request k plus
one begins. Labels other than beginProcess and sendResp are ignored. -/
def relayFifoScan : Nat → Bool → List RelayLabel → Bool
  | _, _, [] => true
  | r, inCall, RelayLabel.beginProcess k :: ls =>
      if inCall = false ∧ k = r then relayFifoScan r true ls else false
  | r, inCall, RelayLabel.sendResp k _ :: ls =>
      if inCall = true ∧ k = r then relayFifoScan (r + 1) false ls else false
  | r, inCall, _ :: ls => relayFifoScan r inCall ls

/-- Checker for relay FIFO processing over a run (vacuously true for event
lists that are not enabled). -/
def relayFifoOk (evs : List RelayEvent) : Bool :=
  match relayRun initRelay evs with
  | some s => relayFifoScan 0 false s.log
  | none => true

def isRelayCloseEv : RelayEvent → Bool
  | RelayEvent.connClose => true
  | _ => false

/-- A received frame is parseable and not CONNECT-flavored. -/
def isPlainRecvEv : RelayEvent → Bool
  | RelayEvent.recvFrame none => false
  | RelayEvent.recvFrame (some env) => !(isConnectEnvelope env)
  | _ => true

/-- Number of type-1 frames (response envelopes or raw acknowledgments) in a
relay log for a given request id. -/
def relayRespCount (rid : Nat) : List RelayLabel → Nat
  | [] => 0
  | RelayLabel.sendResp k _ :: ls =>
      (if k = rid then 1 else 0) + relayRespCount rid ls
  | RelayLabel.sendRaw k _ :: ls =>
      (if k = rid then 1 else 0) + relayRespCount rid ls
  | _ :: ls => relayRespCount rid ls

/-- Checker for the discard-on-close property as stated: if a request id is
still queued when the connection closes, no type-1 frame for it is ever sent
in any continuation of the run. -/
def relayDiscardOk (evs cont : List RelayEvent) (rid : Nat) : Bool :=
  match relayRun initRelay evs with
  | none => true
  | some s =>
      if (s.rq.map Prod.fst).contains rid then
        match relayStep s RelayEvent.connClose with
        | none => true
        | some s1 =>
            match relayRun s1 cont with
            | none => true
            | some s2 => relayRespCount rid s2.log == relayRespCount rid s1.log
      else true

def samplePlainEnv : ReqEnvelope :=
  { method := "GET", url := "http://a.example/", headers := [], body := "" }

/-- Setup for the discard counterexample: one connection, one received
frame; its forwarded call is in flight when the connection closes. -/
def c10CexSetup : List RelayEvent :=
  [RelayEvent.acceptConn, RelayEvent.recvFrame (some samplePlainEnv)]

/-- Continuation for the discard counterexample: a new connection is
accepted and then the old forwarded call completes; sendFramedMessage sees
the new socket and ships the stale response. -/
def c10CexCont : List RelayEvent :=
  [RelayEvent.acceptConn, RelayEvent.httpDone 0 200 [] []]



/-! ## Constants and derived notions used by the claims -/

def RECONNECT_MS : Nat := 5000

def OFFSHORE_RESPONSE_TIMEOUT_MS : Nat := 20000

def eidOf : TaskPc → Nat
  | TaskPc.waitRetry e => e
  | TaskPc.awaitEnd e => e
  | TaskPc.stuckEnd e => e
  | TaskPc.awaitResp e => e

def isWaitRetry : TaskPc → Bool
  | TaskPc.waitRetry _ => true
  | _ => false

/-- In-flight slot a pending invocation accounts for in the log scan: an
invocation awaiting a response has sent its frame, every other suspension
point lies before the send. -/
def pcExpected : TaskPc → Option Nat
  | TaskPc.awaitResp e => some e
  | _ => none

/-- Number of type-0 frames sent for a given entry in a ship log. -/
def sendCountFor (e : Nat) : List ShipLabel → Nat
  | [] => 0
  | ShipLabel.sendFrame k _ :: ls => (if k = e then 1 else 0) + sendCountFor e ls
  | _ :: ls => sendCountFor e ls

/-- Invariant for claim C1 on runs without connection loss and with only
plain requests: the log passes the in-flight scan and the scan state matches
the unique pending invocation; at most one invocation is pending, exactly
when the processing flag is held; a flowing request stream either already
ended or belongs to the pending await; no tunnels exist; every suspension
past the reconnect wait implies a live connection; and every queued entry is
a plain request. -/
def InvC1 (s : ShipState) : Prop :=
  (∃ st, scanInflight none s.log = some st ∧
     ((s.tasks = [] ∧ s.processing = false ∧ st = none) ∨
      (∃ pc, s.tasks = [pc] ∧ s.processing = true ∧ st = pcExpected pc))) ∧
  (∀ e ∈ s.flowing, e ∈ s.endFired ∨ TaskPc.awaitEnd e ∈ s.tasks) ∧
  s.tunnels = [] ∧
  (∀ pc ∈ s.tasks, isWaitRetry pc = false → s.connected = true) ∧
  (∀ e ∈ s.queue, ∃ d, s.entries[e]? = some d ∧ d.isConnect = false)

/-- Invariant for claim C9: flowing request streams, pending invocations and
sent type-0 frames all belong to plain (non-CONNECT) entries. -/
def Inv9 (s : ShipState) : Prop :=
  (∀ e ∈ s.flowing, ∃ d, s.entries[e]? = some d ∧ d.isConnect = false) ∧
  (∀ pc ∈ s.tasks, ∃ d, s.entries[eidOf pc]? = some d ∧ d.isConnect = false) ∧
  (∀ p ∈ sendLabels s.log, ∃ d, s.entries[p.1]? = some d ∧ d.isConnect = false)

/-- Invariant for claim C8: an invocation awaiting a response exists only
for an entry whose end event has fired, because the frame send happens after
the body await resolves. -/
def InvC8 (s : ShipState) : Prop :=
  ∀ e, TaskPc.awaitResp e ∈ s.tasks → e ∈ s.endFired

/-- Healthy trace used by witnesses of the amended single-in-flight and
FIFO claims. -/
def c1WitnessTrace : List ShipEvent :=
  [ShipEvent.connectDone, ShipEvent.enqueue sampleEntry, ShipEvent.fireEnd 0,
   ShipEvent.relayRespond, ShipEvent.resumeResp 0]

def c2WitnessTrace : List ShipEvent :=
  [ShipEvent.enqueue sampleEntry, ShipEvent.enqueue sampleEntryB,
   ShipEvent.fireEnd 0, ShipEvent.relayRespond, ShipEvent.resumeResp 0,
   ShipEvent.fireEnd 1, ShipEvent.relayRespond, ShipEvent.resumeResp 0]

def c2RelayWitnessTrace : List RelayEvent :=
  [RelayEvent.acceptConn, RelayEvent.recvFrame (some samplePlainEnv),
   RelayEvent.recvFrame (some samplePlainEnv), RelayEvent.httpDone 0 200 [] [],
   RelayEvent.httpDone 1 200 [] []]

/-- Concrete mid-flight dispatcher state: entry 0 sent and awaiting its
response, entry 1 queued behind it. -/
def c6WitnessState : ShipState :=
  { entries := [sampleEntry, sampleEntryB], queue := [0, 1], processing := true,
    connected := true, tasks := [TaskPc.awaitResp 0], endFired := [0],
    flowing := [0], resolvedVal := [], answered := [], tunnels := [],
    relayQ := [], log := [ShipLabel.sendFrame 0 (mkReqEnvelope sampleEntry)] }

def dnsFailMsg : String := "getaddrinfo ENOTFOUND bad.invalid"

/-- Concrete relay state forwarding request 0 when its outbound call fails. -/
def c7RelayWitnessState : RelayState :=
  { sock := true, rq := [(0, some samplePlainEnv)], processing := true,
    pending := [{ rid := 0, isTunnel := false, okSent := false,
                  failSent := false }],
    nextRid := 1, log := [RelayLabel.beginProcess 0] }

/-- Concrete ship state in which the head request resolved with the relay
502 failure envelope. -/
def c7ShipWitnessState : ShipState :=
  { entries := [sampleEntry], queue := [0], processing := true,
    connected := true, tasks := [TaskPc.awaitResp 0], endFired := [0],
    flowing := [0],
    resolvedVal := [(0, { statusCode := 502, headers := [],
                          body := b64EncodeStr (strBytes dnsFailMsg) })],
    answered := [], tunnels := [], relayQ := [],
    log := [ShipLabel.sendFrame 0 (mkReqEnvelope sampleEntry)] }

def sampleConnectEntry : EntryData :=
  { isConnect := true, method := "CONNECT", url := "example.net:8443",
    headers := [(hostKey, "example.net")], bodyBytes := [] }

/-- Concrete dispatcher state with a CONNECT entry at the head and an idle
loop. -/
def c9WitnessState : ShipState :=
  { entries := [sampleConnectEntry, sampleEntry], queue := [0, 1],
    processing := false, connected := true, tasks := [], endFired := [],
    flowing := [], resolvedVal := [], answered := [], tunnels := [],
    relayQ := [], log := [] }

/-- The same dispatcher state once the tunnel of entry 0 is open. -/
def c9TunnelState : ShipState :=
  { c9WitnessState with
      processing := true,
      tunnels := [{ eid := 0, established := true, errFired := false,
                    clientClosed := false, remoteClosed := false }],
      log := [ShipLabel.directConnect 0 "example.net" 8443,
              ShipLabel.rawWrite 0 connEstablishedLine] }



/-- Setup of the mid-flight close scenario: connect, enqueue one plain
request, send its frame. -/
def c8Setup : List ShipEvent :=
  [ShipEvent.connectDone, ShipEvent.enqueue sampleEntry, ShipEvent.fireEnd 0]

def c8State : ShipState := (shipRun sampleRelay initShip c8Setup).getD initShip

def c8Closed : ShipState :=
  (shipStep sampleRelay c8State ShipEvent.connClose).getD initShip

def c8Cont : List ShipEvent := [ShipEvent.connectDone]

def c8Final : ShipState := (shipRun sampleRelay c8Closed c8Cont).getD initShip



/-- Setup for the amended discard property: two frames received, the first
being forwarded, the second never processed. -/
def c10AmSetup : List RelayEvent :=
  [RelayEvent.acceptConn, RelayEvent.recvFrame (some samplePlainEnv),
   RelayEvent.recvFrame (some samplePlainEnv)]

def c10AmState : RelayState := (relayRun initRelay c10AmSetup).getD initRelay

def c10AmClosed : RelayState :=
  (relayStep c10AmState RelayEvent.connClose).getD initRelay

def c10AmFinal : RelayState :=
  (relayRun c10AmClosed c10CexCont).getD initRelay



/-- Boolean forms of the trace hypotheses, used in closed statements. -/
def noCloseB (evs : List ShipEvent) : Bool := evs.all (fun ev => !isConnCloseEv ev)

def noConnectEnqB (evs : List ShipEvent) : Bool :=
  evs.all (fun ev => !isConnectEnqueueEv ev)

def noRawRespondB (evs : List ShipEvent) : Bool :=
  evs.all (fun ev => !isRawRespondEv ev)

def noTimeoutB (evs : List ShipEvent) : Bool :=
  evs.all (fun ev => !isTimeoutEv ev)

def noRelayCloseB (evs : List RelayEvent) : Bool :=
  evs.all (fun ev => !isRelayCloseEv ev)

def allPlainRecvB (evs : List RelayEvent) : Bool := evs.all isPlainRecvEv

/-! ## Phase shape of the healthy FIFO run (claim C2)

On a run with a permanently live connection, only plain requests, no raw
inbound frames and no timer expiries, the dispatcher cycles through four
phases per queue entry: invocation registered and awaiting the body end
(reg), frame sent and awaiting the in-order relay answer (fired), promise
resolved and awaiting the microtask resumption (res), and idle between
entries. The shape pins every state field as a function of the number c of
completed entries and the phase. -/

/-- Phase of the healthy FIFO execution of the ship dispatcher. -/
inductive C2Phase where
  | idle
  | reg
  | fired
  | res
deriving DecidableEq

/-- Resolved response promises after k completed in-order relay answers. -/
def rvList (f : ReqEnvelope → RespEnvelope) (entries : List EntryData)
    (k : Nat) : List (Nat × RespEnvelope) :=
  (List.range k).map (fun j => (j, f (mkReqEnvelope (entries.getD j default))))

/-- Streams whose data listener is attached, past the completed count. -/
def phFlow : C2Phase → Nat
  | C2Phase.idle => 0
  | _ => 1

/-- Streams whose end event fired, past the completed count. -/
def phEnd : C2Phase → Nat
  | C2Phase.fired => 1
  | C2Phase.res => 1
  | _ => 0

/-- Resolved promises, past the completed count. -/
def phRes : C2Phase → Nat
  | C2Phase.res => 1
  | _ => 0

/-- State shape of a healthy FIFO run with c completed entries in phase ph:
the connection is live, no tunnels exist, all entries are plain, the queue
holds the uncompleted entry ids in arrival order, exactly the completed
clients are answered and their answers are the expected in-order relay
responses, and the task list, processing flag, stream state and delivered
frame queue are determined by the phase. -/
def ShapeC2 (f : ReqEnvelope → RespEnvelope) (s : ShipState) (c : Nat)
    (ph : C2Phase) : Prop :=
  s.connected = true ∧
  s.tunnels = [] ∧
  (∀ e, e < s.entries.length → (s.entries.getD e default).isConnect = false) ∧
  s.queue = List.range' c (s.entries.length - c) ∧
  s.answered = List.range c ∧
  answerLabels s.log = (List.range c).map (expectedAnswer f s.entries) ∧
  s.flowing = List.range (c + phFlow ph) ∧
  s.endFired = List.range (c + phEnd ph) ∧
  s.resolvedVal = rvList f s.entries (c + phRes ph) ∧
  (match ph with
   | C2Phase.idle =>
       c = s.entries.length ∧ s.tasks = [] ∧ s.processing = false ∧
       s.relayQ = []
   | C2Phase.reg =>
       c < s.entries.length ∧ s.tasks = [TaskPc.awaitEnd c] ∧
       s.processing = true ∧ s.relayQ = []
   | C2Phase.fired =>
       c < s.entries.length ∧ s.tasks = [TaskPc.awaitResp c] ∧
       s.processing = true ∧
       s.relayQ = [mkReqEnvelope (s.entries.getD c default)]
   | C2Phase.res =>
       c < s.entries.length ∧ s.tasks = [TaskPc.awaitResp c] ∧
       s.processing = true ∧ s.relayQ = [])

/-- Some phase shape holds. -/
def InvShapeC2 (f : ReqEnvelope → RespEnvelope) (s : ShipState) : Prop :=
  ∃ c ph, ShapeC2 f s c ph

/-- The relay FIFO scan with the final counter and in-call flag exposed
instead of collapsed to a Bool. -/
def relayFifoState : Nat → Bool → List RelayLabel → Option (Nat × Bool)
  | r, inCall, [] => some (r, inCall)
  | r, inCall, RelayLabel.beginProcess k :: ls =>
      if inCall = false ∧ k = r then relayFifoState r true ls else none
  | r, inCall, RelayLabel.sendResp k _ :: ls =>
      if inCall = true ∧ k = r then relayFifoState (r + 1) false ls else none
  | r, inCall, _ :: ls => relayFifoState r inCall ls

/-- State shape of a healthy relay run with c fully answered requests: the
log passes the FIFO scan with counter c and in-call flag equal to the
processing flag, the queue holds the unanswered request ids in arrival
order with parseable plain payloads, the single pending outbound call is
the queue head exactly while processing, and processing implies a live
client socket. -/
def RelayShape (s : RelayState) (c : Nat) : Prop :=
  relayFifoState 0 false s.log = some (c, s.processing) ∧
  c ≤ s.nextRid ∧
  s.rq.map Prod.fst = List.range' c (s.nextRid - c) ∧
  (∀ p ∈ s.rq, ∃ env, p.2 = some env ∧ isConnectEnvelope env = false) ∧
  (if s.processing then
     s.pending = [{ rid := c, isTunnel := false, okSent := false,
                    failSent := false }] ∧ s.rq ≠ []
   else s.pending = [] ∧ s.rq = []) ∧
  (s.sock = false → s.processing = false)

/-- Some relay shape holds. -/
def InvRelayShape (s : RelayState) : Prop := ∃ c, RelayShape s c


/-! ## Theorems -/

theorem readLen_of_sendMessageFrame (p : List Nat) (hp : p.length < 4294967296) :
    p.length / 16777216 % 256 * 16777216 + p.length / 65536 % 256 * 65536 +
      p.length / 256 % 256 * 256 + p.length % 256 = p.length := by
  omega

/-- Decoding the encoding of a list of well-formed frames yields exactly the
frames back, with an empty remaining buffer. -/
theorem messageReaderLoop_encodeFrames (fs : List (Nat × List Nat))
    (hwf : ∀ f ∈ fs, WFFrame f) :
    messageReaderLoop (encodeFrames fs) = (fs, []) := by
  induction fs with
  | nil => simp [encodeFrames, messageReaderLoop]
  | cons f fs ih =>
    obtain ⟨t, p⟩ := f
    have hf : WFFrame (t, p) := hwf _ (by simp)
    obtain ⟨ht, hp⟩ := hf
    have hlen := readLen_of_sendMessageFrame p hp
    simp only [encodeFrames, sendMessageFrame, List.cons_append, List.nil_append,
      List.append_assoc]
    rw [messageReaderLoop]
    simp only [hlen]
    rw [dif_pos (by simp)]
    have htake : (p ++ encodeFrames fs).take p.length = p := by
      simpa using List.take_left p (encodeFrames fs)
    have hdrop : (p ++ encodeFrames fs).drop p.length = encodeFrames fs := by
      simpa using List.drop_left p (encodeFrames fs)
    rw [htake, hdrop, ih (fun g hg => hwf g (by simp [hg]))]
    simp [Nat.mod_eq_of_lt ht]

/-- A buffer shorter than the 5-byte header is left untouched by the reader
loop. -/
theorem messageReaderLoop_short (x : List Nat) (hx : x.length < 5) :
    messageReaderLoop x = ([], x) := by
  rcases x with _ | ⟨a1, _ | ⟨a2, _ | ⟨a3, _ | ⟨a4, _ | ⟨a5, rest⟩⟩⟩⟩⟩
  · simp [messageReaderLoop]
  · simp [messageReaderLoop]
  · simp [messageReaderLoop]
  · simp [messageReaderLoop]
  · simp [messageReaderLoop]
  · simp at hx; omega

/-- A buffer whose header announces more payload bytes than are available is
left untouched by the reader loop: partial frames are buffered, never
interpreted. -/
theorem messageReaderLoop_incomplete (b0 b1 b2 b3 t : Nat) (rest : List Nat)
    (h : rest.length < b0 * 16777216 + b1 * 65536 + b2 * 256 + b3) :
    messageReaderLoop (b0 :: b1 :: b2 :: b3 :: t :: rest) =
      ([], b0 :: b1 :: b2 :: b3 :: t :: rest) := by
  rw [messageReaderLoop]
  rw [dif_neg (by omega)]

/-- Splitting the input of the reader loop at any byte offset: running the
loop on the first part and then on the leftover extended by the second part
yields the same messages and leftover as running it on the whole input. -/
theorem messageReaderLoop_append (a b : List Nat) :
    messageReaderLoop (a ++ b) =
      ((messageReaderLoop a).1 ++
         (messageReaderLoop ((messageReaderLoop a).2 ++ b)).1,
       (messageReaderLoop ((messageReaderLoop a).2 ++ b)).2) := by
  induction a using messageReaderLoop.induct with
  | case1 b0 b1 b2 b3 t rest hle ih =>
    have hle2 : b0 * 16777216 + b1 * 65536 + b2 * 256 + b3 ≤ (rest ++ b).length := by
      simp; omega
    have e1 : messageReaderLoop ((b0 :: b1 :: b2 :: b3 :: t :: rest) ++ b) =
        ((t, rest.take (b0 * 16777216 + b1 * 65536 + b2 * 256 + b3)) ::
           (messageReaderLoop
             (rest.drop (b0 * 16777216 + b1 * 65536 + b2 * 256 + b3) ++ b)).1,
         (messageReaderLoop
           (rest.drop (b0 * 16777216 + b1 * 65536 + b2 * 256 + b3) ++ b)).2) := by
      rw [List.cons_append, List.cons_append, List.cons_append, List.cons_append,
        List.cons_append, messageReaderLoop]
      rw [dif_pos hle2]
      rw [List.take_append_of_le_length hle, List.drop_append_of_le_length hle]
    have e2 : messageReaderLoop (b0 :: b1 :: b2 :: b3 :: t :: rest) =
        ((t, rest.take (b0 * 16777216 + b1 * 65536 + b2 * 256 + b3)) ::
           (messageReaderLoop
             (rest.drop (b0 * 16777216 + b1 * 65536 + b2 * 256 + b3))).1,
         (messageReaderLoop
           (rest.drop (b0 * 16777216 + b1 * 65536 + b2 * 256 + b3))).2) := by
      rw [messageReaderLoop]
      rw [dif_pos hle]
    rw [e1, e2, ih]
    simp
  | case2 b0 b1 b2 b3 t rest hgt =>
    have e2 : messageReaderLoop (b0 :: b1 :: b2 :: b3 :: t :: rest) =
        ([], b0 :: b1 :: b2 :: b3 :: t :: rest) :=
      messageReaderLoop_incomplete b0 b1 b2 b3 t rest (by omega)
    rw [e2]
    simp
  | case3 x hx =>
    rcases x with _ | ⟨a1, _ | ⟨a2, _ | ⟨a3, _ | ⟨a4, _ | ⟨a5, rest⟩⟩⟩⟩⟩
    · simp [messageReaderLoop_short]
    · simp [messageReaderLoop_short]
    · simp [messageReaderLoop_short]
    · simp [messageReaderLoop_short]
    · simp [messageReaderLoop_short]
    · exact (hx a1 a2 a3 a4 a5 rest rfl).elim

/-- The leftover buffer produced by the reader loop is always irreducible:
running the loop on it again emits nothing. -/
theorem messageReaderLoop_residue (buf : List Nat) :
    messageReaderLoop (messageReaderLoop buf).2 = ([], (messageReaderLoop buf).2) := by
  induction buf using messageReaderLoop.induct with
  | case1 b0 b1 b2 b3 t rest hle ih =>
    have e2 : messageReaderLoop (b0 :: b1 :: b2 :: b3 :: t :: rest) =
        ((t, rest.take (b0 * 16777216 + b1 * 65536 + b2 * 256 + b3)) ::
           (messageReaderLoop
             (rest.drop (b0 * 16777216 + b1 * 65536 + b2 * 256 + b3))).1,
         (messageReaderLoop
           (rest.drop (b0 * 16777216 + b1 * 65536 + b2 * 256 + b3))).2) := by
      rw [messageReaderLoop]
      rw [dif_pos hle]
    rw [e2]
    exact ih
  | case2 b0 b1 b2 b3 t rest hgt =>
    have e2 : messageReaderLoop (b0 :: b1 :: b2 :: b3 :: t :: rest) =
        ([], b0 :: b1 :: b2 :: b3 :: t :: rest) :=
      messageReaderLoop_incomplete b0 b1 b2 b3 t rest (by omega)
    rw [e2, e2]
  | case3 x hx =>
    rcases x with _ | ⟨a1, _ | ⟨a2, _ | ⟨a3, _ | ⟨a4, _ | ⟨a5, rest⟩⟩⟩⟩⟩
    · simp [messageReaderLoop_short]
    · simp [messageReaderLoop_short]
    · simp [messageReaderLoop_short]
    · simp [messageReaderLoop_short]
    · simp [messageReaderLoop_short]
    · exact (hx a1 a2 a3 a4 a5 rest rfl).elim

/-- Feeding the chunks one at a time starting from an irreducible carry-over
buffer is equivalent to running the reader loop on all bytes at once. -/
theorem feedChunks_eq_join (buf : List Nat)
    (hbuf : messageReaderLoop buf = ([], buf)) (cs : List (List Nat)) :
    feedChunks buf cs = messageReaderLoop (buf ++ cs.join) := by
  induction cs generalizing buf with
  | nil => simp [feedChunks, hbuf]
  | cons c cs ih =>
    have hres := messageReaderLoop_residue (buf ++ c)
    rw [feedChunks, ih _ hres,
      show buf ++ (c :: cs).join = (buf ++ c) ++ cs.join by simp,
      messageReaderLoop_append (buf ++ c) cs.join]

/-- The offshore reader loop equals the ship reader loop with non-type-0
frames filtered out of the emitted messages; both consume the same bytes, so
skipping never desynchronizes the stream. -/
theorem offshoreReaderLoop_eq_filter (buf : List Nat) :
    offshoreReaderLoop buf =
      ((messageReaderLoop buf).1.filterMap
         (fun f => if f.1 = 0 then some f.2 else none),
       (messageReaderLoop buf).2) := by
  induction buf using messageReaderLoop.induct with
  | case1 b0 b1 b2 b3 t rest hle ih =>
    have e2 : messageReaderLoop (b0 :: b1 :: b2 :: b3 :: t :: rest) =
        ((t, rest.take (b0 * 16777216 + b1 * 65536 + b2 * 256 + b3)) ::
           (messageReaderLoop
             (rest.drop (b0 * 16777216 + b1 * 65536 + b2 * 256 + b3))).1,
         (messageReaderLoop
           (rest.drop (b0 * 16777216 + b1 * 65536 + b2 * 256 + b3))).2) := by
      rw [messageReaderLoop]
      rw [dif_pos hle]
    have e3 : offshoreReaderLoop (b0 :: b1 :: b2 :: b3 :: t :: rest) =
        (if t = 0 then
          (rest.take (b0 * 16777216 + b1 * 65536 + b2 * 256 + b3)) ::
            (offshoreReaderLoop
              (rest.drop (b0 * 16777216 + b1 * 65536 + b2 * 256 + b3))).1
         else
          (offshoreReaderLoop
            (rest.drop (b0 * 16777216 + b1 * 65536 + b2 * 256 + b3))).1,
         (offshoreReaderLoop
           (rest.drop (b0 * 16777216 + b1 * 65536 + b2 * 256 + b3))).2) := by
      rw [offshoreReaderLoop]
      rw [dif_pos hle]
      by_cases ht : t = 0 <;> simp [ht]
    rw [e2, e3, ih]
    by_cases ht : t = 0 <;> simp [ht]
  | case2 b0 b1 b2 b3 t rest hgt =>
    have e2 : messageReaderLoop (b0 :: b1 :: b2 :: b3 :: t :: rest) =
        ([], b0 :: b1 :: b2 :: b3 :: t :: rest) :=
      messageReaderLoop_incomplete b0 b1 b2 b3 t rest (by omega)
    have e3 : offshoreReaderLoop (b0 :: b1 :: b2 :: b3 :: t :: rest) =
        ([], b0 :: b1 :: b2 :: b3 :: t :: rest) := by
      rw [offshoreReaderLoop]
      rw [dif_neg (by omega)]
    rw [e2, e3]
    simp
  | case3 x hx =>
    rcases x with _ | ⟨a1, _ | ⟨a2, _ | ⟨a3, _ | ⟨a4, _ | ⟨a5, rest⟩⟩⟩⟩⟩
    · simp [messageReaderLoop, offshoreReaderLoop]
    · simp [messageReaderLoop, offshoreReaderLoop]
    · simp [messageReaderLoop, offshoreReaderLoop]
    · simp [messageReaderLoop, offshoreReaderLoop]
    · simp [messageReaderLoop, offshoreReaderLoop]
    · exact (hx a1 a2 a3 a4 a5 rest rfl).elim

theorem b64Val_b64Char : ∀ n < 64, b64Val (b64Char n) = n := by decide

theorem b64Char_ne_pad : ∀ n < 64, b64Char n ≠ '=' := by decide

/-- Base64 decoding inverts base64 encoding on byte lists. -/
theorem b64DecodeBytes_b64EncodeBytes (bs : List Nat) (h : ∀ b ∈ bs, b < 256) :
    b64DecodeBytes (b64EncodeBytes bs) = bs := by
  induction bs using b64EncodeBytes.induct with
  | case1 => rfl
  | case2 a =>
    have ha : a < 256 := h a (by simp)
    have h1 := b64Val_b64Char (a / 4) (by omega)
    have h2 := b64Val_b64Char (a % 4 * 16) (by omega)
    rw [show b64EncodeBytes [a] =
          [b64Char (a / 4), b64Char (a % 4 * 16), '=', '='] from rfl]
    rw [b64DecodeBytes, if_pos rfl, h1, h2]
    simp only [List.cons.injEq, and_true]
    omega
  | case3 a b =>
    have ha : a < 256 := h a (by simp)
    have hb : b < 256 := h b (by simp)
    have h1 := b64Val_b64Char (a / 4) (by omega)
    have h2 := b64Val_b64Char (a % 4 * 16 + b / 16) (by omega)
    have h3 := b64Val_b64Char (b % 16 * 4) (by omega)
    have hne := b64Char_ne_pad (b % 16 * 4) (by omega)
    rw [show b64EncodeBytes [a, b] =
          [b64Char (a / 4), b64Char (a % 4 * 16 + b / 16),
           b64Char (b % 16 * 4), '='] from rfl]
    rw [b64DecodeBytes, if_neg hne, if_pos rfl, h1, h2, h3]
    simp only [List.cons.injEq, and_true]
    omega
  | case4 a b d rest ih =>
    have ha : a < 256 := h a (by simp)
    have hb : b < 256 := h b (by simp)
    have hd : d < 256 := h d (by simp)
    have h1 := b64Val_b64Char (a / 4) (by omega)
    have h2 := b64Val_b64Char (a % 4 * 16 + b / 16) (by omega)
    have h3 := b64Val_b64Char (b % 16 * 4 + d / 64) (by omega)
    have h4 := b64Val_b64Char (d % 64) (by omega)
    have hne3 := b64Char_ne_pad (b % 16 * 4 + d / 64) (by omega)
    have hne4 := b64Char_ne_pad (d % 64) (by omega)
    rw [show b64EncodeBytes (a :: b :: d :: rest) =
          b64Char (a / 4) :: b64Char (a % 4 * 16 + b / 16) ::
            b64Char (b % 16 * 4 + d / 64) :: b64Char (d % 64) ::
            b64EncodeBytes rest from rfl]
    rw [b64DecodeBytes, if_neg hne3, if_neg hne4, h1, h2, h3, h4]
    rw [ih (fun x hx => h x (by simp [hx]))]
    simp only [List.cons.injEq, and_true]
    refine ⟨by omega, by omega, by omega⟩

/-- Base64 string decoding inverts base64 string encoding on byte lists. -/
theorem b64DecodeStr_b64EncodeStr (bs : List Nat) (h : ∀ b ∈ bs, b < 256) :
    b64DecodeStr (b64EncodeStr bs) = bs := by
  unfold b64DecodeStr b64EncodeStr
  rw [show (String.mk (b64EncodeBytes bs)).toList = b64EncodeBytes bs from rfl]
  exact b64DecodeBytes_b64EncodeBytes bs h

/-- Claim C3: for every type tag and payload byte sequence, feeding the
bytes produced by the codec encode (4-byte big-endian length, 1-byte type,
payload) into the stream decoder yields exactly one (type, payload) pair
equal to the encoded pair, with no bytes left over in the decoder buffer. -/
theorem C3_codec_roundtrip (t : Nat) (p : List Nat) (ht : t < 256)
    (hp : p.length < 4294967296) :
    messageReaderLoop (sendMessageFrame t p) = ([(t, p)], []) := by
  have h := messageReaderLoop_encodeFrames [(t, p)]
    (by intro f hf; simp at hf; subst hf; exact ⟨ht, hp⟩)
  simpa [encodeFrames] using h

theorem C3_codec_roundtrip_witness :
    7 < 256 ∧ [250, 0, 33].length < 4294967296 ∧
      messageReaderLoop (sendMessageFrame 7 [250, 0, 33]) =
        ([(7, [250, 0, 33])], []) :=
  ⟨by decide, by decide, C3_codec_roundtrip 7 [250, 0, 33] (by decide) (by decide)⟩

/-- Claim C4: delivering the chunks of any partition of a byte stream one at
a time to the stream decoder produces exactly the messages of delivering all
bytes at once; a frame whose announced length plus 5 bytes have not all
arrived is buffered untouched and never interpreted, as is a buffer shorter
than the 5-byte header. -/
theorem C4_fragmentation_invariance (cs : List (List Nat)) :
    feedChunks [] cs = messageReaderLoop cs.join ∧
    (∀ b0 b1 b2 b3 t : Nat, ∀ rest : List Nat,
        rest.length < b0 * 16777216 + b1 * 65536 + b2 * 256 + b3 →
        messageReaderLoop (b0 :: b1 :: b2 :: b3 :: t :: rest) =
          ([], b0 :: b1 :: b2 :: b3 :: t :: rest)) ∧
    (∀ buf : List Nat, buf.length < 5 → messageReaderLoop buf = ([], buf)) := by
  refine ⟨?_, messageReaderLoop_incomplete, messageReaderLoop_short⟩
  have h0 : messageReaderLoop [] = ([], []) := by simp [messageReaderLoop]
  simpa using feedChunks_eq_join [] h0 cs

theorem C4_fragmentation_invariance_witness :
    (feedChunks [] [[0], [0, 0, 1, 9, 0, 0], [0, 0, 2, 8]] =
       messageReaderLoop ([[0], [0, 0, 1, 9, 0, 0], [0, 0, 2, 8]].join)) ∧
    messageReaderLoop [0, 0, 0, 9, 1, 5] = ([], [0, 0, 0, 9, 1, 5]) ∧
    messageReaderLoop [0, 0] = ([], [0, 0]) :=
  ⟨(C4_fragmentation_invariance [[0], [0, 0, 1, 9, 0, 0], [0, 0, 2, 8]]).1,
   (C4_fragmentation_invariance []).2.1 0 0 0 9 1 [5] (by decide),
   (C4_fragmentation_invariance []).2.2 [0, 0] (by decide)⟩

/-- Claim C5: a well-formed frame whose type tag is neither 0 nor 1 is
skipped exactly, using its declared length, and the stream never
desynchronizes: the offshore decoder emits the same type-0 payloads as if
the unknown frame were absent, and the ship decoder followed by the type-1
filter of its message callback handles the same responses. -/
theorem C5_unknown_type_skipped (fs1 fs2 : List (Nat × List Nat))
    (u : Nat × List Nat) (hwf1 : ∀ f ∈ fs1, WFFrame f)
    (hwf2 : ∀ f ∈ fs2, WFFrame f) (hu : WFFrame u) (hu0 : u.1 ≠ 0)
    (hu1 : u.1 ≠ 1) :
    offshoreReaderLoop (encodeFrames (fs1 ++ u :: fs2)) =
      offshoreReaderLoop (encodeFrames (fs1 ++ fs2)) ∧
    (messageReaderLoop (encodeFrames (fs1 ++ u :: fs2))).1.filter
        (fun f => f.1 == 1) =
      (messageReaderLoop (encodeFrames (fs1 ++ fs2))).1.filter
        (fun f => f.1 == 1) := by
  have hA : ∀ f ∈ fs1 ++ u :: fs2, WFFrame f := by
    intro f hf
    rcases List.mem_append.mp hf with h1 | h2
    · exact hwf1 f h1
    · rcases List.mem_cons.mp h2 with rfl | h3
      · exact hu
      · exact hwf2 f h3
  have hB : ∀ f ∈ fs1 ++ fs2, WFFrame f := by
    intro f hf
    rcases List.mem_append.mp hf with h1 | h2
    · exact hwf1 f h1
    · exact hwf2 f h2
  rw [offshoreReaderLoop_eq_filter, offshoreReaderLoop_eq_filter,
    messageReaderLoop_encodeFrames _ hA, messageReaderLoop_encodeFrames _ hB]
  constructor
  · simp [List.filterMap_append, hu0]
  · simp [List.filter_append, hu1]

theorem C5_unknown_type_skipped_witness :
    offshoreReaderLoop (encodeFrames ([(0, [10])] ++ (9, [7, 7]) :: [(1, [4])])) =
      offshoreReaderLoop (encodeFrames ([(0, [10])] ++ [(1, [4])])) ∧
    (messageReaderLoop (encodeFrames ([(0, [10])] ++ (9, [7, 7]) :: [(1, [4])]))).1.filter
        (fun f => f.1 == 1) =
      (messageReaderLoop (encodeFrames ([(0, [10])] ++ [(1, [4])]))).1.filter
        (fun f => f.1 == 1) :=
  C5_unknown_type_skipped [(0, [10])] [(1, [4])] (9, [7, 7])
    (by decide) (by decide) (by decide) (by decide) (by decide)

/-- Claim C6: the response timeout constant is 20000 ms, and when the timer
of an invocation awaiting a response fires with the response promise still
unresolved, the invocation answers its client with status 504 and the body
Gateway Timeout, removes the head entry from the queue, and immediately
re-invokes the processing loop; the re-invocation starts the next entry at
once, shown for a plain next entry on a live connection with its body not
yet consumed. -/
theorem C6_timeout_gateway (f : ReqEnvelope → RespEnvelope) (s : ShipState)
    (i eid : Nat) (htask : s.tasks[i]? = some (TaskPc.awaitResp eid))
    (hrv : rvLookup s.resolvedVal eid = none) (hna : eid ∉ s.answered) :
    OFFSHORE_RESPONSE_TIMEOUT_MS = 20000 ∧
    shipStep f s (ShipEvent.timeoutFire i) =
      some (processingLoopInvoke
        { s with tasks := s.tasks.eraseIdx i,
                 answered := s.answered ++ [eid],
                 log := s.log ++
                   [ShipLabel.clientAnswer eid 504 [] (strBytes gatewayTimeoutMsg)],
                 queue := s.queue.tail, processing := false }) ∧
    (∀ s3 : ShipState, ∀ e2 : Nat, ∀ d2 : EntryData,
        s3.processing = false → s3.queue.head? = some e2 →
        s3.entries[e2]? = some d2 → d2.isConnect = false →
        s3.connected = true → e2 ∉ s3.endFired →
        (processingLoopInvoke s3).tasks = s3.tasks ++ [TaskPc.awaitEnd e2] ∧
        (processingLoopInvoke s3).processing = true) := by
  refine ⟨rfl, ?_, ?_⟩
  · simp only [shipStep, htask, hrv]
    simp [completeIteration, removeTask, hna]
  · intro s3 e2 d2 hproc hhead hent hplain hconn hef
    simp [processingLoopInvoke, hproc, hhead, hent, hplain, hconn, hef,
      markFlowing, registerPc]
    by_cases hf : e2 ∈ s3.flowing <;> simp [hf]

theorem C6_timeout_gateway_witness :
    c6WitnessState.tasks[0]? = some (TaskPc.awaitResp 0) ∧
    rvLookup c6WitnessState.resolvedVal 0 = none ∧
    0 ∉ c6WitnessState.answered ∧
    OFFSHORE_RESPONSE_TIMEOUT_MS = 20000 ∧
    shipStep sampleRelay c6WitnessState (ShipEvent.timeoutFire 0) =
      some (processingLoopInvoke
        { c6WitnessState with
            tasks := c6WitnessState.tasks.eraseIdx 0,
            answered := c6WitnessState.answered ++ [0],
            log := c6WitnessState.log ++
              [ShipLabel.clientAnswer 0 504 [] (strBytes gatewayTimeoutMsg)],
            queue := c6WitnessState.queue.tail, processing := false }) :=
  ⟨by decide, by decide, by decide,
   (C6_timeout_gateway sampleRelay c6WitnessState 0 0 (by decide) (by decide)
     (by decide)).1,
   (C6_timeout_gateway sampleRelay c6WitnessState 0 0 (by decide) (by decide)
     (by decide)).2.1⟩

/-- Claim C7: when the outbound call the relay forwards for a request fails,
the relay sends back a type-1 response envelope with statusCode 502 whose
body is the base64 of the error message, never a raw fault, and then cleans
up and advances its queue; on the ship side, an invocation whose promise
resolved with such an envelope writes status 502 and the decoded failure
reason to its client and advances the local queue. -/
theorem C7_outbound_failure_502 (s : RelayState) (rid : Nat) (msg : String)
    (p : RelayPending) (hp : findPending s rid = some p)
    (hpt : p.isTunnel = false) (hsock : s.sock = true)
    (f : ReqEnvelope → RespEnvelope) (t : ShipState) (i eid : Nat)
    (htask : t.tasks[i]? = some (TaskPc.awaitResp eid))
    (hrv : rvLookup t.resolvedVal eid =
      some { statusCode := 502, headers := [],
             body := b64EncodeStr (strBytes msg) })
    (hna : eid ∉ t.answered) (hmsg : ∀ b ∈ strBytes msg, b < 256) :
    relayStep s (RelayEvent.httpFail rid msg) =
      some (cleanupRequest
        { (erasePending s rid) with
            log := s.log ++
              [RelayLabel.sendResp rid
                { statusCode := 502, headers := [],
                  body := b64EncodeStr (strBytes msg) }] }) ∧
    shipStep f t (ShipEvent.resumeResp i) =
      some (processingLoopInvoke
        { t with tasks := t.tasks.eraseIdx i,
                 answered := t.answered ++ [eid],
                 log := t.log ++ [ShipLabel.clientAnswer eid 502 [] (strBytes msg)],
                 queue := t.queue.tail, processing := false }) := by
  constructor
  · simp only [relayStep, hp, hpt]
    simp [relaySend, erasePending, hsock]
  · simp only [shipStep, htask, hrv]
    simp [completeIteration, removeTask, hna,
      b64DecodeStr_b64EncodeStr (strBytes msg) hmsg]

theorem C7_outbound_failure_502_witness :
    findPending c7RelayWitnessState 0 =
      some { rid := 0, isTunnel := false, okSent := false, failSent := false } ∧
    c7RelayWitnessState.sock = true ∧
    c7ShipWitnessState.tasks[0]? = some (TaskPc.awaitResp 0) ∧
    (relayStep c7RelayWitnessState (RelayEvent.httpFail 0 dnsFailMsg) =
      some (cleanupRequest
        { (erasePending c7RelayWitnessState 0) with
            log := c7RelayWitnessState.log ++
              [RelayLabel.sendResp 0
                { statusCode := 502, headers := [],
                  body := b64EncodeStr (strBytes dnsFailMsg) }] }) ∧
     shipStep sampleRelay c7ShipWitnessState (ShipEvent.resumeResp 0) =
      some (processingLoopInvoke
        { c7ShipWitnessState with
            tasks := c7ShipWitnessState.tasks.eraseIdx 0,
            answered := c7ShipWitnessState.answered ++ [0],
            log := c7ShipWitnessState.log ++
              [ShipLabel.clientAnswer 0 502 [] (strBytes dnsFailMsg)],
            queue := c7ShipWitnessState.queue.tail, processing := false })) :=
  ⟨by decide, by decide, by decide,
   C7_outbound_failure_502 c7RelayWitnessState 0 dnsFailMsg
     { rid := 0, isTunnel := false, okSent := false, failSent := false }
     (by decide) (by decide) (by decide) sampleRelay c7ShipWitnessState 0 0
     (by decide) (by decide) (by decide) (by decide)⟩

theorem getElem?_append_some {α : Type} {l l2 : List α} {n : Nat} {d : α}
    (h : l[n]? = some d) : (l ++ l2)[n]? = some d := by
  rw [List.getElem?_append_left (List.getElem?_eq_some.mp h).1]
  exact h

theorem sendLabels_append (xs ys : List ShipLabel) :
    sendLabels (xs ++ ys) = sendLabels xs ++ sendLabels ys := by
  induction xs with
  | nil => rfl
  | cons l ls ih => cases l <;> simp [sendLabels, ih]

theorem sendLabels_replicate (n : Nat) (e : Nat) (env : ReqEnvelope) :
    sendLabels (List.replicate n (ShipLabel.sendFrame e env)) =
      List.replicate n (e, env) := by
  induction n with
  | zero => rfl
  | succ n ih => simp [List.replicate_succ, sendLabels, ih]

theorem markFlowing_entries (s : ShipState) (eid : Nat) :
    (markFlowing s eid).entries = s.entries := by
  unfold markFlowing
  split
  · rfl
  split <;> rfl

theorem markFlowing_tasks (s : ShipState) (eid : Nat) :
    (markFlowing s eid).tasks = s.tasks := by
  unfold markFlowing
  split
  · rfl
  split <;> rfl

theorem markFlowing_log (s : ShipState) (eid : Nat) :
    (markFlowing s eid).log = s.log := by
  unfold markFlowing
  split
  · rfl
  split <;> rfl

theorem markFlowing_queue (s : ShipState) (eid : Nat) :
    (markFlowing s eid).queue = s.queue := by
  unfold markFlowing
  split
  · rfl
  split <;> rfl

theorem markFlowing_endFired (s : ShipState) (eid : Nat) :
    (markFlowing s eid).endFired = s.endFired := by
  unfold markFlowing
  split
  · rfl
  split <;> rfl

theorem markFlowing_connected (s : ShipState) (eid : Nat) :
    (markFlowing s eid).connected = s.connected := by
  unfold markFlowing
  split
  · rfl
  split <;> rfl

theorem markFlowing_tunnels (s : ShipState) (eid : Nat) :
    (markFlowing s eid).tunnels = s.tunnels := by
  unfold markFlowing
  split
  · rfl
  split <;> rfl

theorem markFlowing_mem_flowing (s : ShipState) (eid e : Nat) :
    e ∈ (markFlowing s eid).flowing ↔
      e ∈ s.flowing ∨ (e = eid ∧ eid ∉ s.endFired) := by
  unfold markFlowing
  split
  next hef =>
    constructor
    · exact fun h => Or.inl h
    · rintro (h | ⟨rfl, hn⟩)
      · exact h
      · exact absurd hef hn
  next hef =>
    split
    next hfl =>
      constructor
      · exact fun h => Or.inl h
      · rintro (h | ⟨rfl, hn⟩)
        · exact h
        · exact hfl
    next hfl =>
      simp only [List.mem_append, List.mem_singleton]
      constructor
      · rintro (h | rfl)
        · exact Or.inl h
        · exact Or.inr ⟨rfl, hef⟩
      · rintro (h | ⟨rfl, hn⟩)
        · exact Or.inl h
        · exact Or.inr rfl

theorem removeTask_fields (s : ShipState) (i : Nat) :
    (removeTask s i).entries = s.entries ∧ (removeTask s i).queue = s.queue ∧
    (removeTask s i).flowing = s.flowing ∧ (removeTask s i).log = s.log ∧
    (removeTask s i).endFired = s.endFired ∧
    (removeTask s i).answered = s.answered ∧
    (removeTask s i).tunnels = s.tunnels ∧
    (removeTask s i).connected = s.connected ∧
    (removeTask s i).tasks = s.tasks.eraseIdx i :=
  ⟨rfl, rfl, rfl, rfl, rfl, rfl, rfl, rfl, rfl⟩

theorem deliverResponse_fields (s : ShipState) (env : RespEnvelope) :
    (deliverResponse s env).entries = s.entries ∧
    (deliverResponse s env).queue = s.queue ∧
    (deliverResponse s env).flowing = s.flowing ∧
    (deliverResponse s env).log = s.log ∧
    (deliverResponse s env).endFired = s.endFired ∧
    (deliverResponse s env).answered = s.answered ∧
    (deliverResponse s env).tunnels = s.tunnels ∧
    (deliverResponse s env).tasks = s.tasks ∧
    (deliverResponse s env).processing = s.processing ∧
    (deliverResponse s env).connected = s.connected := by
  unfold deliverResponse
  split
  · exact ⟨rfl, rfl, rfl, rfl, rfl, rfl, rfl, rfl, rfl, rfl⟩
  split <;> exact ⟨rfl, rfl, rfl, rfl, rfl, rfl, rfl, rfl, rfl, rfl⟩

theorem setTunnel_fields (s : ShipState) (t : Tunnel) :
    (setTunnel s t).entries = s.entries ∧ (setTunnel s t).queue = s.queue ∧
    (setTunnel s t).flowing = s.flowing ∧ (setTunnel s t).log = s.log ∧
    (setTunnel s t).endFired = s.endFired ∧
    (setTunnel s t).answered = s.answered ∧
    (setTunnel s t).tasks = s.tasks ∧
    (setTunnel s t).processing = s.processing ∧
    (setTunnel s t).connected = s.connected :=
  ⟨rfl, rfl, rfl, rfl, rfl, rfl, rfl, rfl, rfl⟩

/-- The synchronous prefix of a processingLoop invocation preserves the
plain-entries invariant. -/
theorem Inv9_invoke {s : ShipState} (h : Inv9 s) : Inv9 (processingLoopInvoke s) := by
  obtain ⟨hF, hT, hS⟩ := h
  unfold processingLoopInvoke
  split
  · exact ⟨hF, hT, hS⟩
  split
  · exact ⟨hF, hT, hS⟩
  next eid hhead =>
  split
  · exact ⟨hF, hT, hS⟩
  next d hent =>
  split
  next hc =>
    refine ⟨hF, hT, ?_⟩
    intro p hp
    simp only [sendLabels_append, sendLabels, List.append_nil] at hp
    exact hS p hp
  next hc =>
    have hplain : d.isConnect = false := by simpa using hc
    split
    next hconn =>
      refine ⟨hF, ?_, hS⟩
      intro pc hpc
      simp only [List.mem_append, List.mem_singleton] at hpc
      rcases hpc with hpc | hpc
      · exact hT pc hpc
      · subst hpc
        exact ⟨d, hent, hplain⟩
    next hconn =>
      refine ⟨?_, ?_, ?_⟩
      · intro e he
        simp only [markFlowing_entries]
        rw [markFlowing_mem_flowing] at he
        rcases he with he | ⟨rfl, hn⟩
        · exact hF e he
        · exact ⟨d, hent, hplain⟩
      · intro pc hpc
        simp only [markFlowing_tasks, List.mem_append, List.mem_singleton] at hpc
        simp only [markFlowing_entries]
        rcases hpc with hpc | hpc
        · exact hT pc hpc
        · subst hpc
          unfold registerPc
          split <;> exact ⟨d, hent, hplain⟩
      · intro p hp
        simp only [markFlowing_log] at hp
        simp only [markFlowing_entries]
        exact hS p hp

theorem Inv9_completeIteration {s : ShipState} {eid status : Nat}
    {headers : List (String × String)} {body : List Nat} (h : Inv9 s) :
    Inv9 (completeIteration s eid status headers body) := by
  obtain ⟨hF, hT, hS⟩ := h
  unfold completeIteration
  apply Inv9_invoke
  constructor
  · split <;> exact hF
  constructor
  · split <;> exact hT
  · split <;>
      (intro p hp
       simp only [sendLabels_append, sendLabels, List.append_nil] at hp
       exact hS p hp)

theorem mem_of_getElem?_eq_some {α : Type} {l : List α} {i : Nat} {a : α}
    (h : l[i]? = some a) : a ∈ l := by
  obtain ⟨hlt, hget⟩ := List.getElem?_eq_some.mp h
  exact hget ▸ List.getElem_mem hlt

/-- Every enabled step of the ship dispatcher preserves the plain-entries
invariant. -/
theorem Inv9_step {f : ReqEnvelope → RespEnvelope} {s s2 : ShipState}
    {ev : ShipEvent} (h : Inv9 s) (hstep : shipStep f s ev = some s2) :
    Inv9 s2 := by
  obtain ⟨hF, hT, hS⟩ := h
  cases ev with
  | enqueue d =>
      simp only [shipStep, Option.some.injEq] at hstep
      subst hstep
      apply Inv9_invoke
      refine ⟨?_, ?_, ?_⟩
      · intro e he
        obtain ⟨d2, hd2, hdc⟩ := hF e he
        exact ⟨d2, getElem?_append_some hd2, hdc⟩
      · intro pc hpc
        obtain ⟨d2, hd2, hdc⟩ := hT pc hpc
        exact ⟨d2, getElem?_append_some hd2, hdc⟩
      · intro p hp
        obtain ⟨d2, hd2, hdc⟩ := hS p hp
        exact ⟨d2, getElem?_append_some hd2, hdc⟩
  | connectDone =>
      simp only [shipStep] at hstep
      split at hstep
      · exact absurd hstep (by simp)
      · simp only [Option.some.injEq] at hstep
        subst hstep
        exact Inv9_invoke ⟨hF, hT, hS⟩
  | connClose =>
      simp only [shipStep] at hstep
      split at hstep
      · simp only [Option.some.injEq] at hstep
        subst hstep
        exact ⟨hF, hT, hS⟩
      · exact absurd hstep (by simp)
  | fireEnd eid =>
      simp only [shipStep] at hstep
      split at hstep
      case isTrue hg =>
        obtain ⟨hfl, hef⟩ := hg
        cases hent : s.entries[eid]? with
        | none => rw [hent] at hstep; exact absurd hstep (by simp)
        | some d =>
            rw [hent] at hstep
            simp only [Option.some.injEq] at hstep
            subst hstep
            obtain ⟨de, hde, hdc⟩ := hF eid hfl
            refine ⟨hF, ?_, ?_⟩
            · intro pc hpc
              simp only [List.mem_map] at hpc
              obtain ⟨pc0, hpc0, hσ⟩ := hpc
              obtain ⟨d2, hd2, hd2c⟩ := hT pc0 hpc0
              refine ⟨d2, ?_, hd2c⟩
              have : eidOf pc = eidOf pc0 := by
                subst hσ
                split
                next heq => subst heq; rfl
                next => rfl
              rw [this]
              exact hd2
            · intro p hp
              simp only [sendLabels_append] at hp
              rcases List.mem_append.mp hp with hp | hp
              · exact hS p hp
              · split at hp
                · rw [sendLabels_replicate] at hp
                  have : p = (eid, mkReqEnvelope d) := List.eq_of_mem_replicate hp
                  subst this
                  exact ⟨de, hde, hdc⟩
                · simp [sendLabels] at hp
      case isFalse => exact absurd hstep (by simp)
  | retryDone i =>
      simp only [shipStep] at hstep
      cases htask : s.tasks[i]? with
      | none => rw [htask] at hstep; exact absurd hstep (by simp)
      | some pc0 =>
          rw [htask] at hstep
          cases pc0 with
          | waitRetry eid =>
              have hmem : TaskPc.waitRetry eid ∈ s.tasks := mem_of_getElem?_eq_some htask
              obtain ⟨dw, hdw, hdwc⟩ := hT _ hmem
              dsimp only at hstep
              split at hstep
              next hconn =>
                simp only [Option.some.injEq] at hstep
                subst hstep
                refine ⟨?_, ?_, ?_⟩
                · intro e he
                  simp only [markFlowing_entries]
                  rw [markFlowing_mem_flowing] at he
                  rcases he with he | ⟨rfl, hn⟩
                  · exact hF e he
                  · exact ⟨dw, hdw, hdwc⟩
                · intro pc hpc
                  simp only [markFlowing_entries]
                  rcases List.mem_or_eq_of_mem_set hpc with hpc | hpc
                  · exact hT pc hpc
                  · subst hpc
                    unfold registerPc
                    split <;> exact ⟨dw, hdw, hdwc⟩
                · intro p hp
                  simp only [markFlowing_log] at hp
                  simp only [markFlowing_entries]
                  exact hS p hp
              next hconn =>
                simp only [Option.some.injEq] at hstep
                subst hstep
                refine Inv9_completeIteration ⟨hF, ?_, hS⟩
                intro pc hpc
                exact hT pc (List.eraseIdx_subset s.tasks i hpc)
          | awaitEnd eid => exact absurd hstep (by simp)
          | stuckEnd eid => exact absurd hstep (by simp)
          | awaitResp eid => exact absurd hstep (by simp)
  | respond env =>
      simp only [shipStep] at hstep
      split at hstep
      · simp only [Option.some.injEq] at hstep
        subst hstep
        obtain ⟨he, hq, hf, hl, hef2, ha, htu, hta, hp2, hc2⟩ :=
          deliverResponse_fields s env
        refine ⟨?_, ?_, ?_⟩
        · intro e hee
          rw [hf] at hee
          rw [he]
          exact hF e hee
        · intro pc hpc
          rw [hta] at hpc
          rw [he]
          exact hT pc hpc
        · intro p hp
          rw [hl] at hp
          rw [he]
          exact hS p hp
      · exact absurd hstep (by simp)
  | relayRespond =>
      simp only [shipStep] at hstep
      split at hstep
      · cases hrq : s.relayQ with
        | nil => rw [hrq] at hstep; exact absurd hstep (by simp)
        | cons env rest =>
            rw [hrq] at hstep
            simp only [Option.some.injEq] at hstep
            subst hstep
            obtain ⟨he, hq, hf, hl, hef2, ha, htu, hta, hp2, hc2⟩ :=
              deliverResponse_fields { s with relayQ := rest } (f env)
            refine ⟨?_, ?_, ?_⟩
            · intro e hee
              rw [hf] at hee
              rw [he]
              exact hF e hee
            · intro pc hpc
              rw [hta] at hpc
              rw [he]
              exact hT pc hpc
            · intro p hp
              rw [hl] at hp
              rw [he]
              exact hS p hp
      · exact absurd hstep (by simp)
  | resumeResp i =>
      simp only [shipStep] at hstep
      cases htask : s.tasks[i]? with
      | none => rw [htask] at hstep; exact absurd hstep (by simp)
      | some pc0 =>
          rw [htask] at hstep
          cases pc0 with
          | awaitResp eid =>
              dsimp only at hstep
              cases hrv : rvLookup s.resolvedVal eid with
              | none => rw [hrv] at hstep; exact absurd hstep (by simp)
              | some env =>
                  rw [hrv] at hstep
                  simp only [Option.some.injEq] at hstep
                  subst hstep
                  refine Inv9_completeIteration ⟨hF, ?_, hS⟩
                  intro pc hpc
                  exact hT pc (List.eraseIdx_subset s.tasks i hpc)
          | waitRetry eid => exact absurd hstep (by simp)
          | awaitEnd eid => exact absurd hstep (by simp)
          | stuckEnd eid => exact absurd hstep (by simp)
  | timeoutFire i =>
      simp only [shipStep] at hstep
      cases htask : s.tasks[i]? with
      | none => rw [htask] at hstep; exact absurd hstep (by simp)
      | some pc0 =>
          rw [htask] at hstep
          cases pc0 with
          | awaitResp eid =>
              dsimp only at hstep
              cases hrv : rvLookup s.resolvedVal eid with
              | some env => rw [hrv] at hstep; exact absurd hstep (by simp)
              | none =>
                  rw [hrv] at hstep
                  simp only [Option.some.injEq] at hstep
                  subst hstep
                  refine Inv9_completeIteration ⟨hF, ?_, hS⟩
                  intro pc hpc
                  exact hT pc (List.eraseIdx_subset s.tasks i hpc)
          | waitRetry eid => exact absurd hstep (by simp)
          | awaitEnd eid => exact absurd hstep (by simp)
          | stuckEnd eid => exact absurd hstep (by simp)
  | tunnelEstablished eid =>
      simp only [shipStep] at hstep
      cases hft : findTunnel s eid with
      | none => rw [hft] at hstep; exact absurd hstep (by simp)
      | some t =>
          rw [hft] at hstep
          dsimp only at hstep
          split at hstep
          · simp only [Option.some.injEq] at hstep
            subst hstep
            refine ⟨hF, hT, ?_⟩
            intro p hp
            simp only [setTunnel] at hp ⊢
            simp only [sendLabels_append, sendLabels, List.append_nil] at hp
            exact hS p hp
          · exact absurd hstep (by simp)
  | tunnelError eid =>
      simp only [shipStep] at hstep
      cases hft : findTunnel s eid with
      | none => rw [hft] at hstep; exact absurd hstep (by simp)
      | some t =>
          rw [hft] at hstep
          dsimp only at hstep
          split at hstep
          · simp only [Option.some.injEq] at hstep
            subst hstep
            refine ⟨hF, hT, ?_⟩
            intro p hp
            simp only [setTunnel] at hp ⊢
            simp only [sendLabels_append, sendLabels, List.append_nil] at hp
            exact hS p hp
          · exact absurd hstep (by simp)
  | tunnelClientClose eid =>
      simp only [shipStep] at hstep
      cases hft : findTunnel s eid with
      | none => rw [hft] at hstep; exact absurd hstep (by simp)
      | some t =>
          rw [hft] at hstep
          dsimp only at hstep
          split at hstep
          · simp only [Option.some.injEq] at hstep
            subst hstep
            apply Inv9_invoke
            refine ⟨?_, ?_, ?_⟩ <;> simp only [setTunnel] <;> intro x hx
            · exact hF x hx
            · exact hT x hx
            · simp only [sendLabels_append, sendLabels, List.append_nil] at hx
              exact hS x hx
          · exact absurd hstep (by simp)
  | tunnelRemoteClose eid =>
      simp only [shipStep] at hstep
      cases hft : findTunnel s eid with
      | none => rw [hft] at hstep; exact absurd hstep (by simp)
      | some t =>
          rw [hft] at hstep
          dsimp only at hstep
          split at hstep
          · simp only [Option.some.injEq] at hstep
            subst hstep
            apply Inv9_invoke
            refine ⟨?_, ?_, ?_⟩ <;> simp only [setTunnel] <;> intro x hx
            · exact hF x hx
            · exact hT x hx
            · simp only [sendLabels_append, sendLabels, List.append_nil] at hx
              exact hS x hx
          · exact absurd hstep (by simp)

theorem Inv9_init : Inv9 initShip := by
  refine ⟨?_, ?_, ?_⟩ <;> intro x hx <;> simp [initShip, sendLabels] at hx

theorem Inv9_run {f : ReqEnvelope → RespEnvelope} {s s2 : ShipState}
    {evs : List ShipEvent} (h : Inv9 s) (hrun : shipRun f s evs = some s2) :
    Inv9 s2 := by
  induction evs generalizing s with
  | nil =>
      simp only [shipRun, Option.some.injEq] at hrun
      subst hrun
      exact h
  | cons ev evs ih =>
      simp only [shipRun] at hrun
      cases hst : shipStep f s ev with
      | none => rw [hst] at hrun; exact absurd hrun (by simp)
      | some s1 =>
          rw [hst] at hrun
          exact ih (Inv9_step h hst) hrun

/-- Claim C9: CONNECT requests never touch the managed relay connection and
run a direct tunnel instead: (1) in every reachable dispatcher state, every
type-0 frame ever sent belongs to a plain (non-CONNECT) entry; (2) invoking
the loop on a CONNECT head opens a direct connection to the parsed target
host and port, sends no frame, and suspends holding the processing flag;
(3) the connect callback of the direct socket writes the tunnel-established
status line to the local client; (4) when the client side of the tunnel
closes, the remote is destroyed, the head entry leaves the queue and the
loop is immediately re-invoked so the next queued entry proceeds. -/
theorem C9_connect_direct_tunnel (f : ReqEnvelope → RespEnvelope) :
    (∀ evs : List ShipEvent, ∀ s : ShipState, shipRun f initShip evs = some s →
       ∀ p ∈ sendLabels s.log, ∃ d, s.entries[p.1]? = some d ∧
         d.isConnect = false) ∧
    (∀ t : ShipState, ∀ eid : Nat, ∀ d : EntryData, t.processing = false →
       t.queue.head? = some eid → t.entries[eid]? = some d → d.isConnect = true →
       processingLoopInvoke t =
         { t with processing := true,
                  tunnels := t.tunnels ++
                    [{ eid := eid, established := false, errFired := false,
                       clientClosed := false, remoteClosed := false }],
                  log := t.log ++ [ShipLabel.directConnect eid
                    (parseConnectTarget d.url (hostHeaderOf d.headers)).1
                    (parseConnectTarget d.url (hostHeaderOf d.headers)).2] }) ∧
    (∀ t : ShipState, ∀ eid : Nat, ∀ tn : Tunnel, findTunnel t eid = some tn →
       tn.established = false → tn.errFired = false → tn.clientClosed = false →
       tn.remoteClosed = false →
       shipStep f t (ShipEvent.tunnelEstablished eid) =
         some (setTunnel
           { t with log := t.log ++ [ShipLabel.rawWrite eid connEstablishedLine] }
           { tn with established := true })) ∧
    (∀ t : ShipState, ∀ eid : Nat, ∀ tn : Tunnel, findTunnel t eid = some tn →
       tn.clientClosed = false →
       shipStep f t (ShipEvent.tunnelClientClose eid) =
         some (processingLoopInvoke
           { (setTunnel t { tn with clientClosed := true }) with
               processing := false, queue := t.queue.tail,
               log := t.log ++ [ShipLabel.teardown eid] })) := by
  refine ⟨?_, ?_, ?_, ?_⟩
  · intro evs s hrun
    exact (Inv9_run Inv9_init hrun).2.2
  · intro t eid d hproc hhead hent hdc
    simp [processingLoopInvoke, hproc, hhead, hent, hdc]
  · intro t eid tn hft h1 h2 h3 h4
    simp [shipStep, hft, h1, h2, h3, h4]
  · intro t eid tn hft h1
    simp [shipStep, hft, h1]

theorem C9_connect_direct_tunnel_witness :
    (processingLoopInvoke c9WitnessState =
      { c9WitnessState with
          processing := true,
          tunnels := [{ eid := 0, established := false, errFired := false,
                        clientClosed := false, remoteClosed := false }],
          log := [ShipLabel.directConnect 0
            (parseConnectTarget sampleConnectEntry.url
              (hostHeaderOf sampleConnectEntry.headers)).1
            (parseConnectTarget sampleConnectEntry.url
              (hostHeaderOf sampleConnectEntry.headers)).2] }) ∧
    (shipStep sampleRelay
      { c9TunnelState with
          tunnels := [{ eid := 0, established := false, errFired := false,
                        clientClosed := false, remoteClosed := false }] }
      (ShipEvent.tunnelEstablished 0) =
      some (setTunnel
        { { c9TunnelState with
              tunnels := [{ eid := 0, established := false, errFired := false,
                            clientClosed := false, remoteClosed := false }] } with
            log := c9TunnelState.log ++ [ShipLabel.rawWrite 0 connEstablishedLine] }
        { eid := 0, established := true, errFired := false,
          clientClosed := false, remoteClosed := false })) ∧
    (shipStep sampleRelay c9TunnelState (ShipEvent.tunnelClientClose 0) =
      some (processingLoopInvoke
        { (setTunnel c9TunnelState
            { eid := 0, established := true, errFired := false,
              clientClosed := true, remoteClosed := false }) with
            processing := false, queue := c9TunnelState.queue.tail,
            log := c9TunnelState.log ++ [ShipLabel.teardown 0] })) :=
  ⟨(C9_connect_direct_tunnel sampleRelay).2.1 c9WitnessState 0 sampleConnectEntry
     (by decide) (by decide) (by decide) (by decide),
   (C9_connect_direct_tunnel sampleRelay).2.2.1 _ 0
     { eid := 0, established := false, errFired := false,
       clientClosed := false, remoteClosed := false }
     (by decide) (by decide) (by decide) (by decide) (by decide),
   (C9_connect_direct_tunnel sampleRelay).2.2.2 c9TunnelState 0
     { eid := 0, established := true, errFired := false,
       clientClosed := false, remoteClosed := false }
     (by decide) (by decide)⟩

theorem sendCountFor_append (e : Nat) (xs ys : List ShipLabel) :
    sendCountFor e (xs ++ ys) = sendCountFor e xs + sendCountFor e ys := by
  induction xs with
  | nil => simp [sendCountFor]
  | cons l ls ih => cases l <;> simp [sendCountFor, ih] <;> omega

theorem sendCountFor_of_sendLabels_eq {e : Nat} {xs ys : List ShipLabel}
    (h : sendLabels xs = sendLabels ys) : sendCountFor e xs = sendCountFor e ys := by
  have aux : ∀ zs : List ShipLabel,
      sendCountFor e zs = (sendLabels zs).countP (fun p => decide (p.1 = e)) := by
    intro zs
    induction zs with
    | nil => rfl
    | cons l ls ih => cases l <;> simp [sendCountFor, sendLabels, List.countP_cons, ih] <;> omega
  rw [aux xs, aux ys, h]

/-- The loop invocation prefix never changes the set of fired end events,
never creates an invocation that is already awaiting a response, and sends
no frame. -/
theorem processingLoopInvoke_aux (s : ShipState) :
    (processingLoopInvoke s).endFired = s.endFired ∧
    (∀ e, TaskPc.awaitResp e ∈ (processingLoopInvoke s).tasks →
      TaskPc.awaitResp e ∈ s.tasks) ∧
    sendLabels (processingLoopInvoke s).log = sendLabels s.log := by
  unfold processingLoopInvoke
  split
  · exact ⟨rfl, fun e h => h, rfl⟩
  split
  · exact ⟨rfl, fun e h => h, rfl⟩
  next eid hhead =>
  split
  · exact ⟨rfl, fun e h => h, rfl⟩
  next d hent =>
  split
  · refine ⟨rfl, fun e h => h, ?_⟩
    simp [sendLabels_append, sendLabels]
  next =>
  split
  · refine ⟨rfl, ?_, rfl⟩
    intro e he
    simp only [List.mem_append, List.mem_singleton] at he
    rcases he with he | he
    · exact he
    · exact absurd he (by simp)
  · refine ⟨markFlowing_endFired s eid, ?_, by rw [markFlowing_log]⟩
    intro e he
    simp only [markFlowing_tasks, List.mem_append, List.mem_singleton] at he
    rcases he with he | he
    · exact he
    · unfold registerPc at he
      split at he <;> cases he

/-- The terminal part of an iteration never changes the fired end events,
never creates an awaiting invocation, and sends no frame. -/
theorem completeIteration_aux (s : ShipState) (eid st : Nat)
    (hs : List (String × String)) (b : List Nat) :
    (completeIteration s eid st hs b).endFired = s.endFired ∧
    (∀ e, TaskPc.awaitResp e ∈ (completeIteration s eid st hs b).tasks →
      TaskPc.awaitResp e ∈ s.tasks) ∧
    sendLabels (completeIteration s eid st hs b).log = sendLabels s.log := by
  unfold completeIteration
  split
  next hin =>
    obtain ⟨h1, h2, h3⟩ := processingLoopInvoke_aux
      { s with log := s.log ++ [ShipLabel.clientAnswerDup eid],
               queue := s.queue.tail, processing := false }
    refine ⟨h1, h2, ?_⟩
    rw [h3]
    simp [sendLabels_append, sendLabels]
  next hin =>
    obtain ⟨h1, h2, h3⟩ := processingLoopInvoke_aux
      { s with answered := s.answered ++ [eid],
               log := s.log ++ [ShipLabel.clientAnswer eid st hs b],
               queue := s.queue.tail, processing := false }
    refine ⟨h1, h2, ?_⟩
    rw [h3]
    simp [sendLabels_append, sendLabels]

/-- One enabled step keeps fired end events fired, preserves the
await-implies-fired invariant, and sends no frame for an entry whose end
event has already fired. -/
theorem C8_step_aux {f : ReqEnvelope → RespEnvelope} {s s2 : ShipState}
    {ev : ShipEvent} (hstep : shipStep f s ev = some s2) :
    (∀ e, e ∈ s.endFired → e ∈ s2.endFired) ∧
    (InvC8 s → InvC8 s2) ∧
    (∀ e, e ∈ s.endFired → sendCountFor e s2.log = sendCountFor e s.log) := by
  cases ev with
  | enqueue d =>
      simp only [shipStep, Option.some.injEq] at hstep
      subst hstep
      obtain ⟨h1, h2, h3⟩ := processingLoopInvoke_aux
        { s with entries := s.entries ++ [d], queue := s.queue ++ [s.entries.length] }
      refine ⟨?_, ?_, ?_⟩
      · intro e he
        rw [h1]
        exact he
      · intro hi e he
        rw [h1]
        exact hi e (h2 e he)
      · intro e _
        exact sendCountFor_of_sendLabels_eq h3
  | connectDone =>
      simp only [shipStep] at hstep
      split at hstep
      · exact absurd hstep (by simp)
      · simp only [Option.some.injEq] at hstep
        subst hstep
        obtain ⟨h1, h2, h3⟩ := processingLoopInvoke_aux { s with connected := true }
        refine ⟨?_, ?_, ?_⟩
        · intro e he
          rw [h1]
          exact he
        · intro hi e he
          rw [h1]
          exact hi e (h2 e he)
        · intro e _
          exact sendCountFor_of_sendLabels_eq h3
  | connClose =>
      simp only [shipStep] at hstep
      split at hstep
      · simp only [Option.some.injEq] at hstep
        subst hstep
        exact ⟨fun e he => he, fun hi e he => hi e he, fun e _ => rfl⟩
      · exact absurd hstep (by simp)
  | fireEnd eid =>
      simp only [shipStep] at hstep
      split at hstep
      case isTrue hg =>
        obtain ⟨hfl, hef⟩ := hg
        cases hent : s.entries[eid]? with
        | none => rw [hent] at hstep; exact absurd hstep (by simp)
        | some d =>
            rw [hent] at hstep
            simp only [Option.some.injEq] at hstep
            subst hstep
            refine ⟨?_, ?_, ?_⟩
            · intro e he
              simp [he]
            · intro hi e he
              simp only [List.mem_map] at he
              obtain ⟨pc0, hpc0, hσ⟩ := he
              by_cases hpe : pc0 = TaskPc.awaitEnd eid
              · subst hpe
                simp at hσ
                simp [← hσ]
              · rw [if_neg hpe] at hσ
                subst hσ
                simp [hi e hpc0]
            · intro e he
              have hne : eid ≠ e := fun heq => hef (heq ▸ he)
              rw [sendCountFor_append]
              split
              · have : sendCountFor e (List.replicate
                    (resumeCount s.tasks eid) (ShipLabel.sendFrame eid (mkReqEnvelope d))) = 0 := by
                  induction resumeCount s.tasks eid with
                  | zero => rfl
                  | succ n ih => simp [List.replicate_succ, sendCountFor, hne, ih]
                omega
              · simp [sendCountFor]
      case isFalse => exact absurd hstep (by simp)
  | retryDone i =>
      simp only [shipStep] at hstep
      cases htask : s.tasks[i]? with
      | none => rw [htask] at hstep; exact absurd hstep (by simp)
      | some pc0 =>
          rw [htask] at hstep
          cases pc0 with
          | waitRetry eid =>
              dsimp only at hstep
              split at hstep
              next hconn =>
                simp only [Option.some.injEq] at hstep
                subst hstep
                refine ⟨?_, ?_, ?_⟩
                · intro e he
                  rw [markFlowing_endFired]
                  exact he
                · intro hi e he
                  simp only [markFlowing_tasks] at he
                  rw [markFlowing_endFired]
                  rcases List.mem_or_eq_of_mem_set he with he | he
                  · exact hi e he
                  · unfold registerPc at he
                    split at he <;> cases he
                · intro e he
                  rw [markFlowing_log]
              next hconn =>
                simp only [Option.some.injEq] at hstep
                subst hstep
                obtain ⟨h1, h2, h3⟩ := completeIteration_aux (removeTask s i) eid 502 []
                  (strBytes badGatewayUnavailableMsg)
                refine ⟨?_, ?_, ?_⟩
                · intro e he
                  rw [h1]
                  exact he
                · intro hi e he
                  rw [h1]
                  exact hi e (List.eraseIdx_subset s.tasks i (h2 e he))
                · intro e _
                  exact sendCountFor_of_sendLabels_eq h3
          | awaitEnd eid => exact absurd hstep (by simp)
          | stuckEnd eid => exact absurd hstep (by simp)
          | awaitResp eid => exact absurd hstep (by simp)
  | respond env =>
      simp only [shipStep] at hstep
      split at hstep
      · simp only [Option.some.injEq] at hstep
        subst hstep
        obtain ⟨he2, hq, hf, hl, hef2, ha, htu, hta, hp2, hc2⟩ :=
          deliverResponse_fields s env
        refine ⟨?_, ?_, ?_⟩
        · intro e he
          rw [hef2]
          exact he
        · intro hi e he
          rw [hef2]
          rw [hta] at he
          exact hi e he
        · intro e _
          rw [hl]
      · exact absurd hstep (by simp)
  | relayRespond =>
      simp only [shipStep] at hstep
      split at hstep
      · cases hrq : s.relayQ with
        | nil => rw [hrq] at hstep; exact absurd hstep (by simp)
        | cons env rest =>
            rw [hrq] at hstep
            simp only [Option.some.injEq] at hstep
            subst hstep
            obtain ⟨he2, hq, hf, hl, hef2, ha, htu, hta, hp2, hc2⟩ :=
              deliverResponse_fields { s with relayQ := rest } (f env)
            refine ⟨?_, ?_, ?_⟩
            · intro e he
              rw [hef2]
              exact he
            · intro hi e he
              rw [hef2]
              rw [hta] at he
              exact hi e he
            · intro e _
              rw [hl]
      · exact absurd hstep (by simp)
  | resumeResp i =>
      simp only [shipStep] at hstep
      cases htask : s.tasks[i]? with
      | none => rw [htask] at hstep; exact absurd hstep (by simp)
      | some pc0 =>
          rw [htask] at hstep
          cases pc0 with
          | awaitResp eid =>
              dsimp only at hstep
              cases hrv : rvLookup s.resolvedVal eid with
              | none => rw [hrv] at hstep; exact absurd hstep (by simp)
              | some env =>
                  rw [hrv] at hstep
                  simp only [Option.some.injEq] at hstep
                  subst hstep
                  obtain ⟨h1, h2, h3⟩ := completeIteration_aux (removeTask s i) eid
                    (if env.statusCode = 0 then 200 else env.statusCode)
                    env.headers (b64DecodeStr env.body)
                  refine ⟨?_, ?_, ?_⟩
                  · intro e he
                    rw [h1]
                    exact he
                  · intro hi e he
                    rw [h1]
                    exact hi e (List.eraseIdx_subset s.tasks i (h2 e he))
                  · intro e _
                    exact sendCountFor_of_sendLabels_eq h3
          | waitRetry eid => exact absurd hstep (by simp)
          | awaitEnd eid => exact absurd hstep (by simp)
          | stuckEnd eid => exact absurd hstep (by simp)
  | timeoutFire i =>
      simp only [shipStep] at hstep
      cases htask : s.tasks[i]? with
      | none => rw [htask] at hstep; exact absurd hstep (by simp)
      | some pc0 =>
          rw [htask] at hstep
          cases pc0 with
          | awaitResp eid =>
              dsimp only at hstep
              cases hrv : rvLookup s.resolvedVal eid with
              | some env => rw [hrv] at hstep; exact absurd hstep (by simp)
              | none =>
                  rw [hrv] at hstep
                  simp only [Option.some.injEq] at hstep
                  subst hstep
                  obtain ⟨h1, h2, h3⟩ := completeIteration_aux (removeTask s i) eid 504 []
                    (strBytes gatewayTimeoutMsg)
                  refine ⟨?_, ?_, ?_⟩
                  · intro e he
                    rw [h1]
                    exact he
                  · intro hi e he
                    rw [h1]
                    exact hi e (List.eraseIdx_subset s.tasks i (h2 e he))
                  · intro e _
                    exact sendCountFor_of_sendLabels_eq h3
          | waitRetry eid => exact absurd hstep (by simp)
          | awaitEnd eid => exact absurd hstep (by simp)
          | stuckEnd eid => exact absurd hstep (by simp)
  | tunnelEstablished eid =>
      simp only [shipStep] at hstep
      cases hft : findTunnel s eid with
      | none => rw [hft] at hstep; exact absurd hstep (by simp)
      | some t =>
          rw [hft] at hstep
          dsimp only at hstep
          split at hstep
          · simp only [Option.some.injEq] at hstep
            subst hstep
            refine ⟨fun e he => he, fun hi e he => hi e he, ?_⟩
            intro e _
            simp only [setTunnel]
            rw [sendCountFor_append]
            simp [sendCountFor]
          · exact absurd hstep (by simp)
  | tunnelError eid =>
      simp only [shipStep] at hstep
      cases hft : findTunnel s eid with
      | none => rw [hft] at hstep; exact absurd hstep (by simp)
      | some t =>
          rw [hft] at hstep
          dsimp only at hstep
          split at hstep
          · simp only [Option.some.injEq] at hstep
            subst hstep
            refine ⟨fun e he => he, fun hi e he => hi e he, ?_⟩
            intro e _
            simp only [setTunnel]
            rw [sendCountFor_append]
            simp [sendCountFor]
          · exact absurd hstep (by simp)
  | tunnelClientClose eid =>
      simp only [shipStep] at hstep
      cases hft : findTunnel s eid with
      | none => rw [hft] at hstep; exact absurd hstep (by simp)
      | some t =>
          rw [hft] at hstep
          dsimp only at hstep
          split at hstep
          · simp only [Option.some.injEq] at hstep
            subst hstep
            obtain ⟨h1, h2, h3⟩ := processingLoopInvoke_aux
              { (setTunnel s { t with clientClosed := true }) with
                  processing := false, queue := s.queue.tail,
                  log := s.log ++ [ShipLabel.teardown eid] }
            refine ⟨?_, ?_, ?_⟩
            · intro e he
              rw [h1]
              exact he
            · intro hi e he
              rw [h1]
              exact hi e (h2 e he)
            · intro e _
              apply sendCountFor_of_sendLabels_eq
              rw [h3]
              simp [sendLabels_append, sendLabels]
          · exact absurd hstep (by simp)
  | tunnelRemoteClose eid =>
      simp only [shipStep] at hstep
      cases hft : findTunnel s eid with
      | none => rw [hft] at hstep; exact absurd hstep (by simp)
      | some t =>
          rw [hft] at hstep
          dsimp only at hstep
          split at hstep
          · simp only [Option.some.injEq] at hstep
            subst hstep
            obtain ⟨h1, h2, h3⟩ := processingLoopInvoke_aux
              { (setTunnel s { t with remoteClosed := true }) with
                  processing := false, queue := s.queue.tail,
                  log := s.log ++ [ShipLabel.teardown eid] }
            refine ⟨?_, ?_, ?_⟩
            · intro e he
              rw [h1]
              exact he
            · intro hi e he
              rw [h1]
              exact hi e (h2 e he)
            · intro e _
              apply sendCountFor_of_sendLabels_eq
              rw [h3]
              simp [sendLabels_append, sendLabels]
          · exact absurd hstep (by simp)

theorem InvC8_init : InvC8 initShip := by
  intro e he
  simp [initShip] at he

theorem InvC8_run {f : ReqEnvelope → RespEnvelope} {s s2 : ShipState}
    {evs : List ShipEvent} (h : InvC8 s) (hrun : shipRun f s evs = some s2) :
    InvC8 s2 := by
  induction evs generalizing s with
  | nil =>
      simp only [shipRun, Option.some.injEq] at hrun
      subst hrun
      exact h
  | cons ev evs ih =>
      simp only [shipRun] at hrun
      cases hst : shipStep f s ev with
      | none => rw [hst] at hrun; exact absurd hrun (by simp)
      | some s1 =>
          rw [hst] at hrun
          exact ih ((C8_step_aux hst).2.1 h) hrun

theorem sendCount_frozen_run {f : ReqEnvelope → RespEnvelope}
    {s s2 : ShipState} {evs : List ShipEvent} (e : Nat) (hef : e ∈ s.endFired)
    (hrun : shipRun f s evs = some s2) :
    sendCountFor e s2.log = sendCountFor e s.log ∧ e ∈ s2.endFired := by
  induction evs generalizing s with
  | nil =>
      simp only [shipRun, Option.some.injEq] at hrun
      subst hrun
      exact ⟨rfl, hef⟩
  | cons ev evs ih =>
      simp only [shipRun] at hrun
      cases hst : shipStep f s ev with
      | none => rw [hst] at hrun; exact absurd hrun (by simp)
      | some s1 =>
          rw [hst] at hrun
          obtain ⟨hmono, _, hcnt⟩ := C8_step_aux hst
          obtain ⟨ih1, ih2⟩ := ih (hmono e hef) hrun
          exact ⟨by rw [ih1, hcnt e hef], ih2⟩

/-- Claim C8: when the managed connection closes while a request is
mid-flight (an invocation for it has sent its frame and awaits a response),
the close handler only clears the processing flag, voiding the positional
match state, and resolves nothing: the queue, the log, the pending
invocations and the response promises are untouched, so the request is left
to its own timeout; and in every continuation of the run, no further type-0
frame for that request is ever sent, over a new connection or otherwise. -/
theorem C8_close_voids_no_resend (f : ReqEnvelope → RespEnvelope)
    (evs : List ShipEvent) (s s1 s2 : ShipState) (i eid : Nat)
    (cont : List ShipEvent)
    (hrun : shipRun f initShip evs = some s)
    (htask : s.tasks[i]? = some (TaskPc.awaitResp eid))
    (hclose : shipStep f s ShipEvent.connClose = some s1)
    (hcont : shipRun f s1 cont = some s2) :
    s1.processing = false ∧ s1.connected = false ∧ s1.queue = s.queue ∧
    s1.log = s.log ∧ s1.resolvedVal = s.resolvedVal ∧ s1.tasks = s.tasks ∧
    sendCountFor eid s2.log = sendCountFor eid s.log := by
  have hs1 : s1 = { s with connected := false, processing := false } := by
    simp only [shipStep] at hclose
    split at hclose
    · simp only [Option.some.injEq] at hclose
      exact hclose.symm
    · exact absurd hclose (by simp)
  subst hs1
  have hinv : InvC8 s := InvC8_run InvC8_init hrun
  have hef : eid ∈ s.endFired := hinv eid (mem_of_getElem?_eq_some htask)
  have hfr := @sendCount_frozen_run f
    { s with connected := false, processing := false } s2 cont eid hef hcont
  exact ⟨rfl, rfl, rfl, rfl, rfl, rfl, hfr.1⟩

theorem C8_close_voids_no_resend_witness :
    shipRun sampleRelay initShip c8Setup = some c8State ∧
    c8State.tasks[0]? = some (TaskPc.awaitResp 0) ∧
    shipStep sampleRelay c8State ShipEvent.connClose = some c8Closed ∧
    shipRun sampleRelay c8Closed c8Cont = some c8Final ∧
    (c8Closed.processing = false ∧ c8Closed.connected = false ∧
     c8Closed.queue = c8State.queue ∧ c8Closed.log = c8State.log ∧
     c8Closed.resolvedVal = c8State.resolvedVal ∧
     c8Closed.tasks = c8State.tasks ∧
     sendCountFor 0 c8Final.log = sendCountFor 0 c8State.log) :=
  ⟨by decide, by decide, by decide, by decide,
   C8_close_voids_no_resend sampleRelay c8Setup c8State c8Closed c8Final 0 0
     c8Cont (by decide) (by decide) (by decide) (by decide)⟩

theorem relayRespCount_append (rid : Nat) (xs ys : List RelayLabel) :
    relayRespCount rid (xs ++ ys) =
      relayRespCount rid xs + relayRespCount rid ys := by
  induction xs with
  | nil => simp [relayRespCount]
  | cons l ls ih => cases l <;> simp [relayRespCount, ih] <;> omega

/-- The request-queue loop keeps an id that is neither queued nor pending
out of the queue, out of the pending set, below the id counter, and sends no
type-1 frame for it. -/
theorem hrqFuel_frozen (fuel : Nat) (t : RelayState) (rid : Nat)
    (h1 : rid ∉ t.rq.map Prod.fst) (h2 : rid ∉ t.pending.map RelayPending.rid)
    (h3 : rid < t.nextRid) :
    rid ∉ (handleRequestQueueFuel fuel t).rq.map Prod.fst ∧
    rid ∉ (handleRequestQueueFuel fuel t).pending.map RelayPending.rid ∧
    rid < (handleRequestQueueFuel fuel t).nextRid ∧
    relayRespCount rid (handleRequestQueueFuel fuel t).log =
      relayRespCount rid t.log := by
  induction fuel generalizing t with
  | zero => exact ⟨h1, h2, h3, rfl⟩
  | succ fuel ih =>
      unfold handleRequestQueueFuel
      split
      · exact ⟨h1, h2, h3, rfl⟩
      split
      · exact ⟨h1, h2, h3, rfl⟩
      next rid2 hhead =>
        have htail : rid ∉ t.rq.tail.map Prod.fst := fun hm =>
          h1 (List.map_subset _ (List.tail_subset t.rq) hm)
        obtain ⟨g1, g2, g3, g4⟩ := ih
          { t with rq := t.rq.tail, log := t.log ++ [RelayLabel.discard rid2] }
          htail h2 h3
        refine ⟨g1, g2, g3, ?_⟩
        rw [g4]
        simp [relayRespCount_append, relayRespCount]
      next rid2 env hhead =>
        have hmem : (rid2, some env) ∈ t.rq := List.mem_of_mem_head? (by simp [hhead])
        have hne : rid2 ≠ rid := by
          intro heq
          exact h1 (List.mem_map.mpr ⟨_, hmem, by simp [heq]⟩)
        have hpend : ∀ b1 b2 b3 : Bool,
            rid ∉ (t.pending ++
              [({ rid := rid2, isTunnel := b1, okSent := b2,
                  failSent := b3 } : RelayPending)]).map RelayPending.rid := by
          intro b1 b2 b3 hm
          simp only [List.map_append, List.mem_append] at hm
          rcases hm with hm | hm
          · exact h2 hm
          · simp at hm
            exact hne hm.symm
        split
        · exact ⟨h1, hpend true false false, h3,
            by simp [relayRespCount_append, relayRespCount]⟩
        · exact ⟨h1, hpend false false false, h3,
            by simp [relayRespCount_append, relayRespCount]⟩

/-- Variant of the frozen-id property for cleanupRequest composed after the
answer write of an outbound completion. -/
theorem cleanup_frozen (t : RelayState) (rid : Nat)
    (h1 : rid ∉ t.rq.map Prod.fst) (h2 : rid ∉ t.pending.map RelayPending.rid)
    (h3 : rid < t.nextRid) :
    rid ∉ (cleanupRequest t).rq.map Prod.fst ∧
    rid ∉ (cleanupRequest t).pending.map RelayPending.rid ∧
    rid < (cleanupRequest t).nextRid ∧
    relayRespCount rid (cleanupRequest t).log = relayRespCount rid t.log := by
  unfold cleanupRequest handleRequestQueue
  apply hrqFuel_frozen
  · intro hm
    exact h1 (List.map_subset _ (List.tail_subset t.rq) hm)
  · exact h2
  · exact h3

/-- One enabled relay step keeps an id that is neither queued nor pending
out of the queue, out of the pending set, below the id counter, and sends no
type-1 frame for it. -/
theorem relayStep_frozen {s s2 : RelayState} {ev : RelayEvent} (rid : Nat)
    (hstep : relayStep s ev = some s2)
    (h1 : rid ∉ s.rq.map Prod.fst) (h2 : rid ∉ s.pending.map RelayPending.rid)
    (h3 : rid < s.nextRid) :
    rid ∉ s2.rq.map Prod.fst ∧ rid ∉ s2.pending.map RelayPending.rid ∧
    rid < s2.nextRid ∧ relayRespCount rid s2.log = relayRespCount rid s.log := by
  have hfind : ∀ rid2 p, findPending s rid2 = some p → rid2 ≠ rid := by
    intro rid2 p hfp heq
    have hpmem : p ∈ s.pending := List.mem_of_find?_eq_some hfp
    have hprid : p.rid = rid2 := by
      have := List.find?_some hfp
      simpa using this
    exact h2 (List.mem_map.mpr ⟨p, hpmem, by rw [hprid, heq]⟩)
  have hpendErase : ∀ rid2,
      rid ∉ (erasePending s rid2).pending.map RelayPending.rid := by
    intro rid2 hm
    obtain ⟨q, hq, hqe⟩ := List.mem_map.mp hm
    exact h2 (List.mem_map.mpr ⟨q, List.mem_of_mem_filter hq, hqe⟩)
  have hpendSet : ∀ p2 : RelayPending, rid ∉ s.pending.map RelayPending.rid →
      p2.rid ≠ rid →
      rid ∉ (setPending s p2).pending.map RelayPending.rid := by
    intro p2 hold hne hm
    obtain ⟨q, hq, hqe⟩ := List.mem_map.mp hm
    obtain ⟨q0, hq0, hq0e⟩ := List.mem_map.mp hq
    by_cases hc : q0.rid == p2.rid
    · rw [if_pos hc] at hq0e
      subst hq0e
      exact hne hqe
    · rw [if_neg hc] at hq0e
      subst hq0e
      exact hold (List.mem_map.mpr ⟨q0, hq0, hqe⟩)
  cases ev with
  | acceptConn =>
      simp only [relayStep] at hstep
      split at hstep <;> simp only [Option.some.injEq] at hstep <;> subst hstep
      · exact ⟨h1, h2, h3, by simp [relayRespCount_append, relayRespCount]⟩
      · exact ⟨h1, h2, h3, rfl⟩
  | recvFrame p =>
      simp only [relayStep] at hstep
      split at hstep
      · simp only [Option.some.injEq] at hstep
        subst hstep
        unfold handleRequestQueue
        apply hrqFuel_frozen
        · intro hm
          simp only [List.map_append, List.mem_append] at hm
          rcases hm with hm | hm
          · exact h1 hm
          · simp at hm
            omega
        · exact h2
        · exact Nat.lt_succ_of_lt h3
      · exact absurd hstep (by simp)
  | httpDone rid2 st hs body =>
      simp only [relayStep] at hstep
      cases hfp : findPending s rid2 with
      | none => rw [hfp] at hstep; exact absurd hstep (by simp)
      | some p =>
          rw [hfp] at hstep
          dsimp only at hstep
          split at hstep
          · simp only [Option.some.injEq] at hstep
            subst hstep
            have hne := hfind rid2 p hfp
            obtain ⟨g1, g2, g3, g4⟩ := cleanup_frozen
              (relaySend (erasePending s rid2)
                (RelayLabel.sendResp rid2
                  { statusCode := st, headers := hs, body := b64EncodeStr body }))
              rid (by unfold relaySend; split <;> exact h1)
              (by unfold relaySend; split <;> exact hpendErase rid2)
              (by unfold relaySend; split <;> exact h3)
            refine ⟨g1, g2, g3, ?_⟩
            rw [g4]
            unfold relaySend
            split
            · simp [relayRespCount_append, relayRespCount, hne, erasePending]
            · rfl
          · exact absurd hstep (by simp)
  | httpFail rid2 msg =>
      simp only [relayStep] at hstep
      cases hfp : findPending s rid2 with
      | none => rw [hfp] at hstep; exact absurd hstep (by simp)
      | some p =>
          rw [hfp] at hstep
          dsimp only at hstep
          split at hstep
          · simp only [Option.some.injEq] at hstep
            subst hstep
            have hne := hfind rid2 p hfp
            obtain ⟨g1, g2, g3, g4⟩ := cleanup_frozen
              (relaySend (erasePending s rid2)
                (RelayLabel.sendResp rid2
                  { statusCode := 502, headers := [],
                    body := b64EncodeStr (strBytes msg) }))
              rid (by unfold relaySend; split <;> exact h1)
              (by unfold relaySend; split <;> exact hpendErase rid2)
              (by unfold relaySend; split <;> exact h3)
            refine ⟨g1, g2, g3, ?_⟩
            rw [g4]
            unfold relaySend
            split
            · simp [relayRespCount_append, relayRespCount, hne, erasePending]
            · rfl
          · exact absurd hstep (by simp)
  | tunnelOk rid2 =>
      simp only [relayStep] at hstep
      cases hfp : findPending s rid2 with
      | none => rw [hfp] at hstep; exact absurd hstep (by simp)
      | some p =>
          rw [hfp] at hstep
          dsimp only at hstep
          split at hstep
          · simp only [Option.some.injEq] at hstep
            subst hstep
            have hne := hfind rid2 p hfp
            have hprid : p.rid = rid2 := by
              have := List.find?_some hfp
              simpa using this
            refine ⟨?_, ?_, ?_, ?_⟩
            · unfold relaySend
              split <;> exact h1
            · unfold relaySend
              split <;>
                exact hpendSet { p with okSent := true } h2 (by simp [hprid, hne])
            · unfold relaySend
              split <;> exact h3
            · unfold relaySend
              split
              · simp [setPending, relayRespCount_append, relayRespCount, hne]
              · rfl
          · exact absurd hstep (by simp)
  | tunnelErr rid2 =>
      simp only [relayStep] at hstep
      cases hfp : findPending s rid2 with
      | none => rw [hfp] at hstep; exact absurd hstep (by simp)
      | some p =>
          rw [hfp] at hstep
          dsimp only at hstep
          split at hstep
          · simp only [Option.some.injEq] at hstep
            subst hstep
            have hne := hfind rid2 p hfp
            have hprid : p.rid = rid2 := by
              have := List.find?_some hfp
              simpa using this
            obtain ⟨g1, g2, g3, g4⟩ := cleanup_frozen
              (relaySend (setPending s { p with failSent := true })
                (RelayLabel.sendRaw rid2 failMsg)) rid
              (by unfold relaySend; split <;> exact h1)
              (by unfold relaySend
                  split <;>
                    exact hpendSet { p with failSent := true } h2
                      (by simp [hprid, hne]))
              (by unfold relaySend; split <;> exact h3)
            refine ⟨g1, g2, g3, ?_⟩
            rw [g4]
            unfold relaySend
            split
            · simp [setPending, relayRespCount_append, relayRespCount, hne]
            · rfl
          · exact absurd hstep (by simp)
  | tunnelClosed rid2 =>
      simp only [relayStep] at hstep
      cases hfp : findPending s rid2 with
      | none => rw [hfp] at hstep; exact absurd hstep (by simp)
      | some p =>
          rw [hfp] at hstep
          dsimp only at hstep
          split at hstep
          · simp only [Option.some.injEq] at hstep
            subst hstep
            obtain ⟨g1, g2, g3, g4⟩ := cleanup_frozen (erasePending s rid2) rid
              h1 (hpendErase rid2) h3
            exact ⟨g1, g2, g3, by rw [g4]; rfl⟩
          · exact absurd hstep (by simp)
  | connClose =>
      simp only [relayStep] at hstep
      split at hstep
      · simp only [Option.some.injEq] at hstep
        subst hstep
        exact ⟨by simp, h2, h3, rfl⟩
      · exact absurd hstep (by simp)

theorem relayRun_frozen {s s2 : RelayState} {evs : List RelayEvent} (rid : Nat)
    (hrun : relayRun s evs = some s2)
    (h1 : rid ∉ s.rq.map Prod.fst) (h2 : rid ∉ s.pending.map RelayPending.rid)
    (h3 : rid < s.nextRid) :
    relayRespCount rid s2.log = relayRespCount rid s.log := by
  induction evs generalizing s with
  | nil =>
      simp only [relayRun, Option.some.injEq] at hrun
      subst hrun
      rfl
  | cons ev evs ih =>
      simp only [relayRun] at hrun
      cases hst : relayStep s ev with
      | none => rw [hst] at hrun; exact absurd hrun (by simp)
      | some s1 =>
          rw [hst] at hrun
          obtain ⟨g1, g2, g3, g4⟩ := relayStep_frozen rid hst h1 h2 h3
          rw [ih hrun g1 g2 g3, g4]

/-- Claim C10 counterexample: with an outbound call in flight, the relay
connection closes, a new connection is accepted and the stale call then
completes; sendFramedMessage reads the new socket and ships a type-1 frame
for an envelope that was still in the queue at close time, refuting the
claim as stated. -/
theorem C10_discard_on_close_cex :
    relayDiscardOk c10CexSetup c10CexCont 0 = false := by decide

/-- Claim C10 (amended): closing the relay connection atomically nulls the
socket, clears the processing flag and empties the request queue; and every
queued envelope whose processing had not begun (no pending outbound call)
never receives a type-1 frame in any continuation of the run. A response for
the in-flight head may still be emitted onto a later connection when its
outbound call completes. -/
theorem C10_discard_on_close_amended (evs cont : List RelayEvent)
    (s s1 s2 : RelayState) (rid : Nat)
    (hrun : relayRun initRelay evs = some s)
    (hin : rid ∈ s.rq.map Prod.fst)
    (hnp : rid ∉ s.pending.map RelayPending.rid)
    (hclose : relayStep s RelayEvent.connClose = some s1)
    (hcont : relayRun s1 cont = some s2) :
    s1.sock = false ∧ s1.processing = false ∧ s1.rq = [] ∧
    relayRespCount rid s2.log = relayRespCount rid s1.log := by
  have hs1 : s1 = { s with sock := false, processing := false, rq := [] } := by
    simp only [relayStep] at hclose
    split at hclose
    · simp only [Option.some.injEq] at hclose
      exact hclose.symm
    · exact absurd hclose (by simp)
  subst hs1
  refine ⟨rfl, rfl, rfl, ?_⟩
  have hlt : rid < s.nextRid := by
    have hidbound : ∀ t t2 : RelayState, ∀ ev : RelayEvent,
        relayStep t ev = some t2 →
        (∀ r ∈ t.rq.map Prod.fst, r < t.nextRid) →
        ∀ r ∈ t2.rq.map Prod.fst, r < t2.nextRid := by
      intro t t2 ev hst hb
      have hfuel : ∀ fuel : Nat, ∀ u : RelayState,
          (∀ r ∈ u.rq.map Prod.fst, r < u.nextRid) →
          ∀ r ∈ (handleRequestQueueFuel fuel u).rq.map Prod.fst,
            r < (handleRequestQueueFuel fuel u).nextRid := by
        intro fuel
        induction fuel with
        | zero => intro u hu; exact hu
        | succ fuel ih =>
            intro u hu
            unfold handleRequestQueueFuel
            split
            · exact hu
            split
            · exact hu
            next rid2 hhead =>
              exact ih _ (fun r hr =>
                hu r (List.map_subset _ (List.tail_subset u.rq) hr))
            next rid2 env hhead =>
              split <;> exact hu
      cases ev with
      | acceptConn =>
          simp only [relayStep] at hst
          split at hst <;> simp only [Option.some.injEq] at hst <;> subst hst <;>
            exact hb
      | recvFrame p =>
          simp only [relayStep] at hst
          split at hst
          · simp only [Option.some.injEq] at hst
            subst hst
            unfold handleRequestQueue
            apply hfuel
            intro r hr
            simp only [List.map_append, List.mem_append] at hr
            rcases hr with hr | hr
            · exact Nat.lt_succ_of_lt (hb r hr)
            · simp at hr
              subst hr
              exact Nat.lt_succ_self _
          · exact absurd hst (by simp)
      | httpDone rid2 st hs body =>
          simp only [relayStep] at hst
          cases hfp : findPending t rid2 with
          | none => rw [hfp] at hst; exact absurd hst (by simp)
          | some p =>
              rw [hfp] at hst
              dsimp only at hst
              split at hst
              · simp only [Option.some.injEq] at hst
                subst hst
                unfold cleanupRequest handleRequestQueue
                apply hfuel
                intro r hr
                have : r ∈ t.rq.map Prod.fst := by
                  unfold relaySend at hr
                  split at hr <;>
                    exact List.map_subset _ (List.tail_subset _) hr
                have h2 := hb r this
                unfold relaySend
                split <;> exact h2
              · exact absurd hst (by simp)
      | httpFail rid2 msg =>
          simp only [relayStep] at hst
          cases hfp : findPending t rid2 with
          | none => rw [hfp] at hst; exact absurd hst (by simp)
          | some p =>
              rw [hfp] at hst
              dsimp only at hst
              split at hst
              · simp only [Option.some.injEq] at hst
                subst hst
                unfold cleanupRequest handleRequestQueue
                apply hfuel
                intro r hr
                have : r ∈ t.rq.map Prod.fst := by
                  unfold relaySend at hr
                  split at hr <;>
                    exact List.map_subset _ (List.tail_subset _) hr
                have h2 := hb r this
                unfold relaySend
                split <;> exact h2
              · exact absurd hst (by simp)
      | tunnelOk rid2 =>
          simp only [relayStep] at hst
          cases hfp : findPending t rid2 with
          | none => rw [hfp] at hst; exact absurd hst (by simp)
          | some p =>
              rw [hfp] at hst
              dsimp only at hst
              split at hst
              · simp only [Option.some.injEq] at hst
                subst hst
                intro r hr
                have : r ∈ t.rq.map Prod.fst := by
                  unfold relaySend at hr
                  split at hr <;> simpa [setPending] using hr
                have h2 := hb r this
                unfold relaySend
                split <;> exact h2
              · exact absurd hst (by simp)
      | tunnelErr rid2 =>
          simp only [relayStep] at hst
          cases hfp : findPending t rid2 with
          | none => rw [hfp] at hst; exact absurd hst (by simp)
          | some p =>
              rw [hfp] at hst
              dsimp only at hst
              split at hst
              · simp only [Option.some.injEq] at hst
                subst hst
                unfold cleanupRequest handleRequestQueue
                apply hfuel
                intro r hr
                have : r ∈ t.rq.map Prod.fst := by
                  unfold relaySend at hr
                  split at hr <;>
                    (simp only [setPending] at hr
                     exact List.map_subset _ (List.tail_subset _) hr)
                have h2 := hb r this
                unfold relaySend
                split <;> simp [setPending] <;> exact h2
              · exact absurd hst (by simp)
      | tunnelClosed rid2 =>
          simp only [relayStep] at hst
          cases hfp : findPending t rid2 with
          | none => rw [hfp] at hst; exact absurd hst (by simp)
          | some p =>
              rw [hfp] at hst
              dsimp only at hst
              split at hst
              · simp only [Option.some.injEq] at hst
                subst hst
                unfold cleanupRequest handleRequestQueue
                apply hfuel
                intro r hr
                simp only [erasePending] at hr
                exact hb r (List.map_subset _ (List.tail_subset _) hr)
              · exact absurd hst (by simp)
      | connClose =>
          simp only [relayStep] at hst
          split at hst
          · simp only [Option.some.injEq] at hst
            subst hst
            intro r hr
            simp at hr
          · exact absurd hst (by simp)
    have hrunbound : ∀ t t2 : RelayState, ∀ l : List RelayEvent,
        relayRun t l = some t2 →
        (∀ r ∈ t.rq.map Prod.fst, r < t.nextRid) →
        ∀ r ∈ t2.rq.map Prod.fst, r < t2.nextRid := by
      intro t t2 l
      induction l generalizing t with
      | nil =>
          intro hr hb
          simp only [relayRun, Option.some.injEq] at hr
          subst hr
          exact hb
      | cons ev l ih =>
          intro hr hb
          simp only [relayRun] at hr
          cases hst : relayStep t ev with
          | none => rw [hst] at hr; exact absurd hr (by simp)
          | some t1 =>
              rw [hst] at hr
              exact ih t1 hr (hidbound t t1 ev hst hb)
    exact hrunbound initRelay s evs hrun (by simp [initRelay]) rid hin
  exact relayRun_frozen rid hcont (by simp) hnp hlt

theorem C10_discard_on_close_amended_witness :
    relayRun initRelay c10AmSetup = some c10AmState ∧
    1 ∈ c10AmState.rq.map Prod.fst ∧
    1 ∉ c10AmState.pending.map RelayPending.rid ∧
    relayStep c10AmState RelayEvent.connClose = some c10AmClosed ∧
    relayRun c10AmClosed c10CexCont = some c10AmFinal ∧
    (c10AmClosed.sock = false ∧ c10AmClosed.processing = false ∧
     c10AmClosed.rq = [] ∧
     relayRespCount 1 c10AmFinal.log = relayRespCount 1 c10AmClosed.log) :=
  ⟨by decide, by decide, by decide, by decide, by decide,
   C10_discard_on_close_amended c10AmSetup c10CexCont c10AmState c10AmClosed
     c10AmFinal 1 (by decide) (by decide) (by decide) (by decide) (by decide)⟩

theorem scanInflight_append (st : Option Nat) (xs ys : List ShipLabel) :
    scanInflight st (xs ++ ys) =
      (scanInflight st xs).bind (fun t => scanInflight t ys) := by
  induction xs generalizing st with
  | nil => rfl
  | cons l ls ih =>
      cases l with
      | sendFrame e env =>
          cases st with
          | none => simp [scanInflight, ih]
          | some e2 => simp [scanInflight]
      | clientAnswer e a b c => simp [scanInflight, ih]
      | clientAnswerDup e => simp [scanInflight, ih]
      | directConnect e h p => simp [scanInflight, ih]
      | rawWrite e l => simp [scanInflight, ih]
      | teardown e => simp [scanInflight, ih]

theorem getElem?_singleton {α : Type} {a b : α} {i : Nat}
    (h : ([b] : List α)[i]? = some a) : a = b ∧ i = 0 := by
  cases i with
  | zero =>
      have h2 := h
      simp at h2
      exact ⟨h2.symm, rfl⟩
  | succ n => simp at h

/-- The loop invocation prefix preserves the single-in-flight invariant. -/
theorem InvC1_invoke {s : ShipState} (h : InvC1 s) : InvC1 (processingLoopInvoke s) := by
  obtain ⟨⟨st, hscan, hdisj⟩, hF, hZ, hW, hC⟩ := h
  unfold processingLoopInvoke
  split
  · exact ⟨⟨st, hscan, hdisj⟩, hF, hZ, hW, hC⟩
  next hp =>
  have hb1 : s.tasks = [] ∧ s.processing = false ∧ st = none := by
    rcases hdisj with hb | ⟨pc, hpc, hproc, hstev⟩
    · exact hb
    · exact absurd hproc (by simpa using hp)
  obtain ⟨htasks, hproc, hstn⟩ := hb1
  subst hstn
  split
  · exact ⟨⟨none, hscan, Or.inl ⟨htasks, hproc, rfl⟩⟩, hF, hZ, hW, hC⟩
  next eid hhead =>
  have hmem : eid ∈ s.queue := List.mem_of_mem_head? (by simp [hhead])
  obtain ⟨d2, hd2, hd2c⟩ := hC eid hmem
  split
  · exact ⟨⟨none, hscan, Or.inl ⟨htasks, hproc, rfl⟩⟩, hF, hZ, hW, hC⟩
  next d hent =>
  have hdd : d = d2 := by
    rw [hent] at hd2
    exact (Option.some.injEq _ _).mp hd2
  subst hdd
  split
  next hcon => exact absurd hd2c (by simp [hcon])
  next =>
  split
  next hconn =>
    refine ⟨⟨none, hscan, Or.inr ⟨TaskPc.waitRetry eid, ?_, rfl, rfl⟩⟩, ?_, hZ,
      ?_, hC⟩
    · simp [htasks]
    · intro e he
      rcases hF e he with he2 | he2
      · exact Or.inl he2
      · rw [htasks] at he2
        simp at he2
    · intro pc hpc hw
      simp only [List.mem_append, List.mem_singleton, htasks] at hpc
      simp at hpc
      subst hpc
      simp [isWaitRetry] at hw
  next hconn =>
  have hconn2 : s.connected = true := by
    cases hc : s.connected
    · exact absurd hc (by simpa using hconn)
    · rfl
  dsimp only
  refine ⟨⟨none, ?_, Or.inr ⟨registerPc s eid, ?_, rfl, ?_⟩⟩, ?_, ?_, ?_, ?_⟩
  · rw [markFlowing_log]
    exact hscan
  · rw [markFlowing_tasks, htasks]
    rfl
  · unfold registerPc
    split <;> rfl
  · intro e he
    simp only [markFlowing_tasks, htasks] at he ⊢
    rw [markFlowing_mem_flowing] at he
    rcases he with he | ⟨rfl, hn⟩
    · rcases hF e he with he2 | he2
      · rw [markFlowing_endFired]
        exact Or.inl he2
      · rw [htasks] at he2
        simp at he2
    · right
      unfold registerPc
      rw [if_neg hn]
      simp
  · rw [markFlowing_tunnels]
    exact hZ
  · intro pc hpc hw
    rw [markFlowing_connected]
    exact hconn2
  · intro e he
    rw [markFlowing_queue] at he
    obtain ⟨d3, hd3, hd3c⟩ := hC e he
    rw [markFlowing_entries]
    exact ⟨d3, hd3, hd3c⟩

/-- The terminal part of an iteration, entered with the single pending
invocation already removed, preserves the single-in-flight invariant when
the written answer clears the scanned in-flight slot. -/
theorem InvC1_completion {s : ShipState} {i eid status : Nat}
    {hs : List (String × String)} {b : List Nat} {pc : TaskPc}
    (h : InvC1 s) (hpci : s.tasks[i]? = some pc)
    (hclear : pcExpected pc = none ∨ pcExpected pc = some eid)
    (hnae : ∀ e, pc ≠ TaskPc.awaitEnd e) :
    InvC1 (completeIteration (removeTask s i) eid status hs b) := by
  obtain ⟨⟨st, hscan, hdisj⟩, hF, hZ, hW, hC⟩ := h
  have hb2 : ∃ pc2, s.tasks = [pc2] ∧ s.processing = true ∧ st = pcExpected pc2 := by
    rcases hdisj with ⟨hb, _, _⟩ | hb
    · rw [hb] at hpci
      simp at hpci
    · exact hb
  obtain ⟨pc2, htasks, hproc, hstv⟩ := hb2
  have hp2 : pc = pc2 ∧ i = 0 := by
    rw [htasks] at hpci
    exact getElem?_singleton hpci
  obtain ⟨hpe, hie⟩ := hp2
  subst hpe
  subst hie
  have hrt : (removeTask s 0).tasks = [] := by
    show s.tasks.eraseIdx 0 = []
    rw [htasks]
    rfl
  apply InvC1_invoke
  constructor
  · refine ⟨none, ?_, ?_⟩
    · subst hstv
      split <;>
        (simp only [removeTask]
         rw [scanInflight_append, hscan]
         rcases hclear with hc | hc <;>
           simp [scanInflight, clearIfMatch, hc])
    · left
      refine ⟨?_, rfl, rfl⟩
      split <;> simpa [removeTask] using hrt
  constructor
  · intro e he
    have he2 : e ∈ s.flowing := by
      split at he <;> simpa [removeTask] using he
    rcases hF e he2 with he3 | he3
    · left
      split <;> simpa [removeTask] using he3
    · rw [htasks] at he3
      simp at he3
      exact absurd he3.symm (hnae e)
  constructor
  · have : s.tunnels = s.tunnels := rfl
    split <;> simpa [removeTask] using hZ
  constructor
  · intro pc3 hpc3 hw
    exfalso
    split at hpc3 <;>
      simp [removeTask, htasks, List.eraseIdx] at hpc3
  · intro e he
    have he2 : e ∈ s.queue := by
      have : e ∈ s.queue.tail := by
        split at he <;> simpa [removeTask] using he
      exact List.tail_subset _ this
    obtain ⟨d3, hd3, hd3c⟩ := hC e he2
    refine ⟨d3, ?_, hd3c⟩
    split <;> simpa [removeTask] using hd3

theorem markFlowing_processing (s : ShipState) (eid : Nat) :
    (markFlowing s eid).processing = s.processing := by
  unfold markFlowing
  split
  · rfl
  split <;> rfl

/-- Every enabled step that is not a connection loss and enqueues only plain
requests preserves the single-in-flight invariant. -/
theorem InvC1_step {f : ReqEnvelope → RespEnvelope} {s s2 : ShipState}
    {ev : ShipEvent} (h : InvC1 s) (hstep : shipStep f s ev = some s2)
    (hev1 : isConnCloseEv ev = false) (hev2 : isConnectEnqueueEv ev = false) :
    InvC1 s2 := by
  obtain ⟨⟨st, hscan, hdisj⟩, hF, hZ, hW, hC⟩ := h
  cases ev with
  | enqueue d =>
      have hdc : d.isConnect = false := by simpa [isConnectEnqueueEv] using hev2
      simp only [shipStep, Option.some.injEq] at hstep
      subst hstep
      apply InvC1_invoke
      refine ⟨⟨st, hscan, hdisj⟩, hF, hZ, hW, ?_⟩
      intro e he
      simp only [List.mem_append, List.mem_singleton] at he
      rcases he with he | he
      · obtain ⟨d2, hd2, hd2c⟩ := hC e he
        exact ⟨d2, getElem?_append_some hd2, hd2c⟩
      · subst he
        exact ⟨d, List.getElem?_concat_length s.entries d, hdc⟩
  | connectDone =>
      simp only [shipStep] at hstep
      split at hstep
      · exact absurd hstep (by simp)
      · simp only [Option.some.injEq] at hstep
        subst hstep
        apply InvC1_invoke
        exact ⟨⟨st, hscan, hdisj⟩, hF, hZ, fun pc hpc hw => rfl, hC⟩
  | connClose => simp [isConnCloseEv] at hev1
  | fireEnd eid =>
      simp only [shipStep] at hstep
      split at hstep
      case isTrue hg =>
        obtain ⟨hfl, hef⟩ := hg
        cases hent : s.entries[eid]? with
        | none => rw [hent] at hstep; exact absurd hstep (by simp)
        | some d =>
            rw [hent] at hstep
            simp only [Option.some.injEq] at hstep
            subst hstep
            have hae : TaskPc.awaitEnd eid ∈ s.tasks := by
              rcases hF eid hfl with h1 | h1
              · exact absurd h1 hef
              · exact h1
            have hb2 : ∃ pc2, s.tasks = [pc2] ∧ s.processing = true ∧
                st = pcExpected pc2 := by
              rcases hdisj with ⟨hb, _, _⟩ | hb
              · rw [hb] at hae
                simp at hae
              · exact hb
            obtain ⟨pc2, htasks, hproc, hstv⟩ := hb2
            have hpc2 : pc2 = TaskPc.awaitEnd eid := by
              rw [htasks] at hae
              exact (by simpa using hae : TaskPc.awaitEnd eid = pc2).symm
            subst hpc2
            subst hstv
            simp only [pcExpected] at hscan
            have hconn2 : s.connected = true :=
              hW (TaskPc.awaitEnd eid) (by rw [htasks]; simp) rfl
            have hrc : resumeCount s.tasks eid = 1 := by
              rw [htasks]
              simp [resumeCount]
            refine ⟨⟨some eid, ?_, Or.inr ⟨TaskPc.awaitResp eid, ?_, hproc, rfl⟩⟩,
              ?_, hZ, ?_, hC⟩
            · show scanInflight none (s.log ++ _) = _
              rw [scanInflight_append, hscan]
              rw [hrc, hconn2]
              simp [scanInflight]
            · show s.tasks.map _ = _
              rw [htasks]
              simp
            · intro e he
              left
              simp only [List.mem_append, List.mem_singleton]
              rcases hF e he with h1 | h1
              · exact Or.inl h1
              · rw [htasks] at h1
                simp at h1
                exact Or.inr h1
            · intro pc hpc hw
              show s.connected = true
              exact hconn2
      case isFalse => exact absurd hstep (by simp)
  | retryDone i =>
      simp only [shipStep] at hstep
      cases htask : s.tasks[i]? with
      | none => rw [htask] at hstep; exact absurd hstep (by simp)
      | some pc0 =>
          rw [htask] at hstep
          cases pc0 with
          | waitRetry eid =>
              have hb2 : ∃ pc2, s.tasks = [pc2] ∧ s.processing = true ∧
                  st = pcExpected pc2 := by
                rcases hdisj with ⟨hb, _, _⟩ | hb
                · rw [hb] at htask
                  simp at htask
                · exact hb
              obtain ⟨pc2, htasks, hproc, hstv⟩ := hb2
              have hp2 : TaskPc.waitRetry eid = pc2 ∧ i = 0 := by
                rw [htasks] at htask
                exact getElem?_singleton htask
              obtain ⟨hpe, hie⟩ := hp2
              subst hie
              rw [← hpe] at htasks hstv
              simp only [pcExpected] at hstv
              subst hstv
              dsimp only at hstep
              split at hstep
              next hconn =>
                simp only [Option.some.injEq] at hstep
                subst hstep
                refine ⟨⟨none, ?_, Or.inr ⟨registerPc s eid, ?_, ?_, ?_⟩⟩,
                  ?_, ?_, ?_, ?_⟩
                · show scanInflight none (markFlowing s eid).log = _
                  rw [markFlowing_log]
                  exact hscan
                · show s.tasks.set 0 _ = _
                  rw [htasks]
                  rfl
                · show (markFlowing s eid).processing = true
                  rw [markFlowing_processing]
                  exact hproc
                · unfold registerPc
                  split <;> rfl
                · intro e he
                  show _ ∨ _ ∈ s.tasks.set 0 (registerPc s eid)
                  rw [htasks]
                  rw [show ([TaskPc.waitRetry eid].set 0 (registerPc s eid)) =
                    [registerPc s eid] from rfl]
                  have he2 : e ∈ (markFlowing s eid).flowing := he
                  rw [markFlowing_mem_flowing] at he2
                  rw [markFlowing_endFired]
                  rcases he2 with he2 | ⟨rfl, hn⟩
                  · rcases hF e he2 with h1 | h1
                    · exact Or.inl h1
                    · rw [htasks] at h1
                      simp at h1
                  · right
                    unfold registerPc
                    rw [if_neg hn]
                    simp
                · show (markFlowing s eid).tunnels = []
                  rw [markFlowing_tunnels]
                  exact hZ
                · intro pc hpc hw
                  show (markFlowing s eid).connected = true
                  rw [markFlowing_connected]
                  exact hconn
                · intro e he
                  have he2 : e ∈ s.queue := by
                    rw [show ((markFlowing s eid)).queue = s.queue from
                      markFlowing_queue s eid] at he
                    exact he
                  obtain ⟨d3, hd3, hd3c⟩ := hC e he2
                  refine ⟨d3, ?_, hd3c⟩
                  rw [show ((markFlowing s eid)).entries = s.entries from
                    markFlowing_entries s eid]
                  exact hd3
              next hconn =>
                simp only [Option.some.injEq] at hstep
                subst hstep
                exact @InvC1_completion s 0 eid 502 []
                  (strBytes badGatewayUnavailableMsg) (TaskPc.waitRetry eid)
                  ⟨⟨pcExpected (TaskPc.waitRetry eid),
                    by simpa [pcExpected] using hscan,
                    Or.inr ⟨TaskPc.waitRetry eid, htasks, hproc, rfl⟩⟩,
                    hF, hZ, hW, hC⟩
                  (by rw [htasks]; rfl)
                  (Or.inl rfl) (fun e => by simp)
          | awaitEnd eid => exact absurd hstep (by simp)
          | stuckEnd eid => exact absurd hstep (by simp)
          | awaitResp eid => exact absurd hstep (by simp)
  | respond env =>
      simp only [shipStep] at hstep
      split at hstep
      · simp only [Option.some.injEq] at hstep
        subst hstep
        obtain ⟨he2, hq, hf, hl, hef2, ha, htu, hta, hp2, hc2⟩ :=
          deliverResponse_fields s env
        refine ⟨⟨st, by rw [hl]; exact hscan, ?_⟩, ?_, by rw [htu]; exact hZ,
          ?_, ?_⟩
        · rw [hta, hp2]
          exact hdisj
        · intro e he
          rw [hf] at he
          rw [hef2, hta]
          exact hF e he
        · intro pc hpc hw
          rw [hta] at hpc
          rw [hc2]
          exact hW pc hpc hw
        · intro e he
          rw [hq] at he
          rw [he2]
          exact hC e he
      · exact absurd hstep (by simp)
  | relayRespond =>
      simp only [shipStep] at hstep
      split at hstep
      · cases hrq : s.relayQ with
        | nil => rw [hrq] at hstep; exact absurd hstep (by simp)
        | cons env rest =>
            rw [hrq] at hstep
            simp only [Option.some.injEq] at hstep
            subst hstep
            obtain ⟨he2, hq, hf, hl, hef2, ha, htu, hta, hp2, hc2⟩ :=
              deliverResponse_fields { s with relayQ := rest } (f env)
            refine ⟨⟨st, by rw [hl]; exact hscan, ?_⟩, ?_,
              by rw [htu]; exact hZ, ?_, ?_⟩
            · rw [hta, hp2]
              exact hdisj
            · intro e he
              rw [hf] at he
              rw [hef2, hta]
              exact hF e he
            · intro pc hpc hw
              rw [hta] at hpc
              rw [hc2]
              exact hW pc hpc hw
            · intro e he
              rw [hq] at he
              rw [he2]
              exact hC e he
      · exact absurd hstep (by simp)
  | resumeResp i =>
      simp only [shipStep] at hstep
      cases htask : s.tasks[i]? with
      | none => rw [htask] at hstep; exact absurd hstep (by simp)
      | some pc0 =>
          rw [htask] at hstep
          cases pc0 with
          | awaitResp eid =>
              dsimp only at hstep
              cases hrv : rvLookup s.resolvedVal eid with
              | none => rw [hrv] at hstep; exact absurd hstep (by simp)
              | some env =>
                  rw [hrv] at hstep
                  simp only [Option.some.injEq] at hstep
                  subst hstep
                  exact InvC1_completion
                    ⟨⟨st, hscan, hdisj⟩, hF, hZ, hW, hC⟩ htask
                    (Or.inr rfl) (fun e => by simp)
          | waitRetry eid => exact absurd hstep (by simp)
          | awaitEnd eid => exact absurd hstep (by simp)
          | stuckEnd eid => exact absurd hstep (by simp)
  | timeoutFire i =>
      simp only [shipStep] at hstep
      cases htask : s.tasks[i]? with
      | none => rw [htask] at hstep; exact absurd hstep (by simp)
      | some pc0 =>
          rw [htask] at hstep
          cases pc0 with
          | awaitResp eid =>
              dsimp only at hstep
              cases hrv : rvLookup s.resolvedVal eid with
              | some env => rw [hrv] at hstep; exact absurd hstep (by simp)
              | none =>
                  rw [hrv] at hstep
                  simp only [Option.some.injEq] at hstep
                  subst hstep
                  exact InvC1_completion
                    ⟨⟨st, hscan, hdisj⟩, hF, hZ, hW, hC⟩ htask
                    (Or.inr rfl) (fun e => by simp)
          | waitRetry eid => exact absurd hstep (by simp)
          | awaitEnd eid => exact absurd hstep (by simp)
          | stuckEnd eid => exact absurd hstep (by simp)
  | tunnelEstablished eid =>
      simp only [shipStep] at hstep
      rw [show findTunnel s eid = none from by
        unfold findTunnel
        rw [hZ]
        rfl] at hstep
      exact absurd hstep (by simp)
  | tunnelError eid =>
      simp only [shipStep] at hstep
      rw [show findTunnel s eid = none from by
        unfold findTunnel
        rw [hZ]
        rfl] at hstep
      exact absurd hstep (by simp)
  | tunnelClientClose eid =>
      simp only [shipStep] at hstep
      rw [show findTunnel s eid = none from by
        unfold findTunnel
        rw [hZ]
        rfl] at hstep
      exact absurd hstep (by simp)
  | tunnelRemoteClose eid =>
      simp only [shipStep] at hstep
      rw [show findTunnel s eid = none from by
        unfold findTunnel
        rw [hZ]
        rfl] at hstep
      exact absurd hstep (by simp)

theorem InvC1_init : InvC1 initShip := by
  refine ⟨⟨none, rfl, Or.inl ⟨rfl, rfl, rfl⟩⟩, ?_, rfl, ?_, ?_⟩ <;>
    intro x hx <;> simp [initShip] at hx

theorem InvC1_run {f : ReqEnvelope → RespEnvelope} {s s2 : ShipState}
    {evs : List ShipEvent} (h : InvC1 s) (hrun : shipRun f s evs = some s2)
    (hev1 : ∀ ev ∈ evs, isConnCloseEv ev = false)
    (hev2 : ∀ ev ∈ evs, isConnectEnqueueEv ev = false) : InvC1 s2 := by
  induction evs generalizing s with
  | nil =>
      simp only [shipRun, Option.some.injEq] at hrun
      subst hrun
      exact h
  | cons ev evs ih =>
      simp only [shipRun] at hrun
      cases hst : shipStep f s ev with
      | none => rw [hst] at hrun; exact absurd hrun (by simp)
      | some s1 =>
          rw [hst] at hrun
          exact ih
            (InvC1_step h hst (hev1 ev (by simp)) (hev2 ev (by simp)))
            hrun (fun e he => hev1 e (by simp [he]))
            (fun e he => hev2 e (by simp [he]))

/-- Claim C1 counterexample: the managed connection closes while the head
request body is being received, the reconnect handler starts a second
processingLoop invocation for the same head entry, and the end event then
resumes both invocations, each of which sends a type-0 frame: two frames for
the same entry are sent with no response in between, refuting the claim as
stated. -/
theorem C1_single_inflight_cex :
    singleInflightOk sampleRelay initShip c1CexTrace = false := by decide

/-- Claim C1 (amended): in every execution in which the managed connection
never closes and every enqueued request is plain HTTP (non-CONNECT), once a
type-0 frame for a queue entry has been sent, no second type-0 frame is sent
until that entry is answered and its iteration removes the head of the
queue. -/
theorem C1_single_inflight_amended (f : ReqEnvelope → RespEnvelope)
    (evs : List ShipEvent)
    (hev1 : ∀ ev ∈ evs, isConnCloseEv ev = false)
    (hev2 : ∀ ev ∈ evs, isConnectEnqueueEv ev = false) :
    singleInflightOk f initShip evs = true := by
  unfold singleInflightOk
  cases hrun : shipRun f initShip evs with
  | none => rfl
  | some s =>
      obtain ⟨⟨st, hscan, _⟩, _, _, _, _⟩ := InvC1_run InvC1_init hrun hev1 hev2
      simp [hscan]

theorem C1_single_inflight_amended_witness :
    noCloseB c1WitnessTrace = true ∧ noConnectEnqB c1WitnessTrace = true ∧
    singleInflightOk sampleRelay initShip c1WitnessTrace = true :=
  ⟨by decide, by decide,
   C1_single_inflight_amended sampleRelay c1WitnessTrace (by decide) (by decide)⟩

theorem answerLabels_append (xs ys : List ShipLabel) :
    answerLabels (xs ++ ys) = answerLabels xs ++ answerLabels ys := by
  induction xs with
  | nil => rfl
  | cons l ls ih => cases l <;> simp [answerLabels, ih]

theorem getD_append_lt {α : Type} (l l2 : List α) (dflt : α) (k : Nat)
    (h : k < l.length) : (l ++ l2).getD k dflt = l.getD k dflt := by
  rw [List.getD_eq_getElem?_getD, List.getD_eq_getElem?_getD,
    List.getElem?_append, if_pos h]

theorem getD_concat_length {α : Type} (l : List α) (d dflt : α) :
    (l ++ [d]).getD l.length dflt = d := by
  rw [List.getD_eq_getElem?_getD, List.getElem?_concat_length]
  rfl

theorem getD_lt_getElem? {α : Type} [Inhabited α] (l : List α) (k : Nat)
    (h : k < l.length) : l[k]? = some (l.getD k default) := by
  rw [List.getD_eq_getElem?_getD, List.getElem?_eq_getElem h]
  rfl

theorem expectedAnswer_append (f : ReqEnvelope → RespEnvelope)
    (entries : List EntryData) (d : EntryData) (k : Nat)
    (h : k < entries.length) :
    expectedAnswer f (entries ++ [d]) k = expectedAnswer f entries k := by
  unfold expectedAnswer
  rw [getD_append_lt _ _ _ _ h]

theorem answerMap_append (f : ReqEnvelope → RespEnvelope)
    (entries : List EntryData) (d : EntryData) (c : Nat)
    (h : c ≤ entries.length) :
    (List.range c).map (expectedAnswer f (entries ++ [d])) =
      (List.range c).map (expectedAnswer f entries) :=
  List.map_congr_left (fun k hk =>
    expectedAnswer_append f entries d k
      (lt_of_lt_of_le (List.mem_range.mp hk) h))

theorem rvList_append (f : ReqEnvelope → RespEnvelope)
    (entries : List EntryData) (d : EntryData) (k : Nat)
    (h : k ≤ entries.length) :
    rvList f (entries ++ [d]) k = rvList f entries k := by
  unfold rvList
  exact List.map_congr_left (fun j hj => by
    rw [getD_append_lt _ _ _ _ (lt_of_lt_of_le (List.mem_range.mp hj) h)])

theorem rvList_succ (f : ReqEnvelope → RespEnvelope)
    (entries : List EntryData) (k : Nat) :
    rvList f entries (k + 1) =
      rvList f entries k ++
        [(k, f (mkReqEnvelope (entries.getD k default)))] := by
  unfold rvList
  rw [List.range_succ, List.map_append]
  rfl

theorem find_rvList (f : ReqEnvelope → RespEnvelope)
    (entries : List EntryData) (k e : Nat) :
    (rvList f entries k).find? (fun p => p.1 == e) =
      if e < k then some (e, f (mkReqEnvelope (entries.getD e default)))
      else none := by
  induction k with
  | zero => simp [rvList]
  | succ k ih =>
      rw [rvList_succ, List.find?_append, ih]
      by_cases h1 : e < k
      · rw [if_pos h1, if_pos (Nat.lt_succ_of_lt h1)]
        rfl
      · rw [if_neg h1]
        by_cases h2 : e = k
        · subst h2
          rw [if_pos (Nat.lt_succ_self e)]
          simp [List.find?]
        · rw [if_neg (by omega : ¬e < k + 1)]
          simp only [Option.none_or]
          have hb : (k == e) = false :=
            beq_eq_false_iff_ne.mpr (fun h3 => h2 h3.symm)
          simp [List.find?, hb]

theorem rvLookup_rvList (f : ReqEnvelope → RespEnvelope)
    (entries : List EntryData) (k e : Nat) :
    rvLookup (rvList f entries k) e =
      if e < k then some (f (mkReqEnvelope (entries.getD e default)))
      else none := by
  unfold rvLookup
  rw [find_rvList]
  by_cases h : e < k
  · rw [if_pos h, if_pos h]
    rfl
  · rw [if_neg h, if_neg h]
    rfl

theorem range'_snoc (c n : Nat) (h : c ≤ n) :
    List.range' c (n - c) ++ [n] = List.range' c (n + 1 - c) := by
  have h3 := List.range'_append c (n - c) 1 1
  have h4 : c + 1 * (n - c) = n := by omega
  have h5 : 1 + (n - c) = n + 1 - c := by omega
  rw [h4, h5] at h3
  exact h3

theorem invoke_processing {s : ShipState} (hp : s.processing = true) :
    processingLoopInvoke s = s := by
  unfold processingLoopInvoke
  rw [if_pos hp]

theorem invoke_empty {s : ShipState} (hq : s.queue = []) :
    processingLoopInvoke s = s := by
  unfold processingLoopInvoke
  split
  · rfl
  · rw [hq]
    rfl

theorem invoke_register {s : ShipState} {e : Nat} {d : EntryData}
    (hp : s.processing = false) (hh : s.queue.head? = some e)
    (he : s.entries[e]? = some d) (hd : d.isConnect = false)
    (hc : s.connected = true) (hnef : e ∉ s.endFired) (hnfl : e ∉ s.flowing) :
    processingLoopInvoke s =
      { s with processing := true,
               tasks := s.tasks ++ [TaskPc.awaitEnd e],
               flowing := s.flowing ++ [e] } := by
  have hmf : markFlowing s e = { s with flowing := s.flowing ++ [e] } := by
    unfold markFlowing
    rw [if_neg hnef, if_neg hnfl]
  have hrp : registerPc s e = TaskPc.awaitEnd e := by
    unfold registerPc
    rw [if_neg hnef]
  unfold processingLoopInvoke
  rw [if_neg (by simp [hp]), hh]
  dsimp only
  rw [he]
  dsimp only
  rw [if_neg (by simp [hd]), if_neg (by simp [hc]), hmf, hrp]

theorem deliverResponse_resolve {s : ShipState} {h : Nat} {env : RespEnvelope}
    (hh : s.queue.head? = some h) (hrl : rvLookup s.resolvedVal h = none) :
    deliverResponse s env =
      { s with resolvedVal := s.resolvedVal ++ [(h, env)] } := by
  unfold deliverResponse
  rw [hh]
  dsimp only
  rw [hrl]

theorem queue_cons_of_lt {s : ShipState} {c : Nat}
    (hq : s.queue = List.range' c (s.entries.length - c))
    (hlt : c < s.entries.length) :
    s.queue = c :: List.range' (c + 1) (s.entries.length - c - 1) := by
  rw [hq,
    show s.entries.length - c = (s.entries.length - c - 1) + 1 from by omega]
  exact List.range'_succ _ _ 1

theorem completeIteration_answer {s : ShipState} {eid status : Nat}
    {hs : List (String × String)} {b : List Nat}
    (hna : eid ∉ s.answered) :
    completeIteration s eid status hs b =
      processingLoopInvoke
        { s with answered := s.answered ++ [eid],
                 log := s.log ++ [ShipLabel.clientAnswer eid status hs b],
                 queue := s.queue.tail, processing := false } := by
  unfold completeIteration
  dsimp only
  rw [if_neg hna]

theorem complete_invoke_empty {s : ShipState} {eid status : Nat}
    {hs : List (String × String)} {b : List Nat}
    (hna : eid ∉ s.answered) (hqt : s.queue.tail = []) :
    completeIteration s eid status hs b =
      { s with answered := s.answered ++ [eid],
               log := s.log ++ [ShipLabel.clientAnswer eid status hs b],
               queue := s.queue.tail, processing := false } := by
  rw [completeIteration_answer hna]
  exact invoke_empty hqt

theorem complete_invoke_register {s : ShipState} {eid status e2 : Nat}
    {hs : List (String × String)} {b : List Nat} {d : EntryData}
    (hna : eid ∉ s.answered) (hh : s.queue.tail.head? = some e2)
    (he : s.entries[e2]? = some d) (hd : d.isConnect = false)
    (hc : s.connected = true) (hnef : e2 ∉ s.endFired)
    (hnfl : e2 ∉ s.flowing) :
    completeIteration s eid status hs b =
      { s with answered := s.answered ++ [eid],
               log := s.log ++ [ShipLabel.clientAnswer eid status hs b],
               queue := s.queue.tail, processing := true,
               tasks := s.tasks ++ [TaskPc.awaitEnd e2],
               flowing := s.flowing ++ [e2] } := by
  rw [completeIteration_answer hna]
  exact invoke_register rfl hh he hd hc hnef hnfl

theorem shapeC2_tasks {f : ReqEnvelope → RespEnvelope} {s : ShipState}
    {c : Nat} {ph : C2Phase} (h : ShapeC2 f s c ph) :
    s.tasks = [] ∨ s.tasks = [TaskPc.awaitEnd c] ∨
      s.tasks = [TaskPc.awaitResp c] := by
  obtain ⟨-, -, -, -, -, -, -, -, -, hm⟩ := h
  cases ph with
  | idle => exact Or.inl hm.2.1
  | reg => exact Or.inr (Or.inl hm.2.1)
  | fired => exact Or.inr (Or.inr hm.2.1)
  | res => exact Or.inr (Or.inr hm.2.1)

/-- Every enabled step of a run with a permanently live connection, plain
requests only, no raw inbound frames and no timer expiries preserves the
phase shape. -/
theorem shapeC2_step {f : ReqEnvelope → RespEnvelope} {s s2 : ShipState}
    {ev : ShipEvent} (h : InvShapeC2 f s) (hstep : shipStep f s ev = some s2)
    (hev1 : isConnCloseEv ev = false) (hev2 : isConnectEnqueueEv ev = false)
    (hev3 : isRawRespondEv ev = false) (hev4 : isTimeoutEv ev = false) :
    InvShapeC2 f s2 := by
  obtain ⟨c, ph, hsh⟩ := h
  have htch := shapeC2_tasks hsh
  obtain ⟨hconn, htun, hplain, hq, hansd, hlab, hflow, hend, hrv, hm⟩ := hsh
  cases ev with
  | enqueue d =>
      have hdc : d.isConnect = false := by simpa [isConnectEnqueueEv] using hev2
      simp only [shipStep, Option.some.injEq] at hstep
      subst hstep
      have hplain2 : ∀ e, e < (s.entries ++ [d]).length →
          ((s.entries ++ [d]).getD e default).isConnect = false := by
        intro e he
        rw [List.length_append, List.length_singleton] at he
        by_cases h1 : e < s.entries.length
        · rw [getD_append_lt _ _ _ _ h1]
          exact hplain e h1
        · have h2 : e = s.entries.length := by omega
          subst h2
          rw [getD_concat_length]
          exact hdc
      cases ph with
      | idle =>
          obtain ⟨hceq, htasks, hproc, hrq2⟩ := hm
          have hq0 : s.queue = [] := by
            rw [hq, ← hceq, Nat.sub_self]
            rfl
          have hh2 : (s.queue ++ [s.entries.length]).head? =
              some s.entries.length := by
            rw [hq0]
            rfl
          have hnef2 : s.entries.length ∉ s.endFired := by
            rw [hend]
            simp [phEnd, List.mem_range]
            omega
          have hnfl2 : s.entries.length ∉ s.flowing := by
            rw [hflow]
            simp [phFlow, List.mem_range]
            omega
          rw [invoke_register
            (show ({ s with entries := s.entries ++ [d],
                             queue := s.queue ++ [s.entries.length] } :
                ShipState).processing = false from hproc)
            hh2 (List.getElem?_concat_length s.entries d) hdc hconn hnef2
            hnfl2]
          refine ⟨c, C2Phase.reg, hconn, htun, hplain2, ?_, hansd, ?_, ?_,
            hend, ?_, ?_, ?_, rfl, hrq2⟩
          · show s.queue ++ [s.entries.length] =
              List.range' c ((s.entries ++ [d]).length - c)
            rw [hq0]
            simp only [List.length_append, List.length_singleton]
            rw [← hceq, Nat.add_sub_cancel_left]
            rfl
          · show answerLabels s.log =
              (List.range c).map (expectedAnswer f (s.entries ++ [d]))
            rw [answerMap_append f s.entries d c (le_of_eq hceq)]
            exact hlab
          · show s.flowing ++ [s.entries.length] = List.range (c + 1)
            rw [hflow, ← hceq]
            exact (List.range_succ c).symm
          · show s.resolvedVal = rvList f (s.entries ++ [d]) c
            rw [rvList_append f s.entries d c (le_of_eq hceq)]
            exact hrv
          · show c < (s.entries ++ [d]).length
            simp only [List.length_append, List.length_singleton]
            omega
          · show s.tasks ++ [TaskPc.awaitEnd s.entries.length] =
              [TaskPc.awaitEnd c]
            rw [htasks, ← hceq]
            rfl
      | reg =>
          obtain ⟨hlt, htasks, hproc, hrq2⟩ := hm
          rw [invoke_processing
            (show ({ s with entries := s.entries ++ [d],
                             queue := s.queue ++ [s.entries.length] } :
                ShipState).processing = true from hproc)]
          refine ⟨c, C2Phase.reg, hconn, htun, hplain2, ?_, hansd, ?_, hflow,
            hend, ?_, ?_, htasks, hproc, hrq2⟩
          · show s.queue ++ [s.entries.length] =
              List.range' c ((s.entries ++ [d]).length - c)
            rw [hq]
            simp only [List.length_append, List.length_singleton]
            exact range'_snoc c s.entries.length (le_of_lt hlt)
          · show answerLabels s.log =
              (List.range c).map (expectedAnswer f (s.entries ++ [d]))
            rw [answerMap_append f s.entries d c (le_of_lt hlt)]
            exact hlab
          · show s.resolvedVal = rvList f (s.entries ++ [d]) c
            rw [rvList_append f s.entries d c (le_of_lt hlt)]
            exact hrv
          · show c < (s.entries ++ [d]).length
            simp only [List.length_append, List.length_singleton]
            omega
      | fired =>
          obtain ⟨hlt, htasks, hproc, hrq2⟩ := hm
          rw [invoke_processing
            (show ({ s with entries := s.entries ++ [d],
                             queue := s.queue ++ [s.entries.length] } :
                ShipState).processing = true from hproc)]
          refine ⟨c, C2Phase.fired, hconn, htun, hplain2, ?_, hansd, ?_, hflow,
            hend, ?_, ?_, htasks, hproc, ?_⟩
          · show s.queue ++ [s.entries.length] =
              List.range' c ((s.entries ++ [d]).length - c)
            rw [hq]
            simp only [List.length_append, List.length_singleton]
            exact range'_snoc c s.entries.length (le_of_lt hlt)
          · show answerLabels s.log =
              (List.range c).map (expectedAnswer f (s.entries ++ [d]))
            rw [answerMap_append f s.entries d c (le_of_lt hlt)]
            exact hlab
          · show s.resolvedVal = rvList f (s.entries ++ [d]) c
            rw [rvList_append f s.entries d c (le_of_lt hlt)]
            exact hrv
          · show c < (s.entries ++ [d]).length
            simp only [List.length_append, List.length_singleton]
            omega
          · show s.relayQ =
              [mkReqEnvelope ((s.entries ++ [d]).getD c default)]
            rw [getD_append_lt _ _ _ _ hlt]
            exact hrq2
      | res =>
          obtain ⟨hlt, htasks, hproc, hrq2⟩ := hm
          rw [invoke_processing
            (show ({ s with entries := s.entries ++ [d],
                             queue := s.queue ++ [s.entries.length] } :
                ShipState).processing = true from hproc)]
          refine ⟨c, C2Phase.res, hconn, htun, hplain2, ?_, hansd, ?_, hflow,
            hend, ?_, ?_, htasks, hproc, hrq2⟩
          · show s.queue ++ [s.entries.length] =
              List.range' c ((s.entries ++ [d]).length - c)
            rw [hq]
            simp only [List.length_append, List.length_singleton]
            exact range'_snoc c s.entries.length (le_of_lt hlt)
          · show answerLabels s.log =
              (List.range c).map (expectedAnswer f (s.entries ++ [d]))
            rw [answerMap_append f s.entries d c (le_of_lt hlt)]
            exact hlab
          · show s.resolvedVal = rvList f (s.entries ++ [d]) (c + 1)
            rw [rvList_append f s.entries d (c + 1) hlt]
            exact hrv
          · show c < (s.entries ++ [d]).length
            simp only [List.length_append, List.length_singleton]
            omega
  | connectDone =>
      simp only [shipStep] at hstep
      rw [hconn] at hstep
      simp at hstep
  | connClose => simp [isConnCloseEv] at hev1
  | fireEnd eid =>
      simp only [shipStep] at hstep
      split at hstep
      case isFalse => exact absurd hstep (by simp)
      case isTrue hg =>
        obtain ⟨hfl, hef⟩ := hg
        rw [hflow] at hfl
        rw [hend] at hef
        cases ph with
        | idle => exact absurd hfl hef
        | fired => exact absurd hfl hef
        | res => exact absurd hfl hef
        | reg =>
            simp only [phFlow, List.mem_range] at hfl
            simp only [phEnd, List.mem_range, Nat.add_zero] at hef
            have heid : c = eid := by omega
            subst heid
            obtain ⟨hlt, htasks, hproc, hrq2⟩ := hm
            rw [getD_lt_getElem? _ _ hlt] at hstep
            simp only [Option.some.injEq] at hstep
            subst hstep
            have hrc : resumeCount s.tasks c = 1 := by
              rw [htasks]
              simp [resumeCount]
            refine ⟨c, C2Phase.fired, hconn, htun, hplain, hq, hansd, ?_,
              hflow, ?_, hrv, hlt, ?_, hproc, ?_⟩
            · show answerLabels (s.log ++ _) = _
              rw [answerLabels_append, hrc]
              show answerLabels s.log ++ [] = _
              rw [List.append_nil]
              exact hlab
            · show s.endFired ++ [c] = _
              rw [hend]
              exact (List.range_succ c).symm
            · show s.tasks.map _ = _
              rw [htasks]
              simp
            · show s.relayQ ++ _ = _
              rw [hrq2, hrc]
              rfl
  | retryDone i =>
      simp only [shipStep] at hstep
      cases htask : s.tasks[i]? with
      | none => rw [htask] at hstep; exact absurd hstep (by simp)
      | some pc0 =>
          rw [htask] at hstep
          cases pc0 with
          | waitRetry eid =>
              exfalso
              rcases htch with ht | ht | ht <;> rw [ht] at htask
              · simp at htask
              · rcases getElem?_singleton htask with ⟨h1, -⟩
                simp at h1
              · rcases getElem?_singleton htask with ⟨h1, -⟩
                simp at h1
          | awaitEnd eid => exact absurd hstep (by simp)
          | stuckEnd eid => exact absurd hstep (by simp)
          | awaitResp eid => exact absurd hstep (by simp)
  | respond env => simp [isRawRespondEv] at hev3
  | relayRespond =>
      simp only [shipStep] at hstep
      rw [if_pos hconn] at hstep
      cases ph with
      | idle =>
          rw [hm.2.2.2] at hstep
          exact absurd hstep (by simp)
      | reg =>
          rw [hm.2.2.2] at hstep
          exact absurd hstep (by simp)
      | res =>
          rw [hm.2.2.2] at hstep
          exact absurd hstep (by simp)
      | fired =>
            obtain ⟨hlt, htasks, hproc, hrq2⟩ := hm
            rw [hrq2] at hstep
            simp only [Option.some.injEq] at hstep
            subst hstep
            have hrl : rvLookup s.resolvedVal c = none := by
              rw [hrv, rvLookup_rvList, if_neg (by simp [phRes])]
            rw [deliverResponse_resolve
              (show ({ s with relayQ := ([] : List ReqEnvelope) } :
                  ShipState).queue.head? = some c from
                (by rw [queue_cons_of_lt hq hlt]; rfl :
                  s.queue.head? = some c))
              hrl]
            refine ⟨c, C2Phase.res, hconn, htun, hplain, hq, hansd, hlab,
              hflow, hend, ?_, hlt, htasks, hproc, rfl⟩
            show s.resolvedVal ++ _ = _
            rw [hrv]
            exact (rvList_succ f s.entries c).symm
  | resumeResp i =>
      simp only [shipStep] at hstep
      cases htask : s.tasks[i]? with
      | none => rw [htask] at hstep; exact absurd hstep (by simp)
      | some pc0 =>
          rw [htask] at hstep
          cases pc0 with
          | waitRetry eid => exact absurd hstep (by simp)
          | awaitEnd eid => exact absurd hstep (by simp)
          | stuckEnd eid => exact absurd hstep (by simp)
          | awaitResp eid =>
              dsimp only at hstep
              cases hrvl : rvLookup s.resolvedVal eid with
              | none => rw [hrvl] at hstep; exact absurd hstep (by simp)
              | some env =>
                  rw [hrvl] at hstep
                  simp only [Option.some.injEq] at hstep
                  subst hstep
                  cases ph with
                  | idle =>
                      exfalso
                      rw [hm.2.1] at htask
                      simp at htask
                  | reg =>
                      exfalso
                      rw [hm.2.1] at htask
                      rcases getElem?_singleton htask with ⟨h1, -⟩
                      simp at h1
                  | fired =>
                      exfalso
                      obtain ⟨hlt, htasks, hproc, hrq2⟩ := hm
                      rw [htasks] at htask
                      rcases getElem?_singleton htask with ⟨h1, -⟩
                      have heid : c = eid := by
                        simp at h1
                        omega
                      subst heid
                      rw [hrv, rvLookup_rvList,
                        if_neg (by simp [phRes])] at hrvl
                      exact absurd hrvl (by simp)
                  | res =>
                      obtain ⟨hlt, htasks, hproc, hrq2⟩ := hm
                      rw [htasks] at htask
                      rcases getElem?_singleton htask with ⟨h1, hi0⟩
                      have heid : c = eid := by
                        simp at h1
                        omega
                      subst heid
                      subst hi0
                      rw [hrv, rvLookup_rvList,
                        if_pos (by simp [phRes])] at hrvl
                      simp only [Option.some.injEq] at hrvl
                      subst hrvl
                      have hna2 : c ∉ (removeTask s 0).answered :=
                        (by rw [hansd]; simp : c ∉ s.answered)
                      by_cases hcn : c + 1 < s.entries.length
                      · have hh2 : s.queue.tail.head? = some (c + 1) := by
                          rw [queue_cons_of_lt hq hlt]
                          show (List.range' (c + 1)
                            (s.entries.length - c - 1)).head? = _
                          rw [show s.entries.length - c - 1 =
                            (s.entries.length - c - 2) + 1 from by omega,
                            List.range'_succ]
                          rfl
                        have hnef2 : c + 1 ∉ s.endFired := by
                          rw [hend]
                          simp [phEnd, List.mem_range]
                        have hnfl2 : c + 1 ∉ s.flowing := by
                          rw [hflow]
                          simp [phFlow, List.mem_range]
                        rw [complete_invoke_register hna2 hh2
                          (getD_lt_getElem? _ _ hcn) (hplain (c + 1) hcn)
                          hconn hnef2 hnfl2]
                        refine ⟨c + 1, C2Phase.reg, hconn, htun, hplain, ?_,
                          ?_, ?_, ?_, hend, hrv, hcn, ?_, rfl, hrq2⟩
                        · show s.queue.tail = _
                          rw [queue_cons_of_lt hq hlt]
                          show List.range' (c + 1) (s.entries.length - c - 1) = _
                          rw [show s.entries.length - c - 1 =
                            s.entries.length - (c + 1) from by omega]
                          rfl
                        · show s.answered ++ [c] = _
                          rw [hansd]
                          exact (List.range_succ c).symm
                        · show answerLabels (s.log ++ _) = _
                          rw [answerLabels_append, hlab, List.range_succ,
                            List.map_append]
                          rfl
                        · show s.flowing ++ [c + 1] = _
                          rw [hflow]
                          exact (List.range_succ (c + 1)).symm
                        · show s.tasks.eraseIdx 0 ++ [TaskPc.awaitEnd (c + 1)] = _
                          rw [htasks]
                          rfl
                      · have hceq2 : c + 1 = s.entries.length := by omega
                        rw [complete_invoke_empty hna2 (by
                          show s.queue.tail = []
                          rw [queue_cons_of_lt hq hlt]
                          show List.range' (c + 1)
                            (s.entries.length - c - 1) = []
                          rw [List.range'_eq_nil]
                          omega)]
                        refine ⟨c + 1, C2Phase.idle, hconn, htun, hplain, ?_,
                          ?_, ?_, hflow, hend, hrv, hceq2, ?_, rfl, hrq2⟩
                        · show s.queue.tail = _
                          rw [queue_cons_of_lt hq hlt]
                          show List.range' (c + 1) (s.entries.length - c - 1) = _
                          rw [show s.entries.length - c - 1 =
                            s.entries.length - (c + 1) from by omega]
                          rfl
                        · show s.answered ++ [c] = _
                          rw [hansd]
                          exact (List.range_succ c).symm
                        · show answerLabels (s.log ++ _) = _
                          rw [answerLabels_append, hlab, List.range_succ,
                            List.map_append]
                          rfl
                        · show s.tasks.eraseIdx 0 = []
                          rw [htasks]
                          rfl
  | timeoutFire i => simp [isTimeoutEv] at hev4
  | tunnelEstablished eid =>
      simp only [shipStep] at hstep
      rw [show findTunnel s eid = none from by
        unfold findTunnel
        rw [htun]
        rfl] at hstep
      exact absurd hstep (by simp)
  | tunnelError eid =>
      simp only [shipStep] at hstep
      rw [show findTunnel s eid = none from by
        unfold findTunnel
        rw [htun]
        rfl] at hstep
      exact absurd hstep (by simp)
  | tunnelClientClose eid =>
      simp only [shipStep] at hstep
      rw [show findTunnel s eid = none from by
        unfold findTunnel
        rw [htun]
        rfl] at hstep
      exact absurd hstep (by simp)
  | tunnelRemoteClose eid =>
      simp only [shipStep] at hstep
      rw [show findTunnel s eid = none from by
        unfold findTunnel
        rw [htun]
        rfl] at hstep
      exact absurd hstep (by simp)

theorem shapeC2_init (f : ReqEnvelope → RespEnvelope) :
    InvShapeC2 f initShipConnected := by
  refine ⟨0, C2Phase.idle, rfl, rfl, ?_, rfl, rfl, rfl, rfl, rfl, rfl, rfl,
    rfl, rfl, rfl⟩
  intro e he
  simp [initShipConnected, initShip] at he

theorem shapeC2_run {f : ReqEnvelope → RespEnvelope} {s s2 : ShipState}
    {evs : List ShipEvent} (h : InvShapeC2 f s)
    (hrun : shipRun f s evs = some s2)
    (hev1 : ∀ ev ∈ evs, isConnCloseEv ev = false)
    (hev2 : ∀ ev ∈ evs, isConnectEnqueueEv ev = false)
    (hev3 : ∀ ev ∈ evs, isRawRespondEv ev = false)
    (hev4 : ∀ ev ∈ evs, isTimeoutEv ev = false) : InvShapeC2 f s2 := by
  induction evs generalizing s with
  | nil =>
      simp only [shipRun, Option.some.injEq] at hrun
      subst hrun
      exact h
  | cons ev evs ih =>
      simp only [shipRun] at hrun
      cases hst : shipStep f s ev with
      | none => rw [hst] at hrun; exact absurd hrun (by simp)
      | some s1 =>
          rw [hst] at hrun
          exact ih
            (shapeC2_step h hst (hev1 ev (by simp)) (hev2 ev (by simp))
              (hev3 ev (by simp)) (hev4 ev (by simp)))
            hrun (fun e he => hev1 e (by simp [he]))
            (fun e he => hev2 e (by simp [he]))
            (fun e he => hev3 e (by simp [he]))
            (fun e he => hev4 e (by simp [he]))

theorem relayFifoState_append (r : Nat) (b : Bool) (xs ys : List RelayLabel) :
    relayFifoState r b (xs ++ ys) =
      (relayFifoState r b xs).bind (fun t => relayFifoState t.1 t.2 ys) := by
  induction xs generalizing r b with
  | nil => rfl
  | cons l ls ih =>
      cases l with
      | beginProcess k =>
          simp only [List.cons_append, relayFifoState]
          split
          · exact ih r true
          · rfl
      | sendResp k env =>
          simp only [List.cons_append, relayFifoState]
          split
          · exact ih (r + 1) false
          · rfl
      | beginTunnel k h2 p => simpa [relayFifoState] using ih r b
      | discard k => simpa [relayFifoState] using ih r b
      | sendRaw k c2 => simpa [relayFifoState] using ih r b
      | rejectExtra => simpa [relayFifoState] using ih r b

theorem relayFifoState_scan (ls : List RelayLabel) :
    ∀ (r : Nat) (b : Bool) (x : Nat × Bool),
      relayFifoState r b ls = some x → relayFifoScan r b ls = true := by
  induction ls with
  | nil => intro r b x h; rfl
  | cons l ls ih =>
      intro r b x h
      cases l with
      | beginProcess k =>
          simp only [relayFifoState] at h
          simp only [relayFifoScan]
          split at h
          next hcond =>
            rw [if_pos hcond]
            exact ih _ _ _ h
          next hcond => exact absurd h (by simp)
      | sendResp k env =>
          simp only [relayFifoState] at h
          simp only [relayFifoScan]
          split at h
          next hcond =>
            rw [if_pos hcond]
            exact ih _ _ _ h
          next hcond => exact absurd h (by simp)
      | beginTunnel k h2 p =>
          simp only [relayFifoState] at h
          simp only [relayFifoScan]
          exact ih _ _ _ h
      | discard k =>
          simp only [relayFifoState] at h
          simp only [relayFifoScan]
          exact ih _ _ _ h
      | sendRaw k c2 =>
          simp only [relayFifoState] at h
          simp only [relayFifoScan]
          exact ih _ _ _ h
      | rejectExtra =>
          simp only [relayFifoState] at h
          simp only [relayFifoScan]
          exact ih _ _ _ h

theorem hrqFuel_stuck {s : RelayState} (fuel : Nat)
    (h : s.processing = true ∨ s.rq = [] ∨ s.sock = false) :
    handleRequestQueueFuel fuel s = s := by
  cases fuel with
  | zero => rfl
  | succ n =>
      unfold handleRequestQueueFuel
      rw [if_pos h]

theorem hrqFuel_begin {s : RelayState} {rid : Nat} {env : ReqEnvelope}
    {rest : List (Nat × Option ReqEnvelope)} (fuel : Nat)
    (hp : s.processing = false) (hsock : s.sock = true)
    (hrq : s.rq = (rid, some env) :: rest)
    (henv : isConnectEnvelope env = false) :
    handleRequestQueueFuel (fuel + 1) s =
      { s with processing := true,
               pending := s.pending ++
                 [{ rid := rid, isTunnel := false, okSent := false,
                    failSent := false }],
               log := s.log ++ [RelayLabel.beginProcess rid] } := by
  unfold handleRequestQueueFuel
  rw [if_neg (by simp [hp, hrq, hsock])]
  rw [show s.rq.head? = some (rid, some env) from by rw [hrq]; rfl]
  dsimp only
  rw [if_neg (by simp [henv])]

theorem cleanup_empty {s : RelayState} (hrt : s.rq.tail = []) :
    cleanupRequest s = { s with processing := false, rq := [] } := by
  unfold cleanupRequest
  rw [hrt]
  unfold handleRequestQueue
  exact hrqFuel_stuck _ (Or.inr (Or.inl rfl))

theorem cleanup_begin {s : RelayState} {rid : Nat} {env : ReqEnvelope}
    {rest : List (Nat × Option ReqEnvelope)}
    (hrt : s.rq.tail = (rid, some env) :: rest) (hsock : s.sock = true)
    (henv : isConnectEnvelope env = false) :
    cleanupRequest s =
      { s with processing := true, rq := (rid, some env) :: rest,
               pending := s.pending ++
                 [{ rid := rid, isTunnel := false, okSent := false,
                    failSent := false }],
               log := s.log ++ [RelayLabel.beginProcess rid] } := by
  unfold cleanupRequest
  rw [hrt]
  unfold handleRequestQueue
  exact hrqFuel_begin rest.length rfl hsock rfl henv

theorem relay_resp_effect {s : RelayState} {rid : Nat} {env2 : RespEnvelope}
    (hpendeq : s.pending = [{ rid := rid, isTunnel := false, okSent := false,
                              failSent := false }]) (hsock : s.sock = true) :
    relaySend (erasePending s rid) (RelayLabel.sendResp rid env2) =
      { s with pending := [],
               log := s.log ++ [RelayLabel.sendResp rid env2] } := by
  unfold erasePending relaySend
  rw [hpendeq]
  have hf : (List.filter (fun p => p.rid != rid)
      [({ rid := rid, isTunnel := false, okSent := false,
          failSent := false } : RelayPending)]) = [] := by
    simp
  rw [hf]
  split
  · rfl
  next h2 => exact absurd hsock h2

theorem relay_resp_cleanup_empty {s : RelayState} {rid : Nat}
    {env2 : RespEnvelope}
    (hpendeq : s.pending = [{ rid := rid, isTunnel := false, okSent := false,
                              failSent := false }])
    (hsock : s.sock = true) (hrt : s.rq.tail = []) :
    cleanupRequest (relaySend (erasePending s rid)
      (RelayLabel.sendResp rid env2)) =
      { s with pending := [],
               log := s.log ++ [RelayLabel.sendResp rid env2],
               processing := false, rq := [] } := by
  rw [relay_resp_effect hpendeq hsock]
  refine Eq.trans (cleanup_empty ?_) rfl
  exact hrt

theorem relay_resp_cleanup_begin {s : RelayState} {rid rid2 : Nat}
    {env2 : RespEnvelope} {env3 : ReqEnvelope}
    {rest : List (Nat × Option ReqEnvelope)}
    (hpendeq : s.pending = [{ rid := rid, isTunnel := false, okSent := false,
                              failSent := false }])
    (hsock : s.sock = true)
    (hrt : s.rq.tail = (rid2, some env3) :: rest)
    (henv : isConnectEnvelope env3 = false) :
    cleanupRequest (relaySend (erasePending s rid)
      (RelayLabel.sendResp rid env2)) =
      { s with pending := [({ rid := rid2, isTunnel := false, okSent := false,
                              failSent := false } : RelayPending)],
               log := (s.log ++ [RelayLabel.sendResp rid env2]) ++
                 [RelayLabel.beginProcess rid2],
               processing := true, rq := (rid2, some env3) :: rest } := by
  rw [relay_resp_effect hpendeq hsock]
  refine Eq.trans (cleanup_begin ?_ ?_ ?_) rfl
  · exact hrt
  · exact hsock
  · exact henv

theorem recv_enqueue_processing {s : RelayState} {p : Option ReqEnvelope}
    (hp : s.processing = true) :
    handleRequestQueue
      { s with rq := s.rq ++ [(s.nextRid, p)], nextRid := s.nextRid + 1 } =
      { s with rq := s.rq ++ [(s.nextRid, p)], nextRid := s.nextRid + 1 } := by
  unfold handleRequestQueue
  exact hrqFuel_stuck _ (Or.inl hp)

theorem recv_enqueue_begin {s : RelayState} {env : ReqEnvelope}
    (hp : s.processing = false) (hsock : s.sock = true) (hrq0 : s.rq = [])
    (henv : isConnectEnvelope env = false) :
    handleRequestQueue
      { s with rq := s.rq ++ [(s.nextRid, some env)],
               nextRid := s.nextRid + 1 } =
      { s with rq := s.rq ++ [(s.nextRid, some env)],
               nextRid := s.nextRid + 1,
               processing := true,
               pending := s.pending ++
                 [{ rid := s.nextRid, isTunnel := false, okSent := false,
                    failSent := false }],
               log := s.log ++ [RelayLabel.beginProcess s.nextRid] } := by
  rw [hrq0]
  unfold handleRequestQueue
  exact hrqFuel_begin 0 hp hsock rfl henv

theorem findPending_shape {s : RelayState} {c rid : Nat} {p : RelayPending}
    (hpend : if s.processing = true then
       s.pending = [{ rid := c, isTunnel := false, okSent := false,
                      failSent := false }] ∧ s.rq ≠ []
     else s.pending = [] ∧ s.rq = [])
    (hfp : findPending s rid = some p) :
    rid = c ∧ p = { rid := c, isTunnel := false, okSent := false,
                    failSent := false } ∧ s.processing = true := by
  by_cases hp : s.processing = true
  · rw [if_pos hp] at hpend
    unfold findPending at hfp
    rw [hpend.1] at hfp
    cases hbe : (c == rid) with
    | true =>
        have h3 : c = rid := by simpa using hbe
        simp only [List.find?, hbe, Option.some.injEq] at hfp
        exact ⟨h3.symm, hfp.symm, hp⟩
    | false =>
        simp only [List.find?, hbe] at hfp
        exact absurd hfp (by simp)
  · rw [if_neg hp] at hpend
    unfold findPending at hfp
    rw [hpend.1] at hfp
    simp at hfp

/-- Completion of the pending outbound call: the response frame is written,
the head entry is removed and the loop either goes idle or begins the next
queued plain request; the relay shape advances by one answered request. -/
theorem relayShape_respond {s : RelayState} {c : Nat} (env2 : RespEnvelope)
    (hscan : relayFifoState 0 false s.log = some (c, s.processing))
    (hcle : c ≤ s.nextRid)
    (hrids : s.rq.map Prod.fst = List.range' c (s.nextRid - c))
    (hpl : ∀ p ∈ s.rq, ∃ env, p.2 = some env ∧ isConnectEnvelope env = false)
    (hp : s.processing = true)
    (hpendeq : s.pending = [{ rid := c, isTunnel := false, okSent := false,
                              failSent := false }])
    (hrqne : s.rq ≠ []) (hsock : s.sock = true) :
    InvRelayShape (cleanupRequest (relaySend (erasePending s c)
      (RelayLabel.sendResp c env2))) := by
  cases hrqc : s.rq with
  | nil => exact absurd hrqc hrqne
  | cons q0 tl =>
      have hlen : tl.length + 1 = s.nextRid - c := by
        have h4 := congrArg List.length hrids
        rw [hrqc] at h4
        simpa using h4
      rw [hrqc] at hrids
      simp only [List.map_cons] at hrids
      rw [← hlen, List.range'_succ] at hrids
      have hsplit : q0.1 = c ∧ tl.map Prod.fst =
          List.range' (c + 1) tl.length := by
        simpa using hrids
      obtain ⟨hq01, htlmap⟩ := hsplit
      cases tl with
      | nil =>
          simp only [List.length_nil] at hlen
          rw [relay_resp_cleanup_empty hpendeq hsock (by rw [hrqc]; rfl)]
          refine ⟨c + 1, ?_, ?_, ?_, ?_, ?_, fun h2 => rfl⟩
          · show relayFifoState 0 false
              (s.log ++ [RelayLabel.sendResp c env2]) = _
            rw [relayFifoState_append, hscan, hp]
            simp [relayFifoState]
          · show c + 1 ≤ s.nextRid
            omega
          · show ([] : List (Nat × Option ReqEnvelope)).map Prod.fst =
              List.range' (c + 1) (s.nextRid - (c + 1))
            simp only [List.map_nil]
            rw [eq_comm, List.range'_eq_nil]
            omega
          · intro p2 hp3
            simp at hp3
          · exact ⟨rfl, rfl⟩
      | cons q1 tl2 =>
          simp only [List.length_cons] at hlen htlmap
          simp only [List.map_cons] at htlmap
          rw [List.range'_succ] at htlmap
          have hsplit2 : q1.1 = c + 1 ∧ tl2.map Prod.fst =
              List.range' (c + 1 + 1) tl2.length := by
            simpa using htlmap
          obtain ⟨hq11, htl2map⟩ := hsplit2
          obtain ⟨env3, hq1p, hq1c⟩ := hpl q1 (by rw [hrqc]; simp)
          obtain ⟨q1a, q1b⟩ := q1
          simp only at hq11 hq1p
          subst hq11
          subst hq1p
          rw [relay_resp_cleanup_begin hpendeq hsock
            (by rw [hrqc]; rfl) hq1c]
          refine ⟨c + 1, ?_, ?_, ?_, ?_, ?_, ?_⟩
          · show relayFifoState 0 false
              ((s.log ++ [RelayLabel.sendResp c env2]) ++
                [RelayLabel.beginProcess (c + 1)]) = _
            rw [relayFifoState_append, relayFifoState_append, hscan, hp]
            simp [relayFifoState]
          · show c + 1 ≤ s.nextRid
            omega
          · show ((c + 1, some env3) :: tl2).map Prod.fst =
              List.range' (c + 1) (s.nextRid - (c + 1))
            simp only [List.map_cons]
            rw [htl2map, show s.nextRid - (c + 1) = tl2.length + 1 from
              by omega, List.range'_succ]
          · intro p2 hp3
            simp only [List.mem_cons] at hp3
            rcases hp3 with h2 | h2
            · subst h2
              exact ⟨env3, rfl, hq1c⟩
            · exact hpl p2 (by rw [hrqc]; simp [h2])
          · exact ⟨rfl, by simp⟩
          · intro h2
            have h3 : s.sock = false := h2
            rw [h3] at hsock
            simp at hsock

/-- Every enabled relay step on a run with no connection loss and only
parseable plain frames preserves the relay shape. -/
theorem relayShape_step {s s2 : RelayState} {ev : RelayEvent}
    (h : InvRelayShape s) (hstep : relayStep s ev = some s2)
    (hev1 : isRelayCloseEv ev = false) (hev2 : isPlainRecvEv ev = true) :
    InvRelayShape s2 := by
  obtain ⟨c, hscan, hcle, hrids, hpl, hpend, hsockp⟩ := h
  cases ev with
  | acceptConn =>
      simp only [relayStep] at hstep
      split at hstep
      case isTrue hsock =>
        simp only [Option.some.injEq] at hstep
        subst hstep
        refine ⟨c, ?_, hcle, hrids, hpl, hpend, ?_⟩
        · show relayFifoState 0 false
            (s.log ++ [RelayLabel.rejectExtra]) = _
          rw [relayFifoState_append, hscan]
          rfl
        · intro h2
          have h3 : s.sock = false := h2
          rw [h3] at hsock
          simp at hsock
      case isFalse hsock =>
        simp only [Option.some.injEq] at hstep
        subst hstep
        exact ⟨c, hscan, hcle, hrids, hpl, hpend,
          fun h2 => absurd h2 (by simp)⟩
  | recvFrame p =>
      cases p with
      | none => simp [isPlainRecvEv] at hev2
      | some env =>
          have henv : isConnectEnvelope env = false := by
            simpa [isPlainRecvEv] using hev2
          simp only [relayStep] at hstep
          split at hstep
          case isFalse => exact absurd hstep (by simp)
          case isTrue hsock =>
            simp only [Option.some.injEq] at hstep
            subst hstep
            by_cases hp : s.processing = true
            · rw [recv_enqueue_processing hp]
              rw [if_pos hp] at hpend
              obtain ⟨hpendeq, hrqne⟩ := hpend
              refine ⟨c, hscan, ?_, ?_, ?_, ?_, fun h2 => hsockp h2⟩
              · show c ≤ s.nextRid + 1
                omega
              · show (s.rq ++ [(s.nextRid, some env)]).map Prod.fst = _
                rw [List.map_append, hrids]
                exact range'_snoc c s.nextRid hcle
              · intro p2 hp3
                rw [List.mem_append] at hp3
                rcases hp3 with h2 | h2
                · exact hpl p2 h2
                · simp at h2
                  subst h2
                  exact ⟨env, rfl, henv⟩
              · show (if s.processing = true then
                    s.pending = [{ rid := c, isTunnel := false,
                                   okSent := false, failSent := false }] ∧
                      s.rq ++ [(s.nextRid, some env)] ≠
                        ([] : List (Nat × Option ReqEnvelope))
                  else s.pending = [] ∧
                    s.rq ++ [(s.nextRid, some env)] =
                      ([] : List (Nat × Option ReqEnvelope)))
                rw [if_pos hp]
                exact ⟨hpendeq, by simp⟩
            · have hp2 : s.processing = false := by
                cases hpv : s.processing
                · rfl
                · exact absurd hpv hp
              rw [if_neg hp] at hpend
              obtain ⟨hpendeq, hrq0⟩ := hpend
              have hceq : c = s.nextRid := by
                rw [hrq0] at hrids
                simp only [List.map_nil] at hrids
                rw [eq_comm, List.range'_eq_nil] at hrids
                omega
              rw [recv_enqueue_begin hp2 hsock hrq0 henv]
              refine ⟨s.nextRid, ?_, ?_, ?_, ?_, ?_, ?_⟩
              · show relayFifoState 0 false
                  (s.log ++ [RelayLabel.beginProcess s.nextRid]) = _
                rw [relayFifoState_append, hscan, hp2, ← hceq]
                simp [relayFifoState]
              · show s.nextRid ≤ s.nextRid + 1
                omega
              · show (s.rq ++ [(s.nextRid, some env)]).map Prod.fst = _
                rw [hrq0, Nat.add_sub_cancel_left]
                rfl
              · intro p2 hp3
                rw [hrq0] at hp3
                simp at hp3
                subst hp3
                exact ⟨env, rfl, henv⟩
              · refine ⟨?_, by simp⟩
                show s.pending ++ _ = _
                rw [hpendeq]
                rfl
              · intro h2
                have h3 : s.sock = false := h2
                rw [h3] at hsock
                simp at hsock
  | httpDone rid st hs body =>
      simp only [relayStep] at hstep
      cases hfp : findPending s rid with
      | none => rw [hfp] at hstep; exact absurd hstep (by simp)
      | some p =>
          rw [hfp] at hstep
          dsimp only at hstep
          obtain ⟨hrc, hpeq, hp⟩ := findPending_shape hpend hfp
          subst hrc
          have hpT : p.isTunnel = false := by rw [hpeq]
          rw [if_pos hpT] at hstep
          simp only [Option.some.injEq] at hstep
          subst hstep
          rw [if_pos hp] at hpend
          obtain ⟨hpendeq, hrqne⟩ := hpend
          have hsock : s.sock = true := by
            cases hs2 : s.sock
            · exact absurd hp (by simp [hsockp hs2])
            · rfl
          exact relayShape_respond _ hscan hcle hrids hpl hp hpendeq
            hrqne hsock
  | httpFail rid msg =>
      simp only [relayStep] at hstep
      cases hfp : findPending s rid with
      | none => rw [hfp] at hstep; exact absurd hstep (by simp)
      | some p =>
          rw [hfp] at hstep
          dsimp only at hstep
          obtain ⟨hrc, hpeq, hp⟩ := findPending_shape hpend hfp
          subst hrc
          have hpT : p.isTunnel = false := by rw [hpeq]
          rw [if_pos hpT] at hstep
          simp only [Option.some.injEq] at hstep
          subst hstep
          rw [if_pos hp] at hpend
          obtain ⟨hpendeq, hrqne⟩ := hpend
          have hsock : s.sock = true := by
            cases hs2 : s.sock
            · exact absurd hp (by simp [hsockp hs2])
            · rfl
          exact relayShape_respond _ hscan hcle hrids hpl hp hpendeq
            hrqne hsock
  | tunnelOk rid =>
      simp only [relayStep] at hstep
      cases hfp : findPending s rid with
      | none => rw [hfp] at hstep; exact absurd hstep (by simp)
      | some p =>
          rw [hfp] at hstep
          dsimp only at hstep
          obtain ⟨hrc, hpeq, hp⟩ := findPending_shape hpend hfp
          have hpT : p.isTunnel = false := by rw [hpeq]
          rw [if_neg (by simp [hpT])] at hstep
          exact absurd hstep (by simp)
  | tunnelErr rid =>
      simp only [relayStep] at hstep
      cases hfp : findPending s rid with
      | none => rw [hfp] at hstep; exact absurd hstep (by simp)
      | some p =>
          rw [hfp] at hstep
          dsimp only at hstep
          obtain ⟨hrc, hpeq, hp⟩ := findPending_shape hpend hfp
          have hpT : p.isTunnel = false := by rw [hpeq]
          rw [if_neg (by simp [hpT])] at hstep
          exact absurd hstep (by simp)
  | tunnelClosed rid =>
      simp only [relayStep] at hstep
      cases hfp : findPending s rid with
      | none => rw [hfp] at hstep; exact absurd hstep (by simp)
      | some p =>
          rw [hfp] at hstep
          dsimp only at hstep
          obtain ⟨hrc, hpeq, hp⟩ := findPending_shape hpend hfp
          have hpT : p.isTunnel = false := by rw [hpeq]
          rw [if_neg (by simp [hpT])] at hstep
          exact absurd hstep (by simp)
  | connClose => simp [isRelayCloseEv] at hev1

theorem relayShape_init : InvRelayShape initRelay :=
  ⟨0, rfl, Nat.le_refl 0, rfl, fun p hp => by simp [initRelay] at hp,
    ⟨rfl, rfl⟩, fun h2 => rfl⟩

theorem relayShape_run {s s2 : RelayState} {evs : List RelayEvent}
    (h : InvRelayShape s) (hrun : relayRun s evs = some s2)
    (hev1 : ∀ ev ∈ evs, isRelayCloseEv ev = false)
    (hev2 : ∀ ev ∈ evs, isPlainRecvEv ev = true) : InvRelayShape s2 := by
  induction evs generalizing s with
  | nil =>
      simp only [relayRun, Option.some.injEq] at hrun
      subst hrun
      exact h
  | cons ev evs ih =>
      simp only [relayRun] at hrun
      cases hst : relayStep s ev with
      | none => rw [hst] at hrun; exact absurd hrun (by simp)
      | some s1 =>
          rw [hst] at hrun
          exact ih
            (relayShape_step h hst (hev1 ev (by simp)) (hev2 ev (by simp)))
            hrun (fun e he => hev1 e (by simp [he]))
            (fun e he => hev2 e (by simp [he]))

/-- Claim C2 is refuted as stated: every enqueued request is plain HTTP, no
raw inbound frame and no timer event occurs, and the relay answers in
arrival order, yet after a transport close during the body await the
reconnect handler starts a second processingLoop invocation for the head
entry, its duplicated type-0 frame draws a second in-order relay response,
and the client of entry 1 receives the response to the request of entry 0:
the answers are not the expected FIFO correlation. -/
theorem C2_fifo_correlation_cex :
    noConnectEnqB c2CexTrace = true ∧ noRawRespondB c2CexTrace = true ∧
    noTimeoutB c2CexTrace = true ∧
    fifoCorrelationOk sampleRelay initShipConnected c2CexTrace = false := by
  decide

/-- Claim C2 (amended): in every execution in which the managed connection
never closes, every enqueued request is plain HTTP, no raw type-1 frame is
injected and no timeout fires, and in which the relay answers in arrival
order, each response is delivered to the client that originated the
matching request in enqueue order (the answers are exactly the expected
responses of entries 0, 1, 2 and so on); and on every relay run with no
connection loss and only parseable plain frames the relay processes its
queue strictly one at a time in FIFO arrival order, the response for
request k being sent after its processing begins and before request k plus
one begins. -/
theorem C2_fifo_correlation_amended (f : ReqEnvelope → RespEnvelope)
    (sevs : List ShipEvent) (revs : List RelayEvent)
    (h1 : ∀ ev ∈ sevs, isConnCloseEv ev = false)
    (h2 : ∀ ev ∈ sevs, isConnectEnqueueEv ev = false)
    (h3 : ∀ ev ∈ sevs, isRawRespondEv ev = false)
    (h4 : ∀ ev ∈ sevs, isTimeoutEv ev = false)
    (h5 : ∀ ev ∈ revs, isRelayCloseEv ev = false)
    (h6 : ∀ ev ∈ revs, isPlainRecvEv ev = true) :
    fifoCorrelationOk f initShipConnected sevs = true ∧
      relayFifoOk revs = true := by
  constructor
  · unfold fifoCorrelationOk
    cases hrun : shipRun f initShipConnected sevs with
    | none => rfl
    | some st =>
        obtain ⟨c, ph, -, -, -, -, -, hlab, -, -, -, -⟩ :=
          shapeC2_run (shapeC2_init f) hrun h1 h2 h3 h4
        have hlen : (answerLabels st.log).length = c := by
          rw [hlab]
          simp
        dsimp only
        rw [hlen]
        exact decide_eq_true hlab
  · unfold relayFifoOk
    cases hrun : relayRun initRelay revs with
    | none => rfl
    | some st =>
        obtain ⟨c, hscan, -, -, -, -, -⟩ :=
          relayShape_run relayShape_init hrun h5 h6
        exact relayFifoState_scan st.log 0 false (c, st.processing) hscan

theorem C2_fifo_correlation_amended_witness :
    noCloseB c2WitnessTrace = true ∧ noConnectEnqB c2WitnessTrace = true ∧
    noRawRespondB c2WitnessTrace = true ∧ noTimeoutB c2WitnessTrace = true ∧
    noRelayCloseB c2RelayWitnessTrace = true ∧
    allPlainRecvB c2RelayWitnessTrace = true ∧
    fifoCorrelationOk sampleRelay initShipConnected c2WitnessTrace = true ∧
    relayFifoOk c2RelayWitnessTrace = true :=
  ⟨by decide, by decide, by decide, by decide, by decide, by decide,
   (C2_fifo_correlation_amended sampleRelay c2WitnessTrace
      c2RelayWitnessTrace (by decide) (by decide) (by decide) (by decide)
      (by decide) (by decide)).1,
   (C2_fifo_correlation_amended sampleRelay c2WitnessTrace
      c2RelayWitnessTrace (by decide) (by decide) (by decide) (by decide)
      (by decide) (by decide)).2⟩
